import Mathlib

/-!
Verification development for the dwt-template-guard core: a shallow
embedding of `src/parser/dwtParser.ts` and `src/template/templateResolver.ts`.

Modelling conventions:
* Text is a `List Char`; all positions are character offsets.  The
  `vscode.Position`/`vscode.Range` values built by the parser are an
  order-isomorphic image of offsets (`doc.positionAt` is strictly monotone),
  so a range is modelled as a pair of offsets.
* Every JavaScript regular expression of the source is realised as a
  deterministic character-level matcher with the same semantics on the
  pattern's grammar (the patterns involved are free of pathological
  backtracking: each greedy/lazy class stops at a delimiter that the class
  itself cannot consume, which is argued case by case in the comments).
* `String.replace(re, f)` with a global regex, `regex.exec` scan loops and
  `regex.test` are realised by generic scanners (`replaceAll`, `findMarkers`,
  `existsMatch`, `replaceFirst`).  Recursion is fuelled by the text length;
  every matcher consumes at least one character, so this fuel is exact.
* JavaScript `Map<string,string>` is an insertion-ordered association list
  with unique keys (`SMap`): `set` updates in place or appends, `get` finds
  the unique entry, iteration order is list order.
-/

set_option maxHeartbeats 4000000
set_option maxRecDepth 16384

namespace DwtGuard

/-- JS regex `\s` (the ASCII part; the markers only ever use the space
character, and all whitespace decisions in the source are over ASCII). -/
def isJsSpace (c : Char) : Bool :=
  c = ' ' || c = '\t' || c = '\n' || c = '\r' || c = '\x0b' || c = '\x0c'

/-- JS regex `\w`: `[A-Za-z0-9_]`. -/
def isWordChar (c : Char) : Bool :=
  ('a' ≤ c && c ≤ 'z') || ('A' ≤ c && c ≤ 'Z') || ('0' ≤ c && c ≤ '9') || c = '_'

/-- ASCII lower-casing on code points, for the source's case-insensitive
regexes (`/i`); the compared patterns are pure ASCII. -/
def lowerN (n : Nat) : Nat := if 65 ≤ n ∧ n ≤ 90 then n + 32 else n

/-- Case-insensitive character comparison used by the `/i` regexes. -/
def charEqCI (c p : Char) : Bool := lowerN c.toNat = lowerN p.toNat

/-- Match a literal pattern as a prefix, returning the remainder. -/
def lit : List Char → List Char → Option (List Char)
  | [], l => some l
  | _ :: _, [] => none
  | p :: ps, c :: cs => if c = p then lit ps cs else none

/-- Case-insensitive `lit`. -/
def litCI : List Char → List Char → Option (List Char)
  | [], l => some l
  | _ :: _, [] => none
  | p :: ps, c :: cs => if charEqCI c p then litCI ps cs else none

/-- Regex `\s*` (greedy; deterministic because the following literal is
never a whitespace character). -/
def dropSpaces (l : List Char) : List Char := l.dropWhile isJsSpace

/-- Regex `\s+` followed by maximal munch. -/
def reqSpaces : List Char → Option (List Char)
  | c :: cs => if isJsSpace c then some (dropSpaces cs) else none
  | [] => none

/-- Regex `([^s]*)s`: capture up to the first `stop` character and consume
it (a lazy `([^s]*?)s` is identical, since the class cannot cross `stop`). -/
def captureTo0 (stop : Char) : List Char → Option (List Char × List Char)
  | [] => none
  | c :: cs =>
    if c = stop then some ([], cs)
    else
      match captureTo0 stop cs with
      | some (cap, r) => some (c :: cap, r)
      | none => none

/-- Regex `([^s]+)s`: like `captureTo0` but the capture must be nonempty. -/
def captureTo1 (stop : Char) (l : List Char) : Option (List Char × List Char) :=
  match l with
  | [] => none
  | c :: _ => if c = stop then none else captureTo0 stop l

/-- Marker-comment opening `<!--\s*` followed by a keyword literal. -/
def openComment (kw : String) (l : List Char) : Option (List Char) :=
  match lit "<!--".data l with
  | some r => lit kw.data (dropSpaces r)
  | none => none

/-- Marker-comment closing `\s*-->`. -/
def closeComment (l : List Char) : Option (List Char) :=
  lit "-->".data (dropSpaces l)

/-- Attribute `\s+key="([^"]+)"` (or `([^"]*?)` when `allowEmpty`). -/
def quotedAttr (key : String) (allowEmpty : Bool) (l : List Char) :
    Option (List Char × List Char) :=
  match reqSpaces l with
  | none => none
  | some r =>
    match lit (key ++ "=\"").data r with
    | none => none
    | some r2 => if allowEmpty then captureTo0 '"' r2 else captureTo1 '"' r2

/-- Marker of shape `<!--\s*kw\s+attr="([^"]+)"\s*-->`. -/
def matchAttrMarker (kw attrKey : String) (l : List Char) :
    Option (List Char × List Char) :=
  match openComment kw l with
  | none => none
  | some r =>
    match quotedAttr attrKey false r with
    | none => none
    | some (nm, r2) =>
      match closeComment r2 with
      | some r3 => some (nm, r3)
      | none => none

/-- Marker of shape `<!--\s*kw\s*-->`. -/
def matchBareMarker (kw : String) (l : List Char) : Option (Unit × List Char) :=
  match openComment kw l with
  | none => none
  | some r =>
    match closeComment r with
    | some r2 => some ((), r2)
    | none => none

/-- Marker of shape `<!--\s*kw\s+name="..."\s+type="..."\s+value="..."\s*-->`
(the `value` capture may be empty), for `TemplateParam` and `InstanceParam`. -/
def matchParamMarker (kw : String) (l : List Char) :
    Option ((List Char × List Char × List Char) × List Char) :=
  match openComment kw l with
  | none => none
  | some r =>
    match quotedAttr "name" false r with
    | none => none
    | some (nm, r2) =>
      match quotedAttr "type" false r2 with
      | none => none
      | some (ty, r3) =>
        match quotedAttr "value" true r3 with
        | none => none
        | some (v, r4) =>
          match closeComment r4 with
          | some r5 => some ((nm, ty, v), r5)
          | none => none

-- Regexes of src/parser/dwtParser.ts, by their source constant names.

def TEMPLATE_BEGIN_EDITABLE (l : List Char) := matchAttrMarker "TemplateBeginEditable" "name" l
def TEMPLATE_END_EDITABLE (l : List Char) := matchBareMarker "TemplateEndEditable" l
def INSTANCE_BEGIN_EDITABLE (l : List Char) := matchAttrMarker "InstanceBeginEditable" "name" l
def INSTANCE_END_EDITABLE (l : List Char) := matchBareMarker "InstanceEndEditable" l

/-- Regex `<!--\s*InstanceBegin\s+template="([^"]+)"(?:\s+codeOutsideHTMLIsLocked="([^"]+)")?\s*-->`.
The optional group is tried greedily; if the whole tail then fails the engine
retries without the group (the retry can only succeed when the group was not
present, since `\s*-->` cannot start with the group's `c`). -/
def INSTANCE_BEGIN (l : List Char) :
    Option ((List Char × Option (List Char)) × List Char) :=
  match openComment "InstanceBegin" l with
  | none => none
  | some r =>
    match quotedAttr "template" false r with
    | none => none
    | some (tp, r2) =>
      match
        (match quotedAttr "codeOutsideHTMLIsLocked" false r2 with
          | some (lk, r3) =>
            match closeComment r3 with
            | some r4 => some ((tp, some lk), r4)
            | none => none
          | none => none) with
      | some res => some res
      | none =>
        match closeComment r2 with
        | some r4 => some ((tp, none), r4)
        | none => none

def INSTANCE_PARAM (l : List Char) := matchParamMarker "InstanceParam" l

/-- Regex `@@\(([^)]+)\)@@`. -/
def TEMPLATE_VARIABLE (l : List Char) : Option (List Char × List Char) :=
  match lit "@@(".data l with
  | none => none
  | some r =>
    match captureTo1 ')' r with
    | none => none
    | some (nm, r2) =>
      match lit "@@".data r2 with
      | some r3 => some (nm, r3)
      | none => none

def TEMPLATE_BEGIN_IF (l : List Char) := matchAttrMarker "TemplateBeginIf" "cond" l
def TEMPLATE_END_IF (l : List Char) := matchBareMarker "TemplateEndIf" l
def TEMPLATE_BEGIN_OPTIONAL (l : List Char) := matchAttrMarker "TemplateBeginOptional" "name" l
def TEMPLATE_END_OPTIONAL (l : List Char) := matchBareMarker "TemplateEndOptional" l
def INSTANCE_BEGIN_OPTIONAL (l : List Char) := matchAttrMarker "InstanceBeginOptional" "name" l
def INSTANCE_END_OPTIONAL (l : List Char) := matchBareMarker "InstanceEndOptional" l

/-- Regex `<!--\s*#BeginLibraryItem\s+"([^"]+)"\s*-->`. -/
def BEGIN_LIBRARY_ITEM (l : List Char) : Option (List Char × List Char) :=
  match openComment "#BeginLibraryItem" l with
  | none => none
  | some r =>
    match reqSpaces r with
    | none => none
    | some r2 =>
      match lit "\"".data r2 with
      | none => none
      | some r3 =>
        match captureTo1 '"' r3 with
        | none => none
        | some (p, r4) =>
          match closeComment r4 with
          | some r5 => some (p, r5)
          | none => none

def END_LIBRARY_ITEM (l : List Char) := matchBareMarker "#EndLibraryItem" l
def TEMPLATE_BEGIN_REPEAT (l : List Char) := matchAttrMarker "TemplateBeginRepeat" "name" l
def TEMPLATE_END_REPEAT (l : List Char) := matchBareMarker "TemplateEndRepeat" l
def INSTANCE_BEGIN_REPEAT (l : List Char) := matchAttrMarker "InstanceBeginRepeat" "name" l
def INSTANCE_END_REPEAT (l : List Char) := matchBareMarker "InstanceEndRepeat" l
def INSTANCE_BEGIN_REPEAT_ENTRY (l : List Char) := matchBareMarker "InstanceBeginRepeatEntry" l
def INSTANCE_END_REPEAT_ENTRY (l : List Char) := matchBareMarker "InstanceEndRepeatEntry" l

-- ---------------------------------------------------------------------------
-- Generic scanning engines (JS `exec` loops, `String.replace`, `test`)
-- ---------------------------------------------------------------------------

/-- A regex match found by a scan: capture plus the offset span of the whole
match, as in `findBeginMarkers`/`findEndMarkers` of the source. -/
structure MarkerM (α : Type) where
  cap : α
  start : Nat
  stop : Nat
deriving Repr, DecidableEq

/-- Scan for all matches, JS global-`exec` style: at each position try the
matcher; on a match record it and continue after its end, otherwise advance
one character.  `fuel` bounds the recursion and is instantiated with the
text length, which is exact because every matcher consumes ≥ 1 character. -/
def scanAux {α : Type} (m : List Char → Option (α × List Char)) :
    Nat → Nat → List Char → List (MarkerM α)
  | 0, _, _ => []
  | _, _, [] => []
  | fuel + 1, pos, c :: cs =>
    match m (c :: cs) with
    | some (a, rest) =>
      let len := (c :: cs).length - rest.length
      ⟨a, pos, pos + len⟩ :: scanAux m fuel (pos + len) rest
    | none => scanAux m fuel (pos + 1) cs

/-- All matches of `m` in `text`, with absolute offsets. -/
def findMarkers {α : Type} (m : List Char → Option (α × List Char))
    (text : List Char) : List (MarkerM α) :=
  scanAux m text.length 0 text

/-- JS `regex.test(text)`: does the matcher succeed at any position? -/
def existsMatch {α : Type} (m : List Char → Option α) (l : List Char) : Bool :=
  l.tails.any fun t => (m t).isSome

/-- JS `text.replace(re, f)` with a global regex and a function replacement:
matches are found left to right in the input, replacements never rescanned. -/
def replaceAllAux {α : Type} (m : List Char → Option (α × List Char))
    (f : α → List Char) : Nat → List Char → List Char
  | _, [] => []
  | 0, l => l
  | fuel + 1, c :: cs =>
    match m (c :: cs) with
    | some (a, rest) => f a ++ replaceAllAux m f fuel rest
    | none => c :: replaceAllAux m f fuel cs

def replaceAll {α : Type} (m : List Char → Option (α × List Char))
    (f : α → List Char) (l : List Char) : List Char :=
  replaceAllAux m f l.length l

/-- JS `text.replace(re, repl)` with a non-global regex: only the first
match is replaced.  The builder `f` receives the text before the match, the
matched slice, the capture and the text after the match, because a string
replacement is expanded from exactly these pieces (`expandRepl` below). -/
def replaceFirstCtxAux {α : Type} (m : List Char → Option (α × List Char))
    (f : List Char → List Char → α → List Char → List Char) :
    Nat → List Char → List Char → List Char
  | _, _, [] => []
  | 0, _, l => l
  | fuel + 1, before, c :: cs =>
    match m (c :: cs) with
    | some (a, rest) =>
      f before ((c :: cs).take ((c :: cs).length - rest.length)) a rest ++ rest
    | none => c :: replaceFirstCtxAux m f fuel (before ++ [c]) cs

/-- First replacement on the suffix `l` of a text whose consumed prefix is
`before`. -/
def replaceFirstFrom {α : Type} (m : List Char → Option (α × List Char))
    (f : List Char → List Char → α → List Char → List Char)
    (before l : List Char) : List Char :=
  replaceFirstCtxAux m f l.length before l

def replaceFirstCtx {α : Type} (m : List Char → Option (α × List Char))
    (f : List Char → List Char → α → List Char → List Char)
    (l : List Char) : List Char :=
  replaceFirstFrom m f [] l

/-- Lazy block content `begin([\s\S]*?)end`: the shortest content after the
begin marker such that the end marker matches immediately afterwards. -/
def matchBlockAux (endM : List Char → Option (Unit × List Char)) :
    Nat → List Char → Option (List Char × List Char)
  | 0, l =>
    match endM l with
    | some (_, r) => some ([], r)
    | none => none
  | fuel + 1, l =>
    match endM l with
    | some (_, r) => some ([], r)
    | none =>
      match l with
      | [] => none
      | c :: cs =>
        match matchBlockAux endM fuel cs with
        | some (ct, r) => some (c :: ct, r)
        | none => none

/-- Regex `begin …([\s\S]*?)… end` as one matcher: capture the begin's
groups and the lazy content between the markers. -/
def matchBlock {β : Type} (beginM : List Char → Option (β × List Char))
    (endM : List Char → Option (Unit × List Char)) (l : List Char) :
    Option ((β × List Char) × List Char) :=
  match beginM l with
  | none => none
  | some (b, r) =>
    match matchBlockAux endM r.length r with
    | some (ct, rest) => some ((b, ct), rest)
    | none => none

/-- First occurrence of a literal inside a text (substring test). -/
def hasSub (hay sub : List Char) : Bool :=
  hay.tails.any fun t => (lit sub t).isSome

-- ---------------------------------------------------------------------------
-- Parser data model (src/parser/types.ts, offsets in place of positions)
-- ---------------------------------------------------------------------------

/-- A half-open offset interval `[start, stop)`; the model of `vscode.Range`. -/
structure Range where
  start : Nat
  stop : Nat
deriving Repr, DecidableEq

/-- Does a range contain an offset? -/
def Range.containsB (r : Range) (p : Nat) : Bool := r.start ≤ p && p < r.stop

inductive DwtFileType where
  | template
  | instancePage
  | none
deriving Repr, DecidableEq

structure EditableRegion where
  name : String
  beginMarkerRange : Range
  endMarkerRange : Range
  contentRange : Range
  fullRange : Range
deriving Repr, DecidableEq

structure InstanceParam where
  name : String
  type : String
  value : String
  range : Range
  valueRange : Range
deriving Repr, DecidableEq

structure TemplateDeclaration where
  templatePath : String
  codeOutsideHTMLIsLocked : Bool
  range : Range
deriving Repr, DecidableEq

structure TemplateVariable where
  name : String
  range : Range
deriving Repr, DecidableEq

structure ConditionalRegion where
  condition : String
  contentRange : Range
  fullRange : Range
deriving Repr, DecidableEq

structure OptionalRegion where
  name : String
  contentRange : Range
  fullRange : Range
deriving Repr, DecidableEq

structure LibraryItem where
  path : String
  beginMarkerRange : Range
  endMarkerRange : Range
  contentRange : Range
  fullRange : Range
deriving Repr, DecidableEq

structure RepeatEntry where
  editableRegions : List EditableRegion
  fullRange : Range
  contentRange : Range
deriving Repr, DecidableEq

structure RepeatRegion where
  name : String
  entries : List RepeatEntry
  beginMarkerRange : Range
  endMarkerRange : Range
  fullRange : Range
deriving Repr, DecidableEq

structure DwtParseResult where
  fileType : DwtFileType
  templateDeclaration : Option TemplateDeclaration
  editableRegions : List EditableRegion
  protectedRegions : List Range
  instanceParams : List InstanceParam
  templateVariables : List TemplateVariable
  conditionalRegions : List ConditionalRegion
  optionalRegions : List OptionalRegion
  libraryItems : List LibraryItem
  repeatRegions : List RepeatRegion
deriving Repr, DecidableEq

-- ---------------------------------------------------------------------------
-- Parser (src/parser/dwtParser.ts)
-- ---------------------------------------------------------------------------

/-- A begin/end marker pair, before being shaped into a family record. -/
structure RegionM (α : Type) where
  cap : α
  bStart : Nat
  bStop : Nat
  eStart : Nat
  eStop : Nat
deriving Repr, DecidableEq

def RegionM.contentStart {α : Type} (r : RegionM α) : Nat := r.bStop
def RegionM.contentStop {α : Type} (r : RegionM α) : Nat := r.eStart

/-- The begin/end pairing loop the source repeats for every marker family.
The mutable `endIdx` cursor over `ends` is represented by the remaining
suffix of `ends`; the cursor-advancing `while` is the `dropWhile`.  The
families differ only in the advance test: `skipEq = false` models
`ends[endIdx].start < begin.end` (editable, conditional, optional) and
`skipEq = true` models `ends[endIdx].start <= begin.end` (repeat regions,
repeat entries, library items). -/
def pairMarkers {α : Type} (skipEq : Bool) :
    List (MarkerM α) → List (MarkerM Unit) → List (RegionM α)
  | [], _ => []
  | b :: bs, ends =>
    match ends.dropWhile
        (fun e => if skipEq then e.start ≤ b.stop else e.start < b.stop) with
    | [] => []
    | e :: es => ⟨b.cap, b.start, b.stop, e.start, e.stop⟩ :: pairMarkers skipEq bs es

/-- Modelled from the spec's words (§4.1 step 2 / C4): pair each begin, in
order, with the first unconsumed end marker that can close it, consuming
the skipped ends; stop when no end remains. -/
def pairPerSpec {α : Type} (canClose : MarkerM α → MarkerM Unit → Bool) :
    List (MarkerM α) → List (MarkerM Unit) → List (RegionM α)
  | [], _ => []
  | b :: bs, ends =>
    let i := ends.findIdx fun e => canClose b e
    if h : i < ends.length then
      let e := ends.get ⟨i, h⟩
      ⟨b.cap, b.start, b.stop, e.start, e.stop⟩ ::
        pairPerSpec canClose bs (ends.drop (i + 1))
    else []

def RegionM.toEditable (r : RegionM (List Char)) : EditableRegion :=
  ⟨String.mk r.cap, ⟨r.bStart, r.bStop⟩, ⟨r.eStart, r.eStop⟩,
    ⟨r.bStop, r.eStart⟩, ⟨r.bStart, r.eStop⟩⟩

/-- `parseEditableRegions`: scan begins and ends, pair them in order. -/
def parseEditableRegions (beginM : List Char → Option (List Char × List Char))
    (endM : List Char → Option (Unit × List Char)) (text : List Char) :
    List EditableRegion :=
  (pairMarkers false (findMarkers beginM text) (findMarkers endM text)).map
    RegionM.toEditable

/-- `detectFileType`: regex tests `<!--\s*InstanceBegin\s`,
`<!--\s*InstanceBeginEditable\s` and `<!--\s*TemplateBeginEditable\s`. -/
def matchKwWs (kw : String) (l : List Char) : Option (List Char) :=
  match openComment kw l with
  | some (c :: cs) => if isJsSpace c then some cs else none
  | _ => none

def detectFileType (text : List Char) : DwtFileType :=
  if existsMatch (matchKwWs "InstanceBegin") text ||
      existsMatch (matchKwWs "InstanceBeginEditable") text then
    .instancePage
  else if existsMatch (matchKwWs "TemplateBeginEditable") text then
    .template
  else .none

/-- Gaps between consecutive sorted content ranges (the middle loop of
`computeProtectedRegions`). -/
def gapsBetween : List Range → List Range
  | a :: b :: rest =>
    (if a.stop < b.start then [⟨a.stop, b.start⟩] else []) ++ gapsBetween (b :: rest)
  | _ => []

/-- Last element of a nonempty list, carried as head + tail. -/
def lastOf (a : Range) : List Range → Range
  | [] => a
  | b :: r => lastOf b r

/-- Sorting comparator of `computeProtectedRegions`
(`a.contentRange.start.compareTo(b.contentRange.start)`). -/
def leStart (a b : Range) : Prop := a.start ≤ b.start

instance : DecidableRel leStart := fun a b => Nat.decLe a.start b.start

/-- The engine's `Array.prototype.sort` is a stable comparison sort; it is
modelled by insertion sort.  All properties proved below about the sorted
list are invariant under permutations of equal keys, so the exact stable
order of ties is immaterial. -/
def sortRanges (l : List Range) : List Range := List.insertionSort leStart l

/-- Body of `computeProtectedRegions` for a nonempty sorted list: the gap
before the first region, the gaps between consecutive regions and the gap
after the last, each only when nonempty. -/
def protectedOfSorted (len : Nat) : List Range → List Range
  | [] => []
  | s0 :: rest =>
    (if 0 < s0.start then [⟨0, s0.start⟩] else []) ++
      gapsBetween (s0 :: rest) ++
      (let lst := lastOf s0 rest
        if lst.stop < len then [⟨lst.stop, len⟩] else [])

/-- `computeProtectedRegions`: the complement of the editable content
ranges; the whole document when there are none. -/
def computeProtectedRegions (len : Nat) (contentRanges : List Range) : List Range :=
  if contentRanges.isEmpty then [⟨0, len⟩]
  else protectedOfSorted len (sortRanges contentRanges)

/-- First match position of `m` inside `l` (offset plus capture), used by
`parseInstanceParams` to find `value="…"` inside a matched comment. -/
def firstMatch {α : Type} (m : List Char → Option (α × List Char))
    (text : List Char) : Option (MarkerM α) :=
  match findMarkers m text with
  | [] => Option.none
  | x :: _ => some x

/-- Inner regex `value="([^"]*?)"` of `parseInstanceParams`. -/
def VALUE_ATTR (l : List Char) : Option (List Char × List Char) :=
  match lit "value=\"".data l with
  | none => none
  | some r => captureTo0 '"' r

/-- `parseInstanceParams`: scan `InstanceParam` markers; the `valueRange` is
recovered by re-matching `value="…"` inside the matched comment text. -/
def parseInstanceParams (text : List Char) : List InstanceParam :=
  (findMarkers INSTANCE_PARAM text).map fun mk =>
    let matched := (text.drop mk.start).take (mk.stop - mk.start)
    let valueRange : Range :=
      match firstMatch VALUE_ATTR matched with
      | some vm =>
        let vStart := mk.start + vm.start + "value=\"".length
        ⟨vStart, vStart + vm.cap.length⟩
      | Option.none => ⟨mk.start, mk.stop⟩
    ⟨String.mk mk.cap.1, String.mk mk.cap.2.1, String.mk mk.cap.2.2,
      ⟨mk.start, mk.stop⟩, valueRange⟩

/-- `parseTemplateDeclaration`: first `InstanceBegin` match;
`codeOutsideHTMLIsLocked` is `match[2] !== 'false'`. -/
def parseTemplateDeclaration (text : List Char) : Option TemplateDeclaration :=
  match findMarkers INSTANCE_BEGIN text with
  | [] => Option.none
  | mk :: _ =>
    some ⟨String.mk mk.cap.1, decide ¬(mk.cap.2 = some "false".data),
      ⟨mk.start, mk.stop⟩⟩

/-- `parseTemplateVariables`: all `@@(…)@@` occurrences. -/
def parseTemplateVariables (text : List Char) : List TemplateVariable :=
  (findMarkers TEMPLATE_VARIABLE text).map fun mk =>
    ⟨String.mk mk.cap, ⟨mk.start, mk.stop⟩⟩

/-- `parseConditionalRegions`: scan + pair with the strict advance test. -/
def parseConditionalRegions (text : List Char) : List ConditionalRegion :=
  (pairMarkers false (findMarkers TEMPLATE_BEGIN_IF text)
      (findMarkers TEMPLATE_END_IF text)).map fun r =>
    ⟨String.mk r.cap, ⟨r.bStop, r.eStart⟩, ⟨r.bStart, r.eStop⟩⟩

/-- `parseOptionalRegions`: instance or template marker variant by file
type, strict advance test. -/
def parseOptionalRegions (text : List Char) (fileType : DwtFileType) :
    List OptionalRegion :=
  let beginM := if fileType = .instancePage then INSTANCE_BEGIN_OPTIONAL else TEMPLATE_BEGIN_OPTIONAL
  let endM := if fileType = .instancePage then INSTANCE_END_OPTIONAL else TEMPLATE_END_OPTIONAL
  (pairMarkers false (findMarkers beginM text) (findMarkers endM text)).map fun r =>
    ⟨String.mk r.cap, ⟨r.bStop, r.eStart⟩, ⟨r.bStart, r.eStop⟩⟩

/-- `parseLibraryItems`: scan + pair; note the advance test is
`ends[endIdx].start <= begin.end` (an end marker starting exactly at the
begin marker's end offset is skipped). -/
def parseLibraryItems (text : List Char) : List LibraryItem :=
  (pairMarkers true (findMarkers BEGIN_LIBRARY_ITEM text)
      (findMarkers END_LIBRARY_ITEM text)).map fun r =>
    ⟨String.mk r.cap, ⟨r.bStart, r.bStop⟩, ⟨r.eStart, r.eStop⟩,
      ⟨r.bStop, r.eStart⟩, ⟨r.bStart, r.eStop⟩⟩

/-- Nested editable regions inside one repeat entry (offsets translated back
to absolute document coordinates; strict advance test). -/
def parseEntryEditables (entryContent : List Char) (ebOffset : Nat) :
    List EditableRegion :=
  (pairMarkers false (findMarkers INSTANCE_BEGIN_EDITABLE entryContent)
      (findMarkers INSTANCE_END_EDITABLE entryContent)).map fun r =>
    ⟨String.mk r.cap, ⟨ebOffset + r.bStart, ebOffset + r.bStop⟩,
      ⟨ebOffset + r.eStart, ebOffset + r.eStop⟩,
      ⟨ebOffset + r.bStop, ebOffset + r.eStart⟩,
      ⟨ebOffset + r.bStart, ebOffset + r.eStop⟩⟩

/-- Entries of one instance repeat region (advance test `<=` for the entry
pairing, matching the source). -/
def parseRepeatEntries (text : List Char) (obStop oeStart : Nat) :
    List RepeatEntry :=
  let regionText := (text.drop obStop).take (oeStart - obStop)
  let entryBegins := (findMarkers INSTANCE_BEGIN_REPEAT_ENTRY regionText).map
    fun mk => MarkerM.mk mk.cap (obStop + mk.start) (obStop + mk.stop)
  let entryEnds := (findMarkers INSTANCE_END_REPEAT_ENTRY regionText).map
    fun mk => MarkerM.mk mk.cap (obStop + mk.start) (obStop + mk.stop)
  (pairMarkers true entryBegins entryEnds).map fun r =>
    let entryContent := (text.drop r.bStop).take (r.eStart - r.bStop)
    ⟨parseEntryEditables entryContent r.bStop,
      ⟨r.bStart, r.eStop⟩, ⟨r.bStop, r.eStart⟩⟩

/-- `parseRepeatRegions`: template files define empty repeat regions;
instance files carry entries.  The outer advance test is `<=`. -/
def parseRepeatRegions (text : List Char) (fileType : DwtFileType) :
    List RepeatRegion :=
  if fileType = .template then
    (pairMarkers true (findMarkers TEMPLATE_BEGIN_REPEAT text)
        (findMarkers TEMPLATE_END_REPEAT text)).map fun r =>
      ⟨String.mk r.cap, [], ⟨r.bStart, r.bStop⟩, ⟨r.eStart, r.eStop⟩,
        ⟨r.bStart, r.eStop⟩⟩
  else
    (pairMarkers true (findMarkers INSTANCE_BEGIN_REPEAT text)
        (findMarkers INSTANCE_END_REPEAT text)).map fun r =>
      ⟨String.mk r.cap, parseRepeatEntries text r.bStop r.eStart,
        ⟨r.bStart, r.bStop⟩, ⟨r.eStart, r.eStop⟩, ⟨r.bStart, r.eStop⟩⟩

/-- Content ranges of a list of editable regions. -/
def contentRangesOf (regs : List EditableRegion) : List Range :=
  regs.map fun r => r.contentRange

/-- `parseDocument`: the whole parse pipeline.  Library-item content ranges
are appended to the protected set at the end. -/
def parseDocument (text : String) : DwtParseResult :=
  let t := text.data
  let fileType := detectFileType t
  if fileType = .none then
    ⟨.none, Option.none, [], [], [], [], [], [], [], []⟩
  else
    let editableRegions :=
      if fileType = .template then
        parseEditableRegions TEMPLATE_BEGIN_EDITABLE TEMPLATE_END_EDITABLE t
      else
        parseEditableRegions INSTANCE_BEGIN_EDITABLE INSTANCE_END_EDITABLE t
    let protectedRegions :=
      computeProtectedRegions t.length (contentRangesOf editableRegions)
    let templateDeclaration :=
      if fileType = .instancePage then parseTemplateDeclaration t else Option.none
    let instanceParams :=
      if fileType = .instancePage then parseInstanceParams t else []
    let libraryItems := parseLibraryItems t
    ⟨fileType, templateDeclaration, editableRegions,
      protectedRegions ++ libraryItems.map (fun i => i.contentRange),
      instanceParams, parseTemplateVariables t, parseConditionalRegions t,
      parseOptionalRegions t fileType, libraryItems,
      parseRepeatRegions t fileType⟩

-- ---------------------------------------------------------------------------
-- Resolver (src/template/templateResolver.ts)
-- ---------------------------------------------------------------------------

/-- The single-quote character. -/
def sqChar : Char := Char.ofNat 39

/-- JS `Map<string, string>`: insertion-ordered association list with unique
keys.  Iteration order (`entries()`) is list order. -/
abbrev SMap := List (String × String)

/-- JS `Map.get`. -/
def SMap.get (m : SMap) (k : String) : Option String :=
  (m.find? fun kv => kv.1 = k).map fun kv => kv.2

/-- JS `Map.has`. -/
def SMap.hasKey (m : SMap) (k : String) : Bool := (SMap.get m k).isSome

/-- JS `Map.set`: update in place (keeping insertion position) or append. -/
def SMap.set : SMap → String → String → SMap
  | [], k, v => [(k, v)]
  | kv0 :: rest, k, v =>
    if kv0.1 = k then (kv0.1, v) :: rest else kv0 :: SMap.set rest k v

/-- JS `m.get(k) || fallback` (the empty string is falsy). -/
def SMap.getOr (m : SMap) (k fallback : String) : String :=
  match SMap.get m k with
  | some v => if v = "" then fallback else v
  | Option.none => fallback

/-- JS `Map<string, Map<string,string>[]>` for repeat entries. -/
abbrev RMap := List (String × List SMap)

def RMap.get (m : RMap) (k : String) : Option (List SMap) :=
  (m.find? fun kv => kv.1 = k).map fun kv => kv.2

/-- JS `String.trim` (ASCII whitespace; the conditions involved are ASCII). -/
def jsTrim (s : List Char) : List Char :=
  ((s.dropWhile isJsSpace).reverse.dropWhile isJsSpace).reverse

/-- Bracket accessor `_document\['([^']+)'\]` as a prefix matcher. -/
def matchDocBracket (l : List Char) : Option (List Char × List Char) :=
  match lit ("_document[".data ++ [sqChar]) l with
  | Option.none => none
  | some r =>
    match captureTo1 sqChar r with
    | Option.none => none
    | some (nm, r2) =>
      match lit "]".data r2 with
      | some r3 => some (nm, r3)
      | Option.none => none

/-- Alternation `(?:_document\['([^']+)'\]|(\w+))`.  When the bracket branch
succeeds, the word branch could not have let the tail succeed (after
`_document` the next character is `[`, which cannot start `\s*(==|!=)`), so
committing to the bracket branch is faithful to the backtracking engine. -/
def matchCondName (l : List Char) : Option (List Char × List Char) :=
  match matchDocBracket l with
  | some res => some res
  | Option.none =>
    let nm := l.takeWhile isWordChar
    if nm.isEmpty then none else some (nm, l.drop nm.length)

/-- Operator part `\s*(==|!=)\s*`; `true` captures `==`. -/
def matchCmpOp (l : List Char) : Option (Bool × List Char) :=
  let r := dropSpaces l
  match lit "==".data r with
  | some r2 => some (true, dropSpaces r2)
  | Option.none =>
    match lit "!=".data r with
    | some r2 => some (false, dropSpaces r2)
    | Option.none => none

/-- Quoted comparand `q([^q]*)q`. -/
def matchQuoted (q : Char) (l : List Char) : Option (List Char × List Char) :=
  match l with
  | c :: cs => if c = q then captureTo0 q cs else none
  | [] => none

/-- The comparison regexes of `evaluateCondition`
(`^(?:_document\['([^']+)'\]|(\w+))\s*(==|!=)\s*q([^q]*)q` — note there is
no `$` anchor: any trailing text after the closing quote is accepted). -/
def matchComparison (q : Char) (l : List Char) :
    Option (List Char × Bool × List Char) :=
  match matchCondName l with
  | Option.none => none
  | some (nm, r) =>
    match matchCmpOp r with
    | Option.none => none
    | some (isEq, r2) =>
      match matchQuoted q r2 with
      | Option.none => none
      | some (v, _) => some (nm, isEq, v)

/-- Fully-anchored bracket form `^_document\['([^']+)'\]$`. -/
def matchBracketFull (l : List Char) : Option (List Char) :=
  match matchDocBracket l with
  | some (nm, []) => some nm
  | _ => none

/-- `evaluateCondition`: the condition grammar of the resolver. -/
def evaluateCondition (condition : String) (params : SMap) : Bool :=
  let t := jsTrim condition.data
  match matchComparison sqChar t with
  | some (nm, isEq, v) =>
    let actual := (SMap.get params (String.mk nm)).getD ""
    if isEq then actual = String.mk v else ¬(actual = String.mk v)
  | Option.none =>
    match matchComparison '"' t with
    | some (nm, isEq, v) =>
      let actual := (SMap.get params (String.mk nm)).getD ""
      if isEq then actual = String.mk v else ¬(actual = String.mk v)
    | Option.none =>
      match matchBracketFull t with
      | some nm => (SMap.get params (String.mk nm)).getD "" = "true"
      | Option.none =>
        if t ≠ [] ∧ t.all isWordChar then
          (SMap.get params (String.mk t)).getD "" = "true"
        else true

structure TemplateParamDef where
  name : String
  type : String
  value : String
deriving Repr, DecidableEq

def TEMPLATE_PARAM (l : List Char) := matchParamMarker "TemplateParam" l

/-- `parseTemplateParams` (resolver side). -/
def parseTemplateParams (text : List Char) : List TemplateParamDef :=
  (findMarkers TEMPLATE_PARAM text).map fun mk =>
    ⟨String.mk mk.cap.1, String.mk mk.cap.2.1, String.mk mk.cap.2.2⟩

def isSpTab (c : Char) : Bool := c = ' ' || c = '\t'

/-- Regex `[ \t]*<!--\s*TemplateParam …-->\n?` used to delete the
declaration lines. -/
def matchParamLine (l : List Char) : Option (Unit × List Char) :=
  let sp := l.takeWhile isSpTab
  match TEMPLATE_PARAM (l.drop sp.length) with
  | Option.none => none
  | some (_, r) =>
    match r with
    | c :: rest => if c = '\n' then some ((), rest) else some ((), c :: rest)
    | [] => some ((), [])

def removeTemplateParamLines (text : List Char) : List Char :=
  replaceAll matchParamLine (fun _ => []) text

/-- `resolveOptionalRegions`. -/
def resolveOptionalRegions (params : SMap) (text : List Char) : List Char :=
  replaceAll (matchBlock TEMPLATE_BEGIN_OPTIONAL TEMPLATE_END_OPTIONAL)
    (fun bc =>
      let isVisible := match SMap.get params (String.mk bc.1) with
        | Option.none => true
        | some v => v = "true"
      if !isVisible then []
      else
        "<!-- InstanceBeginOptional name=\"".data ++ bc.1 ++ "\" -->".data ++
          bc.2 ++ "<!-- InstanceEndOptional -->".data)
    text

/-- `resolveEditableRegions`: substitute caller content (or keep the
template default) and re-wrap in instance markers. -/
def resolveEditableRegions (editableContents : SMap) (text : List Char) : List Char :=
  replaceAll (matchBlock TEMPLATE_BEGIN_EDITABLE TEMPLATE_END_EDITABLE)
    (fun bc =>
      let content := if SMap.hasKey editableContents (String.mk bc.1) then
          ((SMap.get editableContents (String.mk bc.1)).getD "").data
        else bc.2
      "<!-- InstanceBeginEditable name=\"".data ++ bc.1 ++ "\" -->".data ++
        content ++ "<!-- InstanceEndEditable -->".data)
    text

/-- `resolveRepeatRegions`: one instance entry per supplied entry, or one
default entry when the supplied list is missing or empty
(`entries && entries.length > 0 ? entries : [new Map()]`). -/
def resolveRepeatRegions (repeatEntries : RMap) (text : List Char) : List Char :=
  replaceAll (matchBlock TEMPLATE_BEGIN_REPEAT TEMPLATE_END_REPEAT)
    (fun bc =>
      let entryList : List SMap :=
        match RMap.get repeatEntries (String.mk bc.1) with
        | some es => if 0 < es.length then es else [[]]
        | Option.none => [[]]
      let entryBlocks := entryList.map fun entryContents =>
        "<!-- InstanceBeginRepeatEntry -->".data ++
          resolveEditableRegions entryContents bc.2 ++
          "<!-- InstanceEndRepeatEntry -->".data
      "<!-- InstanceBeginRepeat name=\"".data ++ bc.1 ++ "\" -->".data ++
        entryBlocks.flatten ++ "<!-- InstanceEndRepeat -->".data)
    text

/-- One scan-and-replace pass of `resolveConditionals`. -/
def condPass (params : SMap) (text : List Char) : List Char :=
  replaceAll (matchBlock TEMPLATE_BEGIN_IF TEMPLATE_END_IF)
    (fun bc => if evaluateCondition (String.mk bc.1) params then bc.2 else [])
    text

/-- `resolveConditionals` is an unbounded `while (prev !== text)` loop in
the source.  Each productive pass strictly shortens the text (proved
below), so `length + 1` passes always reach the fixed point; the fuelled
definition computes exactly the loop's limit. -/
def resolveConditionalsFuel (params : SMap) : Nat → List Char → List Char
  | 0, text => text
  | fuel + 1, text =>
    let next := condPass params text
    if next = text then text else resolveConditionalsFuel params fuel next

def resolveConditionals (params : SMap) (text : List Char) : List Char :=
  resolveConditionalsFuel params (text.length + 1) text

/-- `resolveVariables`: replace `@@(…)@@` with the parameter value. -/
def resolveVariables (params : SMap) (text : List Char) : List Char :=
  replaceAll TEMPLATE_VARIABLE
    (fun expr =>
      let t := jsTrim expr
      match matchBracketFull t with
      | some nm => ((SMap.get params (String.mk nm)).getD "").data
      | Option.none => ((SMap.get params (String.mk t)).getD "").data)
    text

/-- `syncInstanceParams` (nested-template branch). -/
def syncInstanceParams (params paramTypes : SMap) (text : List Char) : List Char :=
  replaceAll INSTANCE_PARAM
    (fun caps =>
      let name := String.mk caps.1
      let value := if SMap.hasKey params name then (SMap.get params name).getD "" else ""
      let resolvedType := SMap.getOr paramTypes name (String.mk caps.2.1)
      ("<!-- InstanceParam name=\"" ++ name ++ "\" type=\"" ++ resolvedType ++
        "\" value=\"" ++ value ++ "\" -->").data)
    text

/-- `resolveNestedEditableRegions` (nested-template branch). -/
def resolveNestedEditableRegions (editableContents : SMap) (text : List Char) : List Char :=
  replaceAll (matchBlock INSTANCE_BEGIN_EDITABLE INSTANCE_END_EDITABLE)
    (fun bc =>
      let content := if SMap.hasKey editableContents (String.mk bc.1) then
          ((SMap.get editableContents (String.mk bc.1)).getD "").data
        else bc.2
      "<!-- InstanceBeginEditable name=\"".data ++ bc.1 ++ "\" -->".data ++
        content ++ "<!-- InstanceEndEditable -->".data)
    text

-- Node path.posix helpers used by the relative-path rewriter.

/-- Split on `/` (the structural equivalent of `String.splitOn "/"`,
kept kernel-reducible). -/
def splitOnSlashAux : List Char → List Char → List String
  | [], acc => [String.mk acc.reverse]
  | c :: cs, acc =>
    if c = '/' then String.mk acc.reverse :: splitOnSlashAux cs []
    else splitOnSlashAux cs (c :: acc)

def splitOnSlash (s : String) : List String := splitOnSlashAux s.data []

/-- Component form of Node's `normalizeString` (`.`/`..`/empty handling;
`allowAboveRoot` keeps leading `..` segments of relative paths). -/
def normComps (allowAboveRoot : Bool) : List String → List String → List String
  | [], acc => acc.reverse
  | c :: rest, acc =>
    if c = "" ∨ c = "." then normComps allowAboveRoot rest acc
    else if c = ".." then
      match acc with
      | top :: accRest =>
        if top = ".." then normComps allowAboveRoot rest (c :: top :: accRest)
        else normComps allowAboveRoot rest accRest
      | [] =>
        if allowAboveRoot then normComps allowAboveRoot rest [".."]
        else normComps allowAboveRoot rest []
    else normComps allowAboveRoot rest (c :: acc)

/-- Right-to-left argument accumulation of Node `path.posix.resolve`. -/
def resolveAccum : List String → String → Bool × String
  | [], acc => (false, acc)
  | p :: rest, acc =>
    if p = "" then resolveAccum rest acc
    else
      let acc2 := p ++ "/" ++ acc
      if p.data.head? = some '/' then (true, acc2) else resolveAccum rest acc2

/-- Node `path.posix.resolve` over arguments listed right to left, with the
process cwd (used only when no argument is absolute) fixed to `/`: the
extension resolves site-absolute `/…` paths only. -/
def posixResolveArgs (argsRev : List String) : String :=
  let ab := resolveAccum argsRev ""
  let comps := normComps (!ab.1) (splitOnSlash ab.2) []
  let norm := String.intercalate "/" comps
  if ab.1 then (if norm = "" then "/" else "/" ++ norm)
  else (if norm = "" then "." else norm)

def posixResolve (base target : String) : String :=
  posixResolveArgs [target, base, "/"]

def posixResolve1 (p : String) : String := posixResolveArgs [p, "/"]

def lastSlashPos (l : List Char) : Option Nat :=
  match l.reverse.findIdx? (fun c => c = '/') with
  | some j => some (l.length - 1 - j)
  | Option.none => Option.none

/-- Node `path.posix.dirname`. -/
def posixDirname (p : String) : String :=
  let l := p.data
  if l = [] then "."
  else
    let hasRoot := l.head? = some '/'
    let rest := l.drop 1
    let rtrimmed := (rest.reverse.dropWhile fun c => c = '/').reverse
    match lastSlashPos rtrimmed with
    | Option.none => if hasRoot then "/" else "."
    | some i =>
      let e := 1 + i
      if hasRoot ∧ e = 1 then "//" else String.mk (l.take e)

def countCharIn (c : Char) (l : List Char) : Nat := l.countP fun x => x = c

/-- Longest common prefix walk of Node `path.posix.relative`: returns the
mismatch index and one plus the index of the last common separator. -/
def lcpWalk : List Char → List Char → Nat → Nat → Nat × Nat
  | a :: as, b :: bs, i, lcs1 =>
    if a = b then lcpWalk as bs (i + 1) (if a = '/' then i + 1 else lcs1)
    else (i, lcs1)
  | _, _, i, lcs1 => (i, lcs1)

/-- Node `path.posix.relative(from, to)`. -/
def posixRelative (fromP toP : String) : String :=
  let f := posixResolve1 fromP
  let t := posixResolve1 toP
  if f = t then ""
  else
    let fTail := f.data.drop 1
    let tTail := t.data.drop 1
    let fLen := fTail.length
    let tLen := tTail.length
    let len := min fLen tLen
    let w := lcpWalk fTail tTail 0 0
    let i := w.1
    if i = len ∧ len < tLen ∧ tTail.get? i = some '/' then
      String.mk (tTail.drop (i + 1))
    else if i = len ∧ len < tLen ∧ i = 0 then
      String.mk tTail
    else
      let lcs1 :=
        if i = len ∧ ¬(len < tLen) ∧ len < fLen then
          (if fTail.get? i = some '/' then i + 1
            else if i = 0 then 1 else w.2)
        else w.2
      let ups := countCharIn '/' (fTail.drop lcs1) + 1
      let dots := String.intercalate "/" (List.replicate ups "..")
      dots.data ++ t.data.drop lcs1 |> String.mk

-- Relative path rewriting (ATTR_URL_RE and rewriteRelativePaths).

def urlAttrKeywords : List String := ["href", "src", "action", "poster", "data", "background"]

/-- Alternation `(?:href|src|action|poster|data|background)` (none of the
keywords is a prefix of another, so order cannot matter); captures the
original characters for reassembly. -/
def matchKwList : List String → List Char → Option (List Char × List Char)
  | [], _ => none
  | kw :: rest, l =>
    match litCI kw.data l with
    | some r => some (l.take kw.length, r)
    | Option.none => matchKwList rest l

/-- Regex `((?:href|…)\s*=\s*)(["'])([^"']*?)\2` (`/gi`).  The lazy value
class cannot cross either quote character, so it deterministically stops at
the first quote, which must equal the opening one. -/
def matchUrlAttr (l : List Char) : Option ((List Char × Char × List Char) × List Char) :=
  match matchKwList urlAttrKeywords l with
  | Option.none => none
  | some (kw, r1) =>
    let s1 := r1.takeWhile isJsSpace
    match r1.drop s1.length with
    | c :: r3 =>
      if c = '=' then
        let s2 := r3.takeWhile isJsSpace
        match r3.drop s2.length with
        | q :: r5 =>
          if q = '"' ∨ q = sqChar then
            let url := r5.takeWhile fun c => !(c = '"') && !(c = sqChar)
            match r5.drop url.length with
            | q2 :: r7 =>
              if q2 = q then some ((kw ++ s1 ++ ['='] ++ s2, q, url), r7) else none
            | [] => none
          else none
        | [] => none
      else none
    | [] => none

def isAsciiLetter (c : Char) : Bool := ('a' ≤ c && c ≤ 'z') || ('A' ≤ c && c ≤ 'Z')

def isSchemeChar (c : Char) : Bool :=
  isAsciiLetter c || ('0' ≤ c && c ≤ '9') || c = '+' || c = '.' || c = '-'

def schemeColon : List Char → Bool
  | [] => false
  | c :: cs => if c = ':' then true else (isSchemeChar c && schemeColon cs)

/-- Regex `^[a-z][a-z0-9+.-]*:/i`: a greedy scheme-character run followed by
a colon (backtracking cannot help: a shorter run ends on a scheme character
that is not a colon). -/
def isSchemeUrl : List Char → Bool
  | [] => false
  | c :: cs => isAsciiLetter c && schemeColon cs

/-- Body of the URL replacer of `rewriteRelativePaths`; `none` models the
`return match` branches (attribute left byte-identical). -/
def rewriteUrlValue (templateDir instanceDir : String) (url : List Char) :
    Option (List Char) :=
  if url.isEmpty || (url.head? = some '#') || (url.head? = some '?') ||
      (url.head? = some '/') || isSchemeUrl url || hasSub url "@@(".data then
    Option.none
  else
    let urlPath := url.takeWhile fun c => !(c = '?') && !(c = '#')
    let urlSuffix := url.drop urlPath.length
    if urlPath.isEmpty then Option.none
    else
      let absolute := posixResolve templateDir (String.mk urlPath)
      let rewritten := posixRelative instanceDir absolute
      some (rewritten.data ++ urlSuffix)

/-- `rewriteRelativePaths`. -/
def rewriteRelativePaths (templatePath instancePath : String) (text : List Char) :
    List Char :=
  let templateDir := posixDirname templatePath
  let instanceDir := posixDirname instancePath
  if templateDir = instanceDir then text
  else
    replaceAll matchUrlAttr
      (fun caps =>
        match rewriteUrlValue templateDir instanceDir caps.2.2 with
        | some nu => caps.1 ++ [caps.2.1] ++ nu ++ [caps.2.1]
        | Option.none => caps.1 ++ [caps.2.1] ++ caps.2.2 ++ [caps.2.1])
      text

-- Instance marker insertion.

/-- Regex `(<html[^>]*>)` (`/i`); the capture is the whole matched tag. -/
def matchHtmlOpen (l : List Char) : Option (List Char × List Char) :=
  match litCI "<html".data l with
  | Option.none => none
  | some r =>
    let mid := r.takeWhile fun c => !(c = '>')
    match r.drop mid.length with
    | c :: rest => if c = '>' then some (l.take (5 + mid.length + 1), rest) else none
    | [] => none

/-- Regex `<\/head>` (`/i`). -/
def matchHeadClose (l : List Char) : Option (Unit × List Char) :=
  match litCI "</head>".data l with
  | some r => some ((), r)
  | Option.none => none

/-- Regex `<\/html>\s*$` (case-sensitive): a literal `</html>` whose only
remaining characters are whitespace; the greedy `\s*` then reaches the end,
so the match consumes the rest of the text. -/
def matchHtmlEndWs (l : List Char) : Option (Unit × List Char) :=
  match lit "</html>".data l with
  | some r => if r.all isJsSpace then some ((), []) else none
  | Option.none => none

/-- The backtick character, named to keep it out of the source text. -/
def bqChar : Char := Char.ofNat 96

def isDigitCh (c : Char) : Bool := '0' ≤ c && c ≤ '9'

def digitVal (c : Char) : Nat := c.toNat - 48

/-- ES `GetSubstitution` for a string replacement: `$$` is a literal `$`,
`$&` the matched slice, a backtick form the preceding text, `$\x27` the
following text, `$n`/`$nn` a capture when the index is a valid group
number (otherwise the text stays literal), and any other `$` is literal.
The spliced template path and parameter strings of `insertInstanceMarkers`
go through this expansion in the source (`String.replace` with a string
argument). -/
def expandRepl (matched before after : List Char) (groups : List (List Char)) :
    List Char → List Char
  | [] => []
  | ['$'] => ['$']
  | ['$', d] =>
    if d = '$' then ['$']
    else if d = '&' then matched
    else if d = bqChar then before
    else if d = sqChar then after
    else if isDigitCh d then
      if 1 ≤ digitVal d ∧ digitVal d ≤ groups.length then
        groups.getD (digitVal d - 1) []
      else ['$', d]
    else ['$', d]
  | '$' :: d :: e :: r3 =>
    if d = '$' then '$' :: expandRepl matched before after groups (e :: r3)
    else if d = '&' then matched ++ expandRepl matched before after groups (e :: r3)
    else if d = bqChar then before ++ expandRepl matched before after groups (e :: r3)
    else if d = sqChar then after ++ expandRepl matched before after groups (e :: r3)
    else if isDigitCh d then
      if isDigitCh e then
        if 1 ≤ 10 * digitVal d + digitVal e ∧
            10 * digitVal d + digitVal e ≤ groups.length then
          groups.getD (10 * digitVal d + digitVal e - 1) [] ++
            expandRepl matched before after groups r3
        else '$' :: d :: e :: expandRepl matched before after groups r3
      else
        if 1 ≤ digitVal d ∧ digitVal d ≤ groups.length then
          groups.getD (digitVal d - 1) [] ++
            expandRepl matched before after groups (e :: r3)
        else '$' :: d :: expandRepl matched before after groups (e :: r3)
    else '$' :: d :: expandRepl matched before after groups (e :: r3)
  | c :: rest => c :: expandRepl matched before after groups rest

/-- `insertInstanceMarkers`: three first-match string replacements, each
replacement template expanded by `expandRepl` exactly as `String.replace`
expands its string argument; the first pattern captures the whole
`<html...>` tag as group 1 and its template begins with `$1`. -/
def insertInstanceMarkers (templatePath : String) (locked : Bool)
    (params paramTypes : SMap) (text : List Char) : List Char :=
  let lockedStr : String := if locked then "true" else "false"
  let t1 := replaceFirstCtx matchHtmlOpen
    (fun before matched tag rest =>
      expandRepl matched before rest [tag]
        ("$1<!-- InstanceBegin template=\"" ++ templatePath ++
          "\" codeOutsideHTMLIsLocked=\"" ++ lockedStr ++ "\" -->").data) text
  let paramLines := String.intercalate "\n" (params.map fun kv =>
    "\t<!-- InstanceParam name=\"" ++ kv.1 ++ "\" type=\"" ++
      SMap.getOr paramTypes kv.1 "text" ++ "\" value=\"" ++ kv.2 ++ "\" -->")
  let t2 := replaceFirstCtx matchHeadClose
    (fun before matched _ rest =>
      expandRepl matched before rest [] (paramLines ++ "\n</head>").data) t1
  replaceFirstCtx matchHtmlEndWs
    (fun before matched _ rest =>
      expandRepl matched before rest [] "<!-- InstanceEnd --></html>\n".data) t2

-- Main entry point.

structure ResolveOptions where
  templateText : String
  templatePath : String
  params : SMap
  paramTypes : SMap
  editableContents : SMap
  codeOutsideHTMLIsLocked : Bool
  instancePath : Option String
  repeatEntries : Option RMap

/-- Regex `<!--\s*InstanceBegin\s+template="([^"]+)"` used with `.test` to
detect nested templates. -/
def INSTANCE_BEGIN_TEST (l : List Char) : Option (List Char × List Char) :=
  match openComment "InstanceBegin" l with
  | Option.none => none
  | some r => quotedAttr "template" false r

/-- `resolveTemplate`: the full pipeline (or the nested-template
short-circuit). -/
def resolveTemplate (opts : ResolveOptions) : List Char :=
  let text := opts.templateText.data
  if existsMatch INSTANCE_BEGIN_TEST text then
    let t1 := match opts.instancePath with
      | some ip => rewriteRelativePaths opts.templatePath ip text
      | Option.none => text
    let t2 := resolveNestedEditableRegions opts.editableContents t1
    syncInstanceParams opts.params opts.paramTypes t2
  else
    let templateParamDefs := parseTemplateParams text
    let mergedParams := opts.params.foldl (fun m kv => SMap.set m kv.1 kv.2)
      (templateParamDefs.foldl (fun m d => SMap.set m d.name d.value) [])
    let mergedTypes := opts.paramTypes.foldl (fun m kv => SMap.set m kv.1 kv.2)
      (templateParamDefs.foldl (fun m d => SMap.set m d.name d.type) [])
    let t2 := removeTemplateParamLines text
    let t3 := resolveConditionals mergedParams t2
    let t4 := resolveOptionalRegions mergedParams t3
    let t5 := resolveVariables mergedParams t4
    let t6 := match opts.instancePath with
      | some ip => rewriteRelativePaths opts.templatePath ip t5
      | Option.none => t5
    let t7 := resolveRepeatRegions (opts.repeatEntries.getD []) t6
    let t8 := resolveEditableRegions opts.editableContents t7
    insertInstanceMarkers opts.templatePath opts.codeOutsideHTMLIsLocked
      mergedParams mergedTypes t8

-- ---------------------------------------------------------------------------
-- Properties of matchers and texts used by the theorems
-- ---------------------------------------------------------------------------

/-- A matcher consumes at least one character on success (true of every
marker matcher: they all start with a nonempty literal). -/
def Consumes {α : Type} (m : List Char → Option (α × List Char)) : Prop :=
  ∀ l a rest, m l = some (a, rest) → rest.length < l.length

/-- A matcher fails on the empty text and only succeeds on texts starting
with the character `c0`. -/
def HeadIs {α : Type} (m : List Char → Option α) (c0 : Char) : Prop :=
  m [] = none ∧ ∀ c l x, m (c :: l) = some x → c = c0

/-- The matcher fails at every suffix of the text. -/
def AllFail {α : Type} (m : List Char → Option α) (l : List Char) : Prop :=
  ∀ k, m (l.drop k) = none

/-- A text all of whose characters avoid `c0` (transparent to a `HeadIs c0`
matcher). -/
def NoChar (c0 : Char) (l : List Char) : Bool := l.all fun c => !(c = c0)

/-- A list of ranges exactly tiles `[0, len)`: every offset below `len` is
covered by exactly one range, and every range is valid and inside the
document.  This order-free reading of "sorted union with no gap and no
overlap" is invariant under permutation, so the engine's stable sort order
of ties is immaterial. -/
def tiles (rs : List Range) (len : Nat) : Prop :=
  (∀ p, p < len → rs.countP (fun r => r.containsB p) = 1) ∧
    ∀ r ∈ rs, r.start ≤ r.stop ∧ r.stop ≤ len

/-- Ranges in sorted order that never overlap their successor. -/
def SeqDisjoint (rs : List Range) : Prop :=
  List.Chain' (fun a b => a.stop ≤ b.start) rs

/-- Boolean decision procedure for `SeqDisjoint`, kept kernel-reducible. -/
def seqDisjointB : List Range → Bool
  | a :: b :: r => decide (a.stop ≤ b.start) && seqDisjointB (b :: r)
  | _ => true

instance (rs : List Range) : Decidable (SeqDisjoint rs) :=
  decidable_of_iff (seqDisjointB rs = true) (by
    induction rs with
    | nil => simp [seqDisjointB, SeqDisjoint]
    | cons a t ih =>
      cases t with
      | nil => simp [seqDisjointB, SeqDisjoint]
      | cons b r =>
        unfold SeqDisjoint at ih ⊢
        rw [List.chain'_cons, ← ih]
        simp [seqDisjointB])

/-- Modelled from the spec's words (§4.3 / C7), amended with the
nonempty-value condition the counterexample forces: a URL-bearing attribute
value that is not scheme-qualified, not root-relative, not fragment- or
query-only, carries no template-variable placeholder, and is nonempty has
its trailing query/fragment suffix split off, the path portion resolved
against the template's directory and re-expressed relative to the instance
document's directory with the suffix reattached; every other value is kept
byte-identical (`none`). -/
def specRewriteUrl (templateDir instanceDir : String) (url : List Char) :
    Option (List Char) :=
  if url = [] ∨ isSchemeUrl url = true ∨ url.head? = some '/' ∨
      url.head? = some '#' ∨ url.head? = some '?' ∨
      hasSub url "@@(".data = true then
    Option.none
  else
    let si := url.findIdx fun c => c = '?' || c = '#'
    some ((posixRelative instanceDir
        (posixResolve templateDir (String.mk (url.take si)))).data ++ url.drop si)

instance (rs : List Range) (len : Nat) : Decidable (tiles rs len) :=
  inferInstanceAs (Decidable (_ ∧ _))

-- ---------------------------------------------------------------------------
-- Concrete inputs used by the closed statements below
-- ---------------------------------------------------------------------------

/-- An instance page containing a paired library item: its content range is
appended to the protected set although the whole document is already one
protected range. -/
def c1Text : String :=
  "<!-- InstanceBegin x --><!-- #BeginLibraryItem \x22/Library/a.lbi\x22 -->X<!-- #EndLibraryItem -->"

/-- A template with a single editable region. -/
def c1WitnessText : String :=
  "<!-- TemplateBeginEditable name=\x22main\x22 -->X<!-- TemplateEndEditable -->"

/-- The begin marker of the editable region named `main`. -/
def c5B : List Char := "<!-- TemplateBeginEditable name=\x22main\x22 -->".data

/-- The matching end marker. -/
def c5E : List Char := "<!-- TemplateEndEditable -->".data

/-- The instance-marker wrapping of the caller content `<p>X</p>` that the
resolver emits for the region `main`. -/
def c5Wrapped : List Char :=
  "<!-- InstanceBeginEditable name=\x22main\x22 -->".data ++ "<p>X</p>".data ++
    "<!-- InstanceEndEditable -->".data

/-- Resolve options of the C5 statements: `editableContents` maps `main` to
`<p>X</p>`; no parameters, no instance path, no repeat entries. -/
def c5Opts (text : String) : ResolveOptions :=
  ⟨text, "/Templates/page.dwt", [], [], [("main", "<p>X</p>")], true,
    Option.none, Option.none⟩

/-- A template consisting of a lone unpaired begin marker. -/
def c5CtrText : String := "<!-- TemplateBeginEditable name=\x22main\x22 -->"

/-- The begin marker of the repeat region named `r`. -/
def c6RB : List Char := "<!-- TemplateBeginRepeat name=\x22r\x22 -->".data

/-- The matching end marker. -/
def c6RE : List Char := "<!-- TemplateEndRepeat -->".data

/-- The expansion the amended C6 claim predicts for a repeat block with
body `d`: the supplied entries when there is at least one, otherwise a
single default entry with no overrides, each resolved against its own map
and wrapped in instance repeat-entry markers, all inside an outer instance
repeat marker pair. -/
def c6Expected (pre d post : List Char) (es : List SMap) : List Char :=
  pre ++ (("<!-- InstanceBeginRepeat name=\x22r\x22 -->".data ++
    (((if 0 < es.length then es else [[]]).map (fun e =>
      "<!-- InstanceBeginRepeatEntry -->".data ++
        (resolveEditableRegions e d ++
          "<!-- InstanceEndRepeatEntry -->".data))).flatten ++
      "<!-- InstanceEndRepeat -->".data)) ++ post)

/-- A repeat region whose body holds a nested editable region `n`. -/
def c6NestText : List Char :=
  ("<!-- TemplateBeginRepeat name=\x22r\x22 -->" ++
    "<!-- TemplateBeginEditable name=\x22n\x22 -->D<!-- TemplateEndEditable -->" ++
    "<!-- TemplateEndRepeat -->").data

/-- The resolved form of `c6NestText` for the two entries mapping `n` to
`1` and to `2`: each entry carries its own content. -/
def c6NestOut : List Char :=
  ("<!-- InstanceBeginRepeat name=\x22r\x22 -->" ++
    "<!-- InstanceBeginRepeatEntry -->" ++
    "<!-- InstanceBeginEditable name=\x22n\x22 -->1<!-- InstanceEndEditable -->" ++
    "<!-- InstanceEndRepeatEntry -->" ++
    "<!-- InstanceBeginRepeatEntry -->" ++
    "<!-- InstanceBeginEditable name=\x22n\x22 -->2<!-- InstanceEndEditable -->" ++
    "<!-- InstanceEndRepeatEntry -->" ++
    "<!-- InstanceEndRepeat -->").data

/-- A repeat region with plain body, fed an empty supplied entry list. -/
def c6CtrText : List Char :=
  "<!-- TemplateBeginRepeat name=\x22r\x22 -->B<!-- TemplateEndRepeat -->".data

/-- An anchor tag whose href value is empty. -/
def c7CtrText : List Char := "<a href=\x22\x22>".data

/-- A complete minimal page template for the concrete C8 pipeline run. -/
def c8Opts : ResolveOptions :=
  ⟨"<html><head>t</head><body>hi</body></html>", "/Templates/p.dwt",
    [("a", "1"), ("b", "2")], [], [], false, Option.none, Option.none⟩

/-- The resolved output of `c8Opts`: declaration right after `<html>`, one
parameter marker per merged parameter right before `</head>` in map order,
instance-end right before the final `</html>`. -/
def c8Out : List Char :=
  ("<html><!-- InstanceBegin template=\x22/Templates/p.dwt\x22 codeOutsideHTMLIsLocked=\x22false\x22 -->" ++
    "<head>t\t<!-- InstanceParam name=\x22a\x22 type=\x22text\x22 value=\x221\x22 -->\n" ++
    "\t<!-- InstanceParam name=\x22b\x22 type=\x22text\x22 value=\x222\x22 -->\n" ++
    "</head><body>hi</body><!-- InstanceEnd --></html>\n").data

/-- A template with no html skeleton at all. -/
def c8CtrOpts : ResolveOptions :=
  ⟨"hello", "/Templates/p.dwt", [], [], [("main", "<p>X</p>")], true,
    Option.none, Option.none⟩

/-- An instance declaration with no locked attribute. -/
def c10Text : String := "<!-- InstanceBegin template=\x22/T.dwt\x22 -->"

/-- Adjacent library begin/end markers. -/
def c4Text : String := "<!-- #BeginLibraryItem \x22x\x22 --><!-- #EndLibraryItem -->"

/-- A text with no Dreamweaver markers at all. -/
def c3Text : String := "hello"

/-- An instance page with no editable region. -/
def c3WitnessText : String := "<!-- InstanceBegin template=\x22/T.dwt\x22 -->hi"

-- ---------------------------------------------------------------------------
-- Length and consumption lemmas for the matcher primitives
-- ---------------------------------------------------------------------------

theorem lit_length : ∀ {p l r : List Char}, lit p l = some r →
    r.length + p.length = l.length := by
  intro p
  induction p with
  | nil =>
    intro l r h
    simp only [lit, Option.some.injEq] at h
    subst h; simp
  | cons x ps ih =>
    intro l r h
    cases l with
    | nil => simp [lit] at h
    | cons c cs =>
      simp only [lit] at h
      split at h
      · have := ih h; simp only [List.length_cons]; omega
      · cases h

theorem litCI_length : ∀ {p l r : List Char}, litCI p l = some r →
    r.length + p.length = l.length := by
  intro p
  induction p with
  | nil =>
    intro l r h
    simp only [litCI, Option.some.injEq] at h
    subst h; simp
  | cons x ps ih =>
    intro l r h
    cases l with
    | nil => simp [litCI] at h
    | cons c cs =>
      simp only [litCI] at h
      split at h
      · have := ih h; simp only [List.length_cons]; omega
      · cases h

theorem dropSpaces_le (l : List Char) : (dropSpaces l).length ≤ l.length :=
  (List.dropWhile_suffix _).length_le

theorem reqSpaces_lt : ∀ {l r : List Char}, reqSpaces l = some r →
    r.length < l.length := by
  intro l r h
  cases l with
  | nil => simp [reqSpaces] at h
  | cons c cs =>
    simp only [reqSpaces] at h
    split at h
    · cases h
      have := dropSpaces_le cs
      simp only [List.length_cons]; omega
    · cases h

theorem captureTo0_length {s : Char} : ∀ {l cap r : List Char},
    captureTo0 s l = some (cap, r) → cap.length + r.length + 1 = l.length := by
  intro l
  induction l with
  | nil => intro cap r h; simp [captureTo0] at h
  | cons c cs ih =>
    intro cap r h
    simp only [captureTo0] at h
    split at h
    · cases h; simp
    · cases h2 : captureTo0 s cs with
      | none => simp [h2] at h
      | some pr =>
        simp only [h2] at h
        cases h
        have := ih h2
        simp only [List.length_cons]; omega

theorem captureTo1_length {s : Char} {l cap r : List Char}
    (h : captureTo1 s l = some (cap, r)) : cap.length + r.length + 1 = l.length := by
  cases l with
  | nil => simp [captureTo1] at h
  | cons c cs =>
    simp only [captureTo1] at h
    split at h
    · cases h
    · exact captureTo0_length h

theorem openComment_lt {kw : String} {l r : List Char}
    (h : openComment kw l = some r) : r.length < l.length := by
  unfold openComment at h
  cases h4 : lit "<!--".data l with
  | none => simp [h4] at h
  | some r1 =>
    simp only [h4] at h
    have e1 := lit_length h4
    have e2 := lit_length h
    have e3 := dropSpaces_le r1
    have e4 : ("<!--".data).length = 4 := rfl
    omega

theorem closeComment_lt {l r : List Char} (h : closeComment l = some r) :
    r.length < l.length := by
  unfold closeComment at h
  have e2 := lit_length h
  have e3 := dropSpaces_le l
  have e4 : ("-->".data).length = 3 := rfl
  omega

theorem quotedAttr_lt {key : String} {b : Bool} {l cap r : List Char}
    (h : quotedAttr key b l = some (cap, r)) : r.length < l.length := by
  unfold quotedAttr at h
  generalize (key ++ "=\"").data = pat at h
  cases h1 : reqSpaces l with
  | none => simp [h1] at h
  | some r1 =>
    simp only [h1] at h
    cases h2 : lit pat r1 with
    | none => simp [h2] at h
    | some r2 =>
      simp only [h2] at h
      have e1 := reqSpaces_lt h1
      have e2 := lit_length h2
      split at h
      · have e3 := captureTo0_length h; omega
      · have e3 := captureTo1_length h; omega

theorem matchAttrMarker_lt {kw ak : String} {l cap r : List Char}
    (h : matchAttrMarker kw ak l = some (cap, r)) : r.length < l.length := by
  unfold matchAttrMarker at h
  cases h1 : openComment kw l with
  | none => simp [h1] at h
  | some r1 =>
    simp only [h1] at h
    cases h2 : quotedAttr ak false r1 with
    | none => simp [h2] at h
    | some pr =>
      simp only [h2] at h
      cases h3 : closeComment pr.2 with
      | none => simp [h3] at h
      | some r3 =>
        simp only [h3] at h
        cases h
        have e1 := openComment_lt h1
        have e2 := quotedAttr_lt h2
        have e3 := closeComment_lt h3
        omega

theorem matchBareMarker_lt {kw : String} {l : List Char} {u : Unit} {r : List Char}
    (h : matchBareMarker kw l = some (u, r)) : r.length < l.length := by
  unfold matchBareMarker at h
  cases h1 : openComment kw l with
  | none => simp [h1] at h
  | some r1 =>
    simp only [h1] at h
    cases h2 : closeComment r1 with
    | none => simp [h2] at h
    | some r2 =>
      simp only [h2] at h
      cases h
      have e1 := openComment_lt h1
      have e2 := closeComment_lt h2
      omega

theorem matchParamMarker_lt {kw : String} {l : List Char}
    {cap : List Char × List Char × List Char} {r : List Char}
    (h : matchParamMarker kw l = some (cap, r)) : r.length < l.length := by
  unfold matchParamMarker at h
  cases h1 : openComment kw l with
  | none => simp [h1] at h
  | some r1 =>
    simp only [h1] at h
    cases h2 : quotedAttr "name" false r1 with
    | none => simp [h2] at h
    | some p2 =>
      simp only [h2] at h
      cases h3 : quotedAttr "type" false p2.2 with
      | none => simp [h3] at h
      | some p3 =>
        simp only [h3] at h
        cases h4 : quotedAttr "value" true p3.2 with
        | none => simp [h4] at h
        | some p4 =>
          simp only [h4] at h
          cases h5 : closeComment p4.2 with
          | none => simp [h5] at h
          | some r5 =>
            simp only [h5] at h
            cases h
            have e1 := openComment_lt h1
            have e2 := quotedAttr_lt h2
            have e3 := quotedAttr_lt h3
            have e4 := quotedAttr_lt h4
            have e5 := closeComment_lt h5
            omega

theorem TEMPLATE_VARIABLE_lt {l cap r : List Char}
    (h : TEMPLATE_VARIABLE l = some (cap, r)) : r.length < l.length := by
  unfold TEMPLATE_VARIABLE at h
  cases h1 : lit "@@(".data l with
  | none => simp [h1] at h
  | some r1 =>
    simp only [h1] at h
    cases h2 : captureTo1 ')' r1 with
    | none => simp [h2] at h
    | some p2 =>
      simp only [h2] at h
      cases h3 : lit "@@".data p2.2 with
      | none => simp [h3] at h
      | some r3 =>
        simp only [h3] at h
        cases h
        have e1 := lit_length h1
        have e2 := captureTo1_length h2
        have e3 := lit_length h3
        have e4 : ("@@(".data).length = 3 := rfl
        have e5 : ("@@".data).length = 2 := rfl
        omega

theorem BEGIN_LIBRARY_ITEM_lt {l cap r : List Char}
    (h : BEGIN_LIBRARY_ITEM l = some (cap, r)) : r.length < l.length := by
  unfold BEGIN_LIBRARY_ITEM at h
  cases h1 : openComment "#BeginLibraryItem" l with
  | none => simp [h1] at h
  | some r1 =>
    simp only [h1] at h
    cases h2 : reqSpaces r1 with
    | none => simp [h2] at h
    | some r2 =>
      simp only [h2] at h
      cases h3 : lit "\"".data r2 with
      | none => simp [h3] at h
      | some r3 =>
        simp only [h3] at h
        cases h4 : captureTo1 '"' r3 with
        | none => simp [h4] at h
        | some p4 =>
          simp only [h4] at h
          cases h5 : closeComment p4.2 with
          | none => simp [h5] at h
          | some r5 =>
            simp only [h5] at h
            cases h
            have e1 := openComment_lt h1
            have e2 := reqSpaces_lt h2
            have e3 := lit_length h3
            have e4 := captureTo1_length h4
            have e5 := closeComment_lt h5
            omega

theorem INSTANCE_BEGIN_lt {l : List Char} {cap : List Char × Option (List Char)}
    {r : List Char} (h : INSTANCE_BEGIN l = some (cap, r)) : r.length < l.length := by
  unfold INSTANCE_BEGIN at h
  cases h1 : openComment "InstanceBegin" l with
  | none => simp [h1] at h
  | some r1 =>
    simp only [h1] at h
    cases h2 : quotedAttr "template" false r1 with
    | none => simp [h2] at h
    | some p2 =>
      simp only [h2] at h
      have e1 := openComment_lt h1
      have e2 := quotedAttr_lt h2
      cases h3 : quotedAttr "codeOutsideHTMLIsLocked" false p2.2 with
      | none =>
        simp only [h3] at h
        cases h4 : closeComment p2.2 with
        | none => simp [h4] at h
        | some r4 =>
          simp only [h4] at h
          cases h
          have e4 := closeComment_lt h4
          omega
      | some p3 =>
        simp only [h3] at h
        have e3 := quotedAttr_lt h3
        cases h4 : closeComment p3.2 with
        | none =>
          simp only [h4] at h
          cases h5 : closeComment p2.2 with
          | none => simp [h5] at h
          | some r5 =>
            simp only [h5] at h
            cases h
            have e5 := closeComment_lt h5
            omega
        | some r4 =>
          simp only [h4] at h
          cases h
          have e4 := closeComment_lt h4
          omega

theorem matchKwList_lt : ∀ {kws : List String} {l cap r : List Char},
    (∀ kw ∈ kws, 0 < kw.data.length) → matchKwList kws l = some (cap, r) →
      r.length < l.length := by
  intro kws
  induction kws with
  | nil => intro l cap r _ h; simp [matchKwList] at h
  | cons kw rest ih =>
    intro l cap r hpos h
    simp only [matchKwList] at h
    cases h1 : litCI kw.data l with
    | none =>
      simp only [h1] at h
      exact ih (fun k hk => hpos k (List.mem_cons_of_mem _ hk)) h
    | some r1 =>
      simp only [h1] at h
      cases h
      have e1 := litCI_length h1
      have e2 := hpos kw (List.mem_cons_self _ _)
      omega

theorem matchUrlAttr_lt {l : List Char} {cap : List Char × Char × List Char}
    {r : List Char} (h : matchUrlAttr l = some (cap, r)) : r.length < l.length := by
  unfold matchUrlAttr at h
  cases h1 : matchKwList urlAttrKeywords l with
  | none => simp [h1] at h
  | some p1 =>
    simp only [h1] at h
    have hpos : ∀ kw ∈ urlAttrKeywords, 0 < kw.data.length := by decide
    have e1 : p1.2.length < l.length := matchKwList_lt hpos h1
    cases h2 : p1.2.drop (p1.2.takeWhile isJsSpace).length with
    | nil => simp [h2] at h
    | cons c2 r3 =>
      simp only [h2] at h
      have e2 : r3.length < p1.2.length := by
        have := congrArg List.length h2
        simp only [List.length_drop, List.length_cons] at this
        omega
      split at h
      · cases h3 : r3.drop (r3.takeWhile isJsSpace).length with
        | nil => simp [h3] at h
        | cons q r5 =>
          simp only [h3] at h
          have e3 : r5.length < r3.length := by
            have := congrArg List.length h3
            simp only [List.length_drop, List.length_cons] at this
            omega
          split at h
          · cases h4 : r5.drop (r5.takeWhile fun c => !(c = '"') && !(c = sqChar)).length with
            | nil => simp [h4] at h
            | cons q2 r7 =>
              simp only [h4] at h
              have e4 : r7.length < r5.length := by
                have := congrArg List.length h4
                simp only [List.length_drop, List.length_cons] at this
                omega
              split at h
              · cases h
                omega
              · simp at h
          · simp at h
      · simp at h

theorem matchHtmlOpen_lt {l cap r : List Char}
    (h : matchHtmlOpen l = some (cap, r)) : r.length < l.length := by
  unfold matchHtmlOpen at h
  cases h1 : litCI "<html".data l with
  | none => simp [h1] at h
  | some r1 =>
    simp only [h1] at h
    have e1 := litCI_length h1
    have e0 : ("<html".data).length = 5 := rfl
    cases h2 : r1.drop (r1.takeWhile fun c => !(c = '>')).length with
    | nil => simp [h2] at h
    | cons c2 rest =>
      simp only [h2] at h
      have e2 : rest.length < r1.length := by
        have := congrArg List.length h2
        simp only [List.length_drop, List.length_cons] at this
        omega
      split at h
      · cases h; omega
      · simp at h

theorem matchHeadClose_lt {l : List Char} {u : Unit} {r : List Char}
    (h : matchHeadClose l = some (u, r)) : r.length < l.length := by
  unfold matchHeadClose at h
  cases h1 : litCI "</head>".data l with
  | none => simp [h1] at h
  | some r1 =>
    simp only [h1] at h
    cases h
    have e1 := litCI_length h1
    have e0 : ("</head>".data).length = 7 := rfl
    omega

theorem matchHtmlEndWs_lt {l : List Char} {u : Unit} {r : List Char}
    (h : matchHtmlEndWs l = some (u, r)) : r.length < l.length := by
  unfold matchHtmlEndWs at h
  cases h1 : lit "</html>".data l with
  | none => simp [h1] at h
  | some r1 =>
    simp only [h1] at h
    have e1 := lit_length h1
    have e0 : ("</html>".data).length = 7 := rfl
    split at h
    · cases h; simp only [List.length_nil]; omega
    · simp at h

theorem matchParamLine_lt {l : List Char} {u : Unit} {r : List Char}
    (h : matchParamLine l = some (u, r)) : r.length < l.length := by
  unfold matchParamLine at h
  cases h1 : TEMPLATE_PARAM (l.drop (l.takeWhile isSpTab).length) with
  | none => simp [h1] at h
  | some p1 =>
    simp only [h1] at h
    have e1 : p1.2.length < (l.drop (l.takeWhile isSpTab).length).length := by
      unfold TEMPLATE_PARAM at h1
      exact matchParamMarker_lt h1
    have e2 : (l.drop (l.takeWhile isSpTab).length).length ≤ l.length := by
      simp only [List.length_drop]; omega
    cases hp : p1.2 with
    | nil => simp only [hp] at h; cases h; simp only [List.length_nil]; omega
    | cons c rest =>
      simp only [hp] at h
      rw [hp] at e1
      split at h
      · cases h; simp only [List.length_cons] at e1; omega
      · cases h; simp only [List.length_cons] at e1 ⊢; omega

-- Consumption for block matchers.

theorem matchBlockAux_length {endM : List Char → Option (Unit × List Char)}
    (hend : Consumes endM) :
    ∀ (fuel : Nat) {l ct r : List Char}, matchBlockAux endM fuel l = some (ct, r) →
      ct.length + r.length < l.length := by
  intro fuel
  induction fuel with
  | zero =>
    intro l ct r h
    simp only [matchBlockAux] at h
    cases he : endM l with
    | some pr =>
      simp only [he] at h
      cases h
      have := hend l pr.1 pr.2 (by rw [he])
      simpa using this
    | none => simp [he] at h
  | succ f ih =>
    intro l ct r h
    simp only [matchBlockAux] at h
    cases he : endM l with
    | some pr =>
      simp only [he] at h
      cases h
      have := hend l pr.1 pr.2 (by rw [he])
      simpa using this
    | none =>
      simp only [he] at h
      cases l with
      | nil => simp at h
      | cons c cs =>
        cases hr : matchBlockAux endM f cs with
        | none => simp [hr] at h
        | some pr =>
          simp only [hr] at h
          cases h
          have := ih hr
          simp only [List.length_cons]
          omega

theorem matchBlock_content_lt {β : Type}
    {beginM : List Char → Option (β × List Char)}
    {endM : List Char → Option (Unit × List Char)}
    (hb : Consumes beginM) (hend : Consumes endM)
    {l : List Char} {b : β} {ct rest : List Char}
    (h : matchBlock beginM endM l = some ((b, ct), rest)) :
    ct.length + rest.length + 2 ≤ l.length := by
  unfold matchBlock at h
  cases h1 : beginM l with
  | none => simp [h1] at h
  | some p1 =>
    simp only [h1] at h
    cases h2 : matchBlockAux endM p1.2.length p1.2 with
    | none => simp [h2] at h
    | some p2 =>
      simp only [h2] at h
      cases h
      have e1 := hb l p1.1 p1.2 (by rw [h1])
      have e2 := matchBlockAux_length hend _ h2
      omega

theorem matchBlock_lt {β : Type}
    {beginM : List Char → Option (β × List Char)}
    {endM : List Char → Option (Unit × List Char)}
    (hb : Consumes beginM) (hend : Consumes endM) :
    Consumes (matchBlock beginM endM) := by
  intro l a rest h
  cases a with
  | mk b ct => have := matchBlock_content_lt hb hend h; omega

-- Consumes bundles for the named matchers.

theorem consumes_attrMarker (kw ak : String) : Consumes (matchAttrMarker kw ak) :=
  fun _ _ _ h => matchAttrMarker_lt h

theorem consumes_bareMarker (kw : String) : Consumes (matchBareMarker kw) :=
  fun _ _ _ h => matchBareMarker_lt h

theorem consumes_paramMarker (kw : String) : Consumes (matchParamMarker kw) :=
  fun _ _ _ h => matchParamMarker_lt h

theorem consumes_TEMPLATE_VARIABLE : Consumes TEMPLATE_VARIABLE :=
  fun _ _ _ h => TEMPLATE_VARIABLE_lt h

theorem consumes_INSTANCE_BEGIN : Consumes INSTANCE_BEGIN :=
  fun _ _ _ h => INSTANCE_BEGIN_lt h

theorem consumes_BEGIN_LIBRARY_ITEM : Consumes BEGIN_LIBRARY_ITEM :=
  fun _ _ _ h => BEGIN_LIBRARY_ITEM_lt h

theorem consumes_matchParamLine : Consumes matchParamLine :=
  fun _ _ _ h => matchParamLine_lt h

theorem consumes_matchUrlAttr : Consumes matchUrlAttr :=
  fun _ _ _ h => matchUrlAttr_lt h

theorem consumes_matchHtmlOpen : Consumes matchHtmlOpen :=
  fun _ _ _ h => matchHtmlOpen_lt h

theorem consumes_matchHeadClose : Consumes matchHeadClose :=
  fun _ _ _ h => matchHeadClose_lt h

theorem consumes_matchHtmlEndWs : Consumes matchHtmlEndWs :=
  fun _ _ _ h => matchHtmlEndWs_lt h

-- ---------------------------------------------------------------------------
-- Head-character lemmas
-- ---------------------------------------------------------------------------

theorem lit_head {p : Char} {ps : List Char} {c : Char} {l r : List Char}
    (h : lit (p :: ps) (c :: l) = some r) : c = p := by
  simp only [lit] at h
  split at h
  · assumption
  · cases h

theorem litCI_head {p : Char} {ps : List Char} {c : Char} {l r : List Char}
    (h : litCI (p :: ps) (c :: l) = some r) : charEqCI c p = true := by
  simp only [litCI] at h
  split at h
  · assumption
  · cases h

theorem charEqCI_lt {c : Char} (h : charEqCI c '<' = true) : c = '<' := by
  unfold charEqCI at h
  rw [decide_eq_true_eq] at h
  have h60 : lowerN '<'.toNat = 60 := rfl
  rw [h60] at h
  unfold lowerN at h
  split at h
  · omega
  · have : Char.ofNat c.toNat = Char.ofNat 60 := by rw [h]
    rw [Char.ofNat_toNat] at this
    exact this

theorem openComment_head {kw : String} {c : Char} {l r : List Char}
    (h : openComment kw (c :: l) = some r) : c = '<' := by
  unfold openComment at h
  cases h1 : lit "<!--".data (c :: l) with
  | none => simp [h1] at h
  | some r1 =>
    have h1' : lit ('<' :: "!--".data) (c :: l) = some r1 := h1
    exact lit_head h1'

theorem headIs_attrMarker (kw ak : String) : HeadIs (matchAttrMarker kw ak) '<' := by
  refine ⟨rfl, ?_⟩
  intro c l x h
  unfold matchAttrMarker at h
  cases h1 : openComment kw (c :: l) with
  | none => simp [h1] at h
  | some r1 => exact openComment_head h1

theorem headIs_bareMarker (kw : String) : HeadIs (matchBareMarker kw) '<' := by
  refine ⟨rfl, ?_⟩
  intro c l x h
  unfold matchBareMarker at h
  cases h1 : openComment kw (c :: l) with
  | none => simp [h1] at h
  | some r1 => exact openComment_head h1

theorem headIs_paramMarker (kw : String) : HeadIs (matchParamMarker kw) '<' := by
  refine ⟨rfl, ?_⟩
  intro c l x h
  unfold matchParamMarker at h
  cases h1 : openComment kw (c :: l) with
  | none => simp [h1] at h
  | some r1 => exact openComment_head h1

theorem headIs_INSTANCE_BEGIN : HeadIs INSTANCE_BEGIN '<' := by
  refine ⟨rfl, ?_⟩
  intro c l x h
  unfold INSTANCE_BEGIN at h
  cases h1 : openComment "InstanceBegin" (c :: l) with
  | none => simp [h1] at h
  | some r1 => exact openComment_head h1

theorem headIs_BEGIN_LIBRARY_ITEM : HeadIs BEGIN_LIBRARY_ITEM '<' := by
  refine ⟨rfl, ?_⟩
  intro c l x h
  unfold BEGIN_LIBRARY_ITEM at h
  cases h1 : openComment "#BeginLibraryItem" (c :: l) with
  | none => simp [h1] at h
  | some r1 => exact openComment_head h1

theorem headIs_TEMPLATE_VARIABLE : HeadIs TEMPLATE_VARIABLE '@' := by
  refine ⟨rfl, ?_⟩
  intro c l x h
  unfold TEMPLATE_VARIABLE at h
  cases h1 : lit "@@(".data (c :: l) with
  | none => simp [h1] at h
  | some r1 =>
    have h1' : lit ('@' :: "@(".data) (c :: l) = some r1 := h1
    exact lit_head h1'

theorem headIs_matchKwWs (kw : String) : HeadIs (matchKwWs kw) '<' := by
  refine ⟨rfl, ?_⟩
  intro c l x h
  unfold matchKwWs at h
  cases h1 : openComment kw (c :: l) with
  | none => simp [h1] at h
  | some r1 => exact openComment_head h1

theorem headIs_INSTANCE_BEGIN_TEST : HeadIs INSTANCE_BEGIN_TEST '<' := by
  refine ⟨rfl, ?_⟩
  intro c l x h
  unfold INSTANCE_BEGIN_TEST at h
  cases h1 : openComment "InstanceBegin" (c :: l) with
  | none => simp [h1] at h
  | some r1 => exact openComment_head h1

theorem headIs_matchHtmlOpen : HeadIs matchHtmlOpen '<' := by
  refine ⟨rfl, ?_⟩
  intro c l x h
  unfold matchHtmlOpen at h
  cases h1 : litCI "<html".data (c :: l) with
  | none => simp [h1] at h
  | some r1 =>
    have h1' : litCI ('<' :: "html".data) (c :: l) = some r1 := h1
    exact charEqCI_lt (litCI_head h1')

theorem headIs_matchHeadClose : HeadIs matchHeadClose '<' := by
  refine ⟨rfl, ?_⟩
  intro c l x h
  unfold matchHeadClose at h
  cases h1 : litCI "</head>".data (c :: l) with
  | none => simp [h1] at h
  | some r1 =>
    have h1' : litCI ('<' :: "/head>".data) (c :: l) = some r1 := h1
    exact charEqCI_lt (litCI_head h1')

theorem headIs_matchHtmlEndWs : HeadIs matchHtmlEndWs '<' := by
  refine ⟨rfl, ?_⟩
  intro c l x h
  unfold matchHtmlEndWs at h
  cases h1 : lit "</html>".data (c :: l) with
  | none => simp [h1] at h
  | some r1 =>
    have h1' : lit ('<' :: "/html>".data) (c :: l) = some r1 := h1
    exact lit_head h1'

theorem headIs_matchBlock {β : Type} {beginM : List Char → Option (β × List Char)}
    {endM : List Char → Option (Unit × List Char)} {c0 : Char}
    (hb : HeadIs beginM c0) : HeadIs (matchBlock beginM endM) c0 := by
  refine ⟨?_, ?_⟩
  · unfold matchBlock
    rw [hb.1]
  · intro c l x h
    unfold matchBlock at h
    cases h1 : beginM (c :: l) with
    | none => simp [h1] at h
    | some p1 => exact hb.2 c l p1 h1

-- ---------------------------------------------------------------------------
-- AllFail and transparency
-- ---------------------------------------------------------------------------

theorem headNone {α : Type} {m : List Char → Option α} {c0 : Char}
    (hm : HeadIs m c0) {c : Char} {l : List Char} (hc : ¬(c = c0)) :
    m (c :: l) = none := by
  cases h : m (c :: l) with
  | none => rfl
  | some x => exact absurd (hm.2 c l x h) hc

theorem allFail_nil {α : Type} {m : List Char → Option α} (h0 : m [] = none) :
    AllFail m [] := by
  intro k
  simpa using h0

theorem allFail_of_headIs_nil {α : Type} {m : List Char → Option α} {c0 : Char}
    (hm : HeadIs m c0) : AllFail m [] := allFail_nil hm.1

theorem allFail_cons {α : Type} {m : List Char → Option α} {c : Char} {l : List Char}
    (h0 : m (c :: l) = none) (h1 : AllFail m l) : AllFail m (c :: l) := by
  intro k
  cases k with
  | zero => exact h0
  | succ k' => exact h1 k'

theorem allFail_append_trans {α : Type} {m : List Char → Option α} {c0 : Char}
    (hm : HeadIs m c0) :
    ∀ {a b : List Char}, NoChar c0 a = true → AllFail m b → AllFail m (a ++ b) := by
  intro a
  induction a with
  | nil => intro b _ hb; simpa using hb
  | cons c cs ih =>
    intro b ha hb
    have hc : ¬(c = c0) := by
      simp only [NoChar, List.all_cons, Bool.and_eq_true, Bool.not_eq_true',
        decide_eq_false_iff_not] at ha
      exact ha.1
    have ha' : NoChar c0 cs = true := by
      simp only [NoChar, List.all_cons, Bool.and_eq_true] at ha
      exact ha.2
    exact allFail_cons (headNone hm hc) (ih ha' hb)

theorem allFail_of_trans {α : Type} {m : List Char → Option α} {c0 : Char}
    (hm : HeadIs m c0) {a : List Char} (ha : NoChar c0 a = true) : AllFail m a := by
  have := allFail_append_trans hm ha (allFail_of_headIs_nil hm)
  simpa using this

theorem allFail_marker {α : Type} {m : List Char → Option α} {c0 : Char}
    (hm : HeadIs m c0) {x : Char} {t b : List Char}
    (h0 : m (x :: (t ++ b)) = none) (ht : NoChar c0 t = true) (hb : AllFail m b) :
    AllFail m ((x :: t) ++ b) := by
  rw [List.cons_append]
  exact allFail_cons h0 (allFail_append_trans hm ht hb)

theorem existsMatch_eq_false {α : Type} {m : List Char → Option α} {l : List Char}
    (h : AllFail m l) : existsMatch m l = false := by
  unfold existsMatch
  rw [List.any_eq_false]
  intro t ht
  rw [List.mem_tails] at ht
  obtain ⟨s, hs⟩ := ht
  have hts : t = l.drop s.length := by rw [← hs, List.drop_left]
  rw [hts, h s.length]
  simp

-- ---------------------------------------------------------------------------
-- replaceAll, replaceFirst
-- ---------------------------------------------------------------------------

theorem replaceAllAux_fuel {α : Type} {m : List Char → Option (α × List Char)}
    {f : α → List Char} (hm : Consumes m) :
    ∀ (fuel₁ fuel₂ : Nat) (l : List Char), l.length ≤ fuel₁ → l.length ≤ fuel₂ →
      replaceAllAux m f fuel₁ l = replaceAllAux m f fuel₂ l := by
  intro fuel₁
  induction fuel₁ with
  | zero =>
    intro fuel₂ l h1 h2
    have : l = [] := List.eq_nil_of_length_eq_zero (Nat.le_zero.mp h1)
    subst this
    cases fuel₂ <;> rfl
  | succ f1 ih =>
    intro fuel₂ l h1 h2
    cases l with
    | nil => cases fuel₂ <;> rfl
    | cons c cs =>
      cases fuel₂ with
      | zero => simp at h2
      | succ f2 =>
        simp only [replaceAllAux]
        cases hm' : m (c :: cs) with
        | none =>
          simp only [hm']
          simp only [List.length_cons] at h1 h2
          rw [ih f2 cs (by omega) (by omega)]
        | some pr =>
          obtain ⟨a, rest⟩ := pr
          have hlt := hm _ _ _ hm'
          simp only [hm']
          simp only [List.length_cons] at h1 h2 hlt
          rw [ih f2 rest (by omega) (by omega)]

theorem replaceAll_cons_none {α : Type} {m : List Char → Option (α × List Char)}
    {f : α → List Char} {c : Char} {cs : List Char} (hm' : m (c :: cs) = none) :
    replaceAll m f (c :: cs) = c :: replaceAll m f cs := by
  unfold replaceAll
  simp only [List.length_cons, replaceAllAux, hm']

theorem replaceAll_cons_some {α : Type} {m : List Char → Option (α × List Char)}
    {f : α → List Char} (hm : Consumes m) {c : Char} {cs : List Char}
    {a : α} {rest : List Char} (h : m (c :: cs) = some (a, rest)) :
    replaceAll m f (c :: cs) = f a ++ replaceAll m f rest := by
  unfold replaceAll
  simp only [List.length_cons, replaceAllAux, h]
  congr 1
  have hlt := hm _ _ _ h
  simp only [List.length_cons] at hlt
  exact replaceAllAux_fuel hm _ _ _ (by omega) (le_refl _)

theorem replaceAll_allFail {α : Type} {m : List Char → Option (α × List Char)}
    {f : α → List Char} : ∀ {l : List Char}, AllFail m l → replaceAll m f l = l := by
  intro l
  induction l with
  | nil => intro _; rfl
  | cons c cs ih =>
    intro h
    rw [replaceAll_cons_none (h 0), ih fun k => h (k + 1)]

theorem replaceAll_append_trans {α : Type} {m : List Char → Option (α × List Char)}
    {f : α → List Char} {c0 : Char} (hmh : HeadIs m c0) :
    ∀ {a b : List Char}, NoChar c0 a = true →
      replaceAll m f (a ++ b) = a ++ replaceAll m f b := by
  intro a
  induction a with
  | nil => intro b _; simp
  | cons c cs ih =>
    intro b ha
    have hc : ¬(c = c0) := by
      simp only [NoChar, List.all_cons, Bool.and_eq_true, Bool.not_eq_true',
        decide_eq_false_iff_not] at ha
      exact ha.1
    have ha' : NoChar c0 cs = true := by
      simp only [NoChar, List.all_cons, Bool.and_eq_true] at ha
      exact ha.2
    rw [List.cons_append, replaceAll_cons_none (headNone hmh hc), ih ha',
      List.cons_append]

theorem replaceFirstFrom_cons_none {α : Type} {m : List Char → Option (α × List Char)}
    {f : List Char → List Char → α → List Char → List Char} {B : List Char}
    {c : Char} {cs : List Char} (hm : m (c :: cs) = none) :
    replaceFirstFrom m f B (c :: cs) = c :: replaceFirstFrom m f (B ++ [c]) cs := by
  unfold replaceFirstFrom
  simp only [List.length_cons, replaceFirstCtxAux, hm]

theorem replaceFirstFrom_cons_match {α : Type} {m : List Char → Option (α × List Char)}
    {f : List Char → List Char → α → List Char → List Char} {B : List Char}
    {c : Char} {cs : List Char} (pre : List Char) (a : α) (rest : List Char)
    (h : m (c :: cs) = some (a, rest)) (hpre : c :: cs = pre ++ rest) :
    replaceFirstFrom m f B (c :: cs) = f B pre a rest ++ rest := by
  unfold replaceFirstFrom
  simp only [List.length_cons, replaceFirstCtxAux, h]
  have h1 : cs.length + 1 - rest.length = pre.length := by
    have h2 : (c :: cs).length = (pre ++ rest).length := by rw [hpre]
    simp only [List.length_cons, List.length_append] at h2
    omega
  rw [h1, hpre, List.take_left]

theorem replaceFirstFrom_allFail {α : Type} {m : List Char → Option (α × List Char)}
    {f : List Char → List Char → α → List Char → List Char} :
    ∀ {l : List Char}, AllFail m l → ∀ (B : List Char),
      replaceFirstFrom m f B l = l := by
  intro l
  induction l with
  | nil => intro _ B; rfl
  | cons c cs ih =>
    intro h B
    rw [replaceFirstFrom_cons_none (h 0), ih (fun k => h (k + 1)) (B ++ [c])]

theorem replaceFirstCtx_allFail {α : Type} {m : List Char → Option (α × List Char)}
    {f : List Char → List Char → α → List Char → List Char} {l : List Char}
    (h : AllFail m l) : replaceFirstCtx m f l = l :=
  replaceFirstFrom_allFail h []

theorem replaceFirstFrom_append_trans {α : Type}
    {m : List Char → Option (α × List Char)}
    {f : List Char → List Char → α → List Char → List Char} {c0 : Char}
    (hmh : HeadIs m c0) :
    ∀ {a : List Char} {B b : List Char}, NoChar c0 a = true →
      replaceFirstFrom m f B (a ++ b) = a ++ replaceFirstFrom m f (B ++ a) b := by
  intro a
  induction a with
  | nil => intro B b _; simp
  | cons c cs ih =>
    intro B b ha
    have hc : ¬(c = c0) := by
      simp only [NoChar, List.all_cons, Bool.and_eq_true, Bool.not_eq_true',
        decide_eq_false_iff_not] at ha
      exact ha.1
    have ha2 : NoChar c0 cs = true := by
      simp only [NoChar, List.all_cons, Bool.and_eq_true] at ha
      exact ha.2
    rw [List.cons_append, replaceFirstFrom_cons_none (headNone hmh hc), ih ha2,
      List.cons_append, List.append_assoc, List.singleton_append]

-- ---------------------------------------------------------------------------
-- Block-matcher location lemmas
-- ---------------------------------------------------------------------------

theorem matchBlockAux_found {endM : List Char → Option (Unit × List Char)}
    {c0 : Char} (hm : HeadIs endM c0) :
    ∀ {d : List Char} {fuel : Nat} {e b : List Char},
      NoChar c0 d = true → d.length ≤ fuel →
      endM (e ++ b) = some ((), b) →
      matchBlockAux endM fuel (d ++ (e ++ b)) = some (d, b) := by
  intro d
  induction d with
  | nil =>
    intro fuel e b _ _ he
    cases fuel <;> simp only [matchBlockAux, List.nil_append, he]
  | cons c cs ih =>
    intro fuel e b hd hf he
    have hc : ¬(c = c0) := by
      simp only [NoChar, List.all_cons, Bool.and_eq_true, Bool.not_eq_true',
        decide_eq_false_iff_not] at hd
      exact hd.1
    have hd' : NoChar c0 cs = true := by
      simp only [NoChar, List.all_cons, Bool.and_eq_true] at hd
      exact hd.2
    cases fuel with
    | zero => simp at hf
    | succ fu =>
      have hcons : (c :: cs) ++ (e ++ b) = c :: (cs ++ (e ++ b)) := rfl
      rw [hcons]
      simp only [matchBlockAux, headNone hm hc]
      simp only [List.length_cons] at hf
      rw [ih hd' (by omega) he]

theorem matchBlock_found {β : Type} {beginM : List Char → Option (β × List Char)}
    {endM : List Char → Option (Unit × List Char)} {c0 : Char} (hm : HeadIs endM c0)
    {l : List Char} {bcap : β} {d e b : List Char}
    (hbegin : beginM l = some (bcap, d ++ (e ++ b)))
    (hd : NoChar c0 d = true) (he : endM (e ++ b) = some ((), b)) :
    matchBlock beginM endM l = some ((bcap, d), b) := by
  unfold matchBlock
  simp only [hbegin]
  rw [matchBlockAux_found hm hd (by simp) he]

-- ---------------------------------------------------------------------------
-- Substring lemmas
-- ---------------------------------------------------------------------------

theorem lit_append_self : ∀ (s r : List Char), lit s (s ++ r) = some r := by
  intro s
  induction s with
  | nil => intro r; rfl
  | cons c cs ih => intro r; simp [lit, ih]

theorem hasSub_of_append (a s b : List Char) : hasSub (a ++ (s ++ b)) s = true := by
  unfold hasSub
  rw [List.any_eq_true]
  refine ⟨s ++ b, ?_, ?_⟩
  · rw [List.mem_tails]
    exact ⟨a, rfl⟩
  · simp [lit_append_self]

theorem hasSub_false_of_noChar {s : List Char} {c0 : Char} (hs : s.head? = some c0)
    {hay : List Char} (h : NoChar c0 hay = true) : hasSub hay s = false := by
  unfold hasSub
  rw [List.any_eq_false]
  intro t ht
  rw [List.mem_tails] at ht
  cases s with
  | nil => cases hs
  | cons s0 srest =>
    have hs0 : s0 = c0 := by simpa using hs
    subst hs0
    cases t with
    | nil => simp [lit]
    | cons t0 trest =>
      have ht0 : t0 ∈ hay := ht.subset (List.mem_cons_self _ _)
      have : ¬(t0 = s0) := by
        simp only [NoChar, List.all_eq_true] at h
        have := h t0 ht0
        simpa using this
      simp [lit, this]

-- ---------------------------------------------------------------------------
-- Shrinking replacements (for the conditional fixed point)
-- ---------------------------------------------------------------------------

theorem replaceAll_length_le {α : Type} {m : List Char → Option (α × List Char)}
    {f : α → List Char} (hm : Consumes m)
    (hf : ∀ l a rest, m l = some (a, rest) → (f a).length + rest.length ≤ l.length) :
    ∀ (n : Nat) (l : List Char), l.length ≤ n → (replaceAll m f l).length ≤ l.length := by
  intro n
  induction n with
  | zero =>
    intro l h
    have : l = [] := List.eq_nil_of_length_eq_zero (Nat.le_zero.mp h)
    subst this
    simp [replaceAll, replaceAllAux]
  | succ n ih =>
    intro l h
    cases l with
    | nil => simp [replaceAll, replaceAllAux]
    | cons c cs =>
      cases hm' : m (c :: cs) with
      | none =>
        rw [replaceAll_cons_none hm']
        simp only [List.length_cons] at h ⊢
        have := ih cs (by omega)
        omega
      | some pr =>
        obtain ⟨a, rest⟩ := pr
        rw [replaceAll_cons_some hm hm']
        have h1 := hf _ _ _ hm'
        have h2 := hm _ _ _ hm'
        simp only [List.length_cons] at h h1 h2 ⊢
        have h3 := ih rest (by omega)
        simp only [List.length_append]
        omega

theorem replaceAll_shrink {α : Type} {m : List Char → Option (α × List Char)}
    {f : α → List Char} (hm : Consumes m)
    (hf : ∀ l a rest, m l = some (a, rest) → (f a).length + rest.length < l.length) :
    ∀ (l : List Char), replaceAll m f l = l ∨ (replaceAll m f l).length < l.length := by
  intro l
  induction l with
  | nil => left; rfl
  | cons c cs ih =>
    cases hm' : m (c :: cs) with
    | none =>
      rw [replaceAll_cons_none hm']
      rcases ih with h | h
      · left; rw [h]
      · right; simp only [List.length_cons]; omega
    | some pr =>
      obtain ⟨a, rest⟩ := pr
      right
      rw [replaceAll_cons_some hm hm']
      have h1 := hf _ _ _ hm'
      have h2 := hm _ _ _ hm'
      have h3 := replaceAll_length_le hm
        (fun l a rest h => Nat.le_of_lt (hf l a rest h)) rest.length rest (le_refl _)
      simp only [List.length_append]
      omega

theorem condPass_hf (params : SMap) :
    ∀ (l : List Char) (a : List Char × List Char) (rest : List Char),
      matchBlock TEMPLATE_BEGIN_IF TEMPLATE_END_IF l = some (a, rest) →
      ((if evaluateCondition (String.mk a.1) params then a.2 else []) : List Char).length
        + rest.length < l.length := by
  intro l a rest h
  obtain ⟨cond, content⟩ := a
  have := matchBlock_content_lt (consumes_attrMarker _ _) (consumes_bareMarker _) h
  split <;> simp only [List.length_nil] <;> omega

theorem condPass_shrink (params : SMap) (l : List Char) :
    condPass params l = l ∨ (condPass params l).length < l.length := by
  unfold condPass
  exact replaceAll_shrink
    (matchBlock_lt (consumes_attrMarker _ _) (consumes_bareMarker _))
    (condPass_hf params) l

theorem resolveConditionalsFuel_fix (params : SMap) :
    ∀ (fuel : Nat) (l : List Char), l.length < fuel →
      condPass params (resolveConditionalsFuel params fuel l) =
        resolveConditionalsFuel params fuel l := by
  intro fuel
  induction fuel with
  | zero => intro l h; omega
  | succ fu ih =>
    intro l h
    simp only [resolveConditionalsFuel]
    by_cases hc : condPass params l = l
    · simp only [hc, if_pos rfl]
      exact hc
    · rw [if_neg hc]
      have hlt : (condPass params l).length < l.length := by
        rcases condPass_shrink params l with h' | h'
        · exact absurd h' hc
        · exact h'
      exact ih _ (by omega)

/-- C9: the fixed-point conditional-resolution pass terminates on every
input text and parameter map.  Each full scan-and-replace pass either
changes nothing or strictly shortens the text, so the source's
`while (prev !== text)` loop performs at most `length + 1` passes; in
particular `resolveConditionals` (the loop's limit, computed here with
that fuel) is a true fixed point of the pass. -/
theorem c9_conditional_fixed_point_terminates :
    ∀ (params : SMap) (text : List Char),
      (condPass params text = text ∨ (condPass params text).length < text.length) ∧
      condPass params (resolveConditionals params text) =
        resolveConditionals params text := by
  intro params text
  refine ⟨condPass_shrink params text, ?_⟩
  exact resolveConditionalsFuel_fix params (text.length + 1) text (by omega)

/-- C10: an `InstanceBegin` marker parses with `codeOutsideHTMLIsLocked`
true unless the attribute is present with the exact value `false`: an
omitted attribute, or any other value, yields `true`. -/
theorem c10_locked_flag_default (text : List Char)
    (mk : MarkerM (List Char × Option (List Char)))
    (rest : List (MarkerM (List Char × Option (List Char))))
    (h : findMarkers INSTANCE_BEGIN text = mk :: rest) :
    ∃ d, parseTemplateDeclaration text = some d ∧
      (mk.cap.2 = Option.none → d.codeOutsideHTMLIsLocked = true) ∧
      (∀ v, mk.cap.2 = some v →
        (d.codeOutsideHTMLIsLocked = false ↔ v = "false".data)) := by
  unfold parseTemplateDeclaration
  rw [h]
  refine ⟨_, rfl, ?_, ?_⟩
  · intro hnone
    simp [hnone]
  · intro v hv
    simp [hv]

theorem c10_locked_flag_default_witness :
    ∃ d, parseTemplateDeclaration c10Text.data = some d ∧
      ((⟨("/T.dwt".data, Option.none), 0, 40⟩ :
          MarkerM (List Char × Option (List Char))).cap.2 = Option.none →
        d.codeOutsideHTMLIsLocked = true) ∧
      (∀ v, (⟨("/T.dwt".data, Option.none), 0, 40⟩ :
          MarkerM (List Char × Option (List Char))).cap.2 = some v →
        (d.codeOutsideHTMLIsLocked = false ↔ v = "false".data)) :=
  c10_locked_flag_default c10Text.data ⟨("/T.dwt".data, Option.none), 0, 40⟩ []
    (by decide)

-- ---------------------------------------------------------------------------
-- C4: the pairing loop against the spec's first-unconsumed-end description
-- ---------------------------------------------------------------------------

theorem pairPerSpec_cons {α : Type} (canClose : MarkerM α → MarkerM Unit → Bool)
    (b : MarkerM α) (bs : List (MarkerM α)) :
    ∀ ends : List (MarkerM Unit),
      pairPerSpec canClose (b :: bs) ends =
        match ends.dropWhile (fun e => !(canClose b e)) with
        | [] => []
        | e :: es =>
          ⟨b.cap, b.start, b.stop, e.start, e.stop⟩ :: pairPerSpec canClose bs es := by
  intro ends
  induction ends with
  | nil => rfl
  | cons e es ih =>
    by_cases hc : canClose b e = true
    · simp only [pairPerSpec, List.findIdx_cons, hc, cond_true, List.dropWhile_cons,
        Bool.not_true]
      rw [dif_pos (by simp)]
      simp
    · have hc' : canClose b e = false := by
        cases hcv : canClose b e
        · rfl
        · exact absurd hcv hc
      simp only [pairPerSpec, List.findIdx_cons, hc', cond_false, List.dropWhile_cons,
        Bool.not_false]
      simp only [pairPerSpec, List.findIdx_cons, hc', cond_false] at ih
      by_cases hlt : List.findIdx (fun e => canClose b e) es < es.length
      · rw [dif_pos (by simpa using Nat.succ_lt_succ hlt)]
        rw [dif_pos hlt] at ih
        simpa using ih
      · rw [dif_neg (by simpa using fun h => hlt (Nat.lt_of_succ_lt_succ h))]
        rw [dif_neg hlt] at ih
        simpa using ih

theorem pairMarkers_false_spec {α : Type} :
    ∀ (bs : List (MarkerM α)) (ends : List (MarkerM Unit)),
      pairMarkers false bs ends =
        pairPerSpec (fun b e => decide (b.stop ≤ e.start)) bs ends := by
  intro bs
  induction bs with
  | nil => intro ends; rfl
  | cons b bs ih =>
    intro ends
    rw [pairPerSpec_cons]
    have hpred : (fun (e : MarkerM Unit) => !(decide (b.stop ≤ e.start))) =
        fun e => decide (e.start < b.stop) := by
      funext e
      by_cases h : b.stop ≤ e.start
      · simp [h, Nat.not_lt.mpr h]
      · simp [h, Nat.lt_of_not_le h]
    rw [hpred]
    simp only [pairMarkers, Bool.false_eq_true, if_false]
    cases (ends.dropWhile fun e => decide (e.start < b.stop)) with
    | nil => rfl
    | cons e es => simp only [ih]

theorem pairMarkers_true_spec {α : Type} :
    ∀ (bs : List (MarkerM α)) (ends : List (MarkerM Unit)),
      pairMarkers true bs ends =
        pairPerSpec (fun b e => decide (b.stop < e.start)) bs ends := by
  intro bs
  induction bs with
  | nil => intro ends; rfl
  | cons b bs ih =>
    intro ends
    rw [pairPerSpec_cons]
    have hpred : (fun (e : MarkerM Unit) => !(decide (b.stop < e.start))) =
        fun e => decide (e.start ≤ b.stop) := by
      funext e
      by_cases h : b.stop < e.start
      · simp [h, Nat.not_le.mpr h]
      · simp [h, Nat.le_of_not_lt h]
    rw [hpred]
    simp only [pairMarkers, if_true]
    cases (ends.dropWhile fun e => decide (e.start ≤ b.stop)) with
    | nil => rfl
    | cons e es => simp only [ih]

/-- C4 (amended): the pairing loop pairs the n-th begin with the first
unconsumed end marker *strictly after* the threshold for the families whose
cursor test is `<=` (repeat regions, repeat entries, library items), and
*at or after* it for the families whose test is `<` (editable, conditional,
optional); unpaired trailing begins yield no region.  The claim's uniform
"at or after" reading fails for the first group (see the counterexample). -/
theorem c4_pairing_first_unconsumed_end :
    (∀ (bs : List (MarkerM (List Char))) (ends : List (MarkerM Unit)),
      pairMarkers false bs ends =
        pairPerSpec (fun b e => decide (b.stop ≤ e.start)) bs ends) ∧
    (∀ (bs : List (MarkerM (List Char))) (ends : List (MarkerM Unit)),
      pairMarkers true bs ends =
        pairPerSpec (fun b e => decide (b.stop < e.start)) bs ends) :=
  ⟨pairMarkers_false_spec, pairMarkers_true_spec⟩

/-- C4 counterexample: with adjacent library markers (the end marker starts
exactly at the begin marker's end offset) the parser pairs nothing — the
`<=` cursor test skips that end — while pairing by "first unconsumed end at
or after the begin's end offset", as the claim states it for every family,
would produce a region. -/
theorem c4_pairing_counterexample :
    parseLibraryItems c4Text.data = [] ∧
    pairPerSpec (fun b e => decide (b.stop ≤ e.start))
      (findMarkers BEGIN_LIBRARY_ITEM c4Text.data)
      (findMarkers END_LIBRARY_ITEM c4Text.data) ≠ [] := by
  constructor
  · decide
  · decide

-- ---------------------------------------------------------------------------
-- C3: zero-region totality
-- ---------------------------------------------------------------------------

/-- C3 counterexample: a text with no markers at all parses as a `none`
document with an *empty* protected set, not one whole-document protected
region — `parseDocument` returns empty collections for `none` files (and
the repository's own test asserts exactly this). -/
theorem c3_zero_region_counterexample :
    (parseDocument c3Text).protectedRegions = [] ∧
    ¬((parseDocument c3Text).protectedRegions = [⟨0, c3Text.data.length⟩]) := by
  constructor
  · decide
  · decide

/-- C3 (amended): parsing text with no editable begin markers yields exactly
one protected region spanning the whole document, provided the text is
recognised as a template or instance at all (`fileType ≠ none`) and contains
no paired library item (whose content range would otherwise be appended to
the protected set); a document with no recognised markers parses as `none`
with zero protected regions. -/
theorem c3_whole_document_protected (text : String)
    (hft : ¬(detectFileType text.data = DwtFileType.none))
    (hb1 : findMarkers TEMPLATE_BEGIN_EDITABLE text.data = [])
    (hb2 : findMarkers INSTANCE_BEGIN_EDITABLE text.data = [])
    (hlib : parseLibraryItems text.data = []) :
    (parseDocument text).protectedRegions = [⟨0, text.data.length⟩] := by
  unfold parseDocument
  rw [if_neg hft]
  cases hdf : detectFileType text.data with
  | none => exact absurd hdf hft
  | template =>
    simp only [hdf, hlib, parseEditableRegions, hb1, pairMarkers, List.map_nil,
      contentRangesOf, computeProtectedRegions, List.isEmpty_nil, if_true,
      List.append_nil, reduceCtorEq, if_false, if_true]
  | instancePage =>
    simp only [hdf, hlib, parseEditableRegions, hb2, pairMarkers, List.map_nil,
      contentRangesOf, computeProtectedRegions, List.isEmpty_nil, if_true,
      List.append_nil, reduceCtorEq, if_false]

theorem c3_whole_document_protected_witness :
    (parseDocument c3WitnessText).protectedRegions =
      [⟨0, c3WitnessText.data.length⟩] :=
  c3_whole_document_protected c3WitnessText (by decide) (by decide) (by decide)
    (by decide)

-- ---------------------------------------------------------------------------
-- C2: condition evaluation
-- ---------------------------------------------------------------------------

theorem lit_some_get : ∀ {pat l r : List Char}, lit pat l = some r →
    ∀ i, i < pat.length → l.get? i = pat.get? i := by
  intro pat
  induction pat with
  | nil => intro l r _ i hi; simp at hi
  | cons p ps ih =>
    intro l r h i hi
    cases l with
    | nil => simp [lit] at h
    | cons c cs =>
      have hc := lit_head h
      subst hc
      cases i with
      | zero => rfl
      | succ j =>
        simp only [lit, if_pos rfl] at h
        simp only [List.length_cons] at hi
        simpa using ih h j (by omega)

theorem docPat_get_ne_cmp :
    ∀ i, i < 11 → ¬(("_document[".data ++ [sqChar]).get? i = some '=') ∧
      ¬(("_document[".data ++ [sqChar]).get? i = some '!') := by decide

theorem docPat_get_nine : ("_document[".data ++ [sqChar]).get? 9 = some '[' := by decide

theorem matchDocBracket_word_none {name : List Char} (hw : name.all isWordChar = true)
    {c : Char} (hc : c = '=' ∨ c = '!') (tail : List Char) :
    matchDocBracket (name ++ c :: tail) = none := by
  unfold matchDocBracket
  cases hl : lit ("_document[".data ++ [sqChar]) (name ++ c :: tail) with
  | none => rfl
  | some r =>
    exfalso
    by_cases hlen : name.length < 11
    · have hg := lit_some_get hl name.length (by simpa using hlen)
      have hb : (name ++ c :: tail).get? name.length = some c := by
        rw [List.get?_append_right (le_refl _)]
        simp
      rw [hb] at hg
      rcases hc with rfl | rfl
      · exact (docPat_get_ne_cmp name.length (by simpa using hlen)).1 hg.symm
      · exact (docPat_get_ne_cmp name.length (by simpa using hlen)).2 hg.symm
    · have hg := lit_some_get hl 9 (by simp)
      rw [docPat_get_nine] at hg
      have h9 : (name ++ c :: tail).get? 9 = name.get? 9 :=
        List.get?_append (by omega)
      rw [h9] at hg
      have hmem : '[' ∈ name := by
        have := List.get?_mem hg
        exact this
      have := (List.all_eq_true.mp hw) '[' hmem
      simp [isWordChar] at this

theorem matchDocBracket_word_none_pure {name : List Char}
    (hw : name.all isWordChar = true) : matchDocBracket name = none := by
  unfold matchDocBracket
  cases hl : lit ("_document[".data ++ [sqChar]) name with
  | none => rfl
  | some r =>
    exfalso
    have hlen := lit_length hl
    have hpat : ("_document[".data ++ [sqChar]).length = 11 := by decide
    have hg := lit_some_get hl 9 (by simp)
    rw [docPat_get_nine] at hg
    have hmem : '[' ∈ name := List.get?_mem hg
    have := (List.all_eq_true.mp hw) '[' hmem
    simp [isWordChar] at this

theorem takeWhile_all_append {p : Char → Bool} :
    ∀ {a : List Char}, a.all p = true → ∀ {c : Char}, p c = false →
      ∀ (t : List Char), (a ++ c :: t).takeWhile p = a := by
  intro a
  induction a with
  | nil =>
    intro _ c hc t
    simp [List.takeWhile_cons, hc]
  | cons x xs ih =>
    intro ha c hc t
    simp only [List.all_cons, Bool.and_eq_true] at ha
    simp only [List.cons_append, List.takeWhile_cons, ha.1, if_true, ih ha.2 hc t]

theorem takeWhile_of_all {p : Char → Bool} :
    ∀ {a : List Char}, a.all p = true → a.takeWhile p = a := by
  intro a
  induction a with
  | nil => intro _; rfl
  | cons x xs ih =>
    intro ha
    simp only [List.all_cons, Bool.and_eq_true] at ha
    simp only [List.takeWhile_cons, ha.1, if_true, ih ha.2]

theorem captureTo0_exact {stop : Char} :
    ∀ {v : List Char}, NoChar stop v = true →
      ∀ (r : List Char), captureTo0 stop (v ++ stop :: r) = some (v, r) := by
  intro v
  induction v with
  | nil => intro _ r; simp [captureTo0]
  | cons x xs ih =>
    intro hv r
    simp only [NoChar, List.all_cons, Bool.and_eq_true, Bool.not_eq_true',
      decide_eq_false_iff_not] at hv
    simp only [List.cons_append, captureTo0, if_neg hv.1, List.append_eq,
      ih (by simp [NoChar, hv.2]) r]

theorem dropSpaces_cons_notspace {c : Char} (hc : isJsSpace c = false)
    (t : List Char) : dropSpaces (c :: t) = c :: t := by
  simp [dropSpaces, List.dropWhile_cons, hc]

/-- Evaluation of `matchCondName` on a word name followed by a comparison
operator: the bracket alternative fails and the `\w+` branch captures
exactly the name. -/
theorem matchCondName_word {name : List Char} (hne : ¬(name = []))
    (hw : name.all isWordChar = true) {c : Char} (hc : c = '=' ∨ c = '!')
    (tail : List Char) :
    matchCondName (name ++ c :: tail) = some (name, c :: tail) := by
  unfold matchCondName
  rw [matchDocBracket_word_none hw hc tail]
  have hcw : isWordChar c = false := by
    rcases hc with rfl | rfl <;> decide
  rw [takeWhile_all_append hw hcw tail]
  have : (name ++ c :: tail).drop name.length = c :: tail := List.drop_left _ _
  rw [if_neg (by simpa using hne), this]

theorem matchCmpOp_eval {isEq : Bool} {q : Char} (hq : isJsSpace q = false)
    (tail : List Char) :
    matchCmpOp ((if isEq then "==" else "!=").data ++ q :: tail) =
      some (isEq, q :: tail) := by
  cases isEq with
  | true =>
    show matchCmpOp ("==".data ++ q :: tail) = some (true, q :: tail)
    unfold matchCmpOp
    have h1 : dropSpaces ("==".data ++ q :: tail) = "==".data ++ q :: tail := rfl
    simp only [h1, lit_append_self]
    rw [dropSpaces_cons_notspace hq]
  | false =>
    show matchCmpOp ("!=".data ++ q :: tail) = some (false, q :: tail)
    unfold matchCmpOp
    have h1 : dropSpaces ("!=".data ++ q :: tail) = "!=".data ++ q :: tail := rfl
    have h2 : lit "==".data ("!=".data ++ q :: tail) = none := rfl
    simp only [h1, h2, lit_append_self]
    rw [dropSpaces_cons_notspace hq]

theorem matchQuoted_eval {q : Char} {v : List Char} (hv : NoChar q v = true)
    (rest : List Char) :
    matchQuoted q (q :: (v ++ q :: rest)) = some (v, rest) := by
  show (if q = q then captureTo0 q (v ++ q :: rest) else none) = some (v, rest)
  rw [if_pos rfl, captureTo0_exact hv rest]

/-- The comparison prefix regex on a word-name form. -/
theorem matchComparison_word {q : Char} (hq : isJsSpace q = false)
    {name : List Char} (hne : ¬(name = [])) (hw : name.all isWordChar = true)
    {isEq : Bool} {v : List Char} (hv : NoChar q v = true) (rest : List Char) :
    matchComparison q
        (name ++ (if isEq then "==" else "!=").data ++ q :: (v ++ q :: rest)) =
      some (name, isEq, v) := by
  have h1 : matchCondName
      (name ++ ((if isEq then "==" else "!=").data ++ q :: (v ++ q :: rest))) =
      some (name, (if isEq then "==" else "!=").data ++ q :: (v ++ q :: rest)) := by
    cases isEq with
    | true =>
      show matchCondName (name ++ ('=' :: ("=".data ++ q :: (v ++ q :: rest)))) =
        some (name, '=' :: ("=".data ++ q :: (v ++ q :: rest)))
      exact matchCondName_word hne hw (Or.inl rfl) _
    | false =>
      show matchCondName (name ++ ('!' :: ("=".data ++ q :: (v ++ q :: rest)))) =
        some (name, '!' :: ("=".data ++ q :: (v ++ q :: rest)))
      exact matchCondName_word hne hw (Or.inr rfl) _
  unfold matchComparison
  rw [List.append_assoc]
  simp only [h1, matchCmpOp_eval hq, matchQuoted_eval hv]

theorem captureTo1_exact {stop : Char} {v : List Char} (hne : ¬(v = []))
    (hv : NoChar stop v = true) (r : List Char) :
    captureTo1 stop (v ++ stop :: r) = some (v, r) := by
  cases v with
  | nil => exact absurd rfl hne
  | cons x xs =>
    have hx : ¬(x = stop) := by
      simp only [NoChar, List.all_cons, Bool.and_eq_true, Bool.not_eq_true',
        decide_eq_false_iff_not] at hv
      exact hv.1
    show (if x = stop then none else captureTo0 stop ((x :: xs) ++ stop :: r)) =
      some (x :: xs, r)
    rw [if_neg hx, captureTo0_exact hv r]

theorem matchDocBracket_eval {nm : List Char} (hne : ¬(nm = []))
    (hnm : NoChar sqChar nm = true) (tail : List Char) :
    matchDocBracket ("_document[".data ++ sqChar :: (nm ++ sqChar :: ']' :: tail)) =
      some (nm, tail) := by
  unfold matchDocBracket
  have h1 : lit ("_document[".data ++ [sqChar])
      ("_document[".data ++ sqChar :: (nm ++ sqChar :: ']' :: tail)) =
      some (nm ++ sqChar :: ']' :: tail) := by
    have := lit_append_self ("_document[".data ++ [sqChar]) (nm ++ sqChar :: ']' :: tail)
    simpa [List.append_assoc] using this
  have h2 : captureTo1 sqChar (nm ++ sqChar :: ']' :: tail) = some (nm, ']' :: tail) :=
    captureTo1_exact hne hnm _
  have h3 : lit "]".data (']' :: tail) = some tail := rfl
  simp only [h1, h2, h3]

theorem matchComparison_sq_on_dq {name : List Char} (hne : ¬(name = []))
    (hw : name.all isWordChar = true) (isEq : Bool) (tail : List Char) :
    matchComparison sqChar
        (name ++ (if isEq then "==" else "!=").data ++ '"' :: tail) = none := by
  have h1 : matchCondName
      (name ++ ((if isEq then "==" else "!=").data ++ '"' :: tail)) =
      some (name, (if isEq then "==" else "!=").data ++ '"' :: tail) := by
    cases isEq with
    | true =>
      show matchCondName (name ++ ('=' :: ("=".data ++ '"' :: tail))) =
        some (name, '=' :: ("=".data ++ '"' :: tail))
      exact matchCondName_word hne hw (Or.inl rfl) _
    | false =>
      show matchCondName (name ++ ('!' :: ("=".data ++ '"' :: tail))) =
        some (name, '!' :: ("=".data ++ '"' :: tail))
      exact matchCondName_word hne hw (Or.inr rfl) _
  unfold matchComparison
  rw [List.append_assoc]
  have h2 : matchCmpOp ((if isEq then "==" else "!=").data ++ '"' :: tail) =
      some (isEq, '"' :: tail) := matchCmpOp_eval (by decide) tail
  have h3 : matchQuoted sqChar ('"' :: tail) = none := by
    show (if '"' = sqChar then captureTo0 sqChar tail else none) = none
    rw [if_neg (by decide)]
  simp only [h1, h2, h3]

theorem matchComparison_bracket {q : Char} (hq : isJsSpace q = false)
    {nm : List Char} (hne : ¬(nm = [])) (hnm : NoChar sqChar nm = true)
    {isEq : Bool} {v : List Char} (hv : NoChar q v = true) (rest : List Char) :
    matchComparison q
        ("_document[".data ++ sqChar ::
          (nm ++ sqChar :: ']' ::
            ((if isEq then "==" else "!=").data ++ q :: (v ++ q :: rest)))) =
      some (nm, isEq, v) := by
  unfold matchComparison matchCondName
  rw [matchDocBracket_eval hne hnm _]
  simp only [matchCmpOp_eval hq, matchQuoted_eval hv]

theorem matchCondName_bare {name : List Char} (hne : ¬(name = []))
    (hw : name.all isWordChar = true) :
    matchCondName name = some (name, []) := by
  unfold matchCondName
  rw [matchDocBracket_word_none_pure hw, takeWhile_of_all hw]
  rw [if_neg (by simpa using hne)]
  simp

theorem matchComparison_bare_none (q : Char) {name : List Char} (hne : ¬(name = []))
    (hw : name.all isWordChar = true) : matchComparison q name = none := by
  unfold matchComparison
  rw [matchCondName_bare hne hw]
  have : matchCmpOp ([] : List Char) = none := rfl
  simp only [this]

theorem matchComparison_bracket_only_none (q : Char) {nm : List Char}
    (hne : ¬(nm = [])) (hnm : NoChar sqChar nm = true) :
    matchComparison q
      ("_document[".data ++ sqChar :: (nm ++ sqChar :: ']' :: [])) = none := by
  unfold matchComparison matchCondName
  rw [matchDocBracket_eval hne hnm []]
  have : matchCmpOp ([] : List Char) = none := rfl
  simp only [this]

/-- C2 (amended): the comparison forms of `evaluateCondition` are matched as
*prefixes* of the trimmed condition — any trailing text after the closing
quote is ignored and the comparison's result is returned, rather than the
fail-open `true` the claim assigns to every text not exactly of a listed
form.  The bracket-alone and bare-name truthiness forms must span the whole
trimmed condition; a missing parameter is compared as the empty string; all
remaining texts default to `true`. -/
theorem c2_condition_evaluation :
    (∀ (cond : String) (params : SMap) (name v rest : List Char) (isEq : Bool),
      jsTrim cond.data =
        name ++ (if isEq then "==" else "!=").data ++ sqChar :: (v ++ sqChar :: rest) →
      ¬(name = []) → name.all isWordChar = true → NoChar sqChar v = true →
      evaluateCondition cond params =
        ((((SMap.get params (String.mk name)).getD "") == String.mk v) == isEq)) ∧
    (∀ (cond : String) (params : SMap) (name v rest : List Char) (isEq : Bool),
      jsTrim cond.data =
        name ++ (if isEq then "==" else "!=").data ++ '"' :: (v ++ '"' :: rest) →
      ¬(name = []) → name.all isWordChar = true → NoChar '"' v = true →
      evaluateCondition cond params =
        ((((SMap.get params (String.mk name)).getD "") == String.mk v) == isEq)) ∧
    (∀ (cond : String) (params : SMap) (nm v rest : List Char) (isEq : Bool),
      jsTrim cond.data =
        "_document[".data ++ sqChar ::
          (nm ++ sqChar :: ']' ::
            ((if isEq then "==" else "!=").data ++ sqChar :: (v ++ sqChar :: rest))) →
      ¬(nm = []) → NoChar sqChar nm = true → NoChar sqChar v = true →
      evaluateCondition cond params =
        ((((SMap.get params (String.mk nm)).getD "") == String.mk v) == isEq)) ∧
    (∀ (cond : String) (params : SMap) (nm : List Char),
      jsTrim cond.data = "_document[".data ++ sqChar :: (nm ++ sqChar :: ']' :: []) →
      ¬(nm = []) → NoChar sqChar nm = true →
      evaluateCondition cond params =
        (((SMap.get params (String.mk nm)).getD "") == "true")) ∧
    (∀ (cond : String) (params : SMap) (name : List Char),
      jsTrim cond.data = name →
      ¬(name = []) → name.all isWordChar = true →
      evaluateCondition cond params =
        (((SMap.get params (String.mk name)).getD "") == "true")) ∧
    (∀ (cond : String) (params : SMap),
      matchComparison sqChar (jsTrim cond.data) = none →
      matchComparison '"' (jsTrim cond.data) = none →
      matchBracketFull (jsTrim cond.data) = none →
      ¬(jsTrim cond.data ≠ [] ∧ (jsTrim cond.data).all isWordChar = true) →
      evaluateCondition cond params = true) := by
  refine ⟨?_, ?_, ?_, ?_, ?_, ?_⟩
  · intro cond params name v rest isEq ht hne hw hv
    unfold evaluateCondition
    simp only [ht, matchComparison_word (by decide) hne hw hv rest]
    cases isEq <;>
      by_cases hav : (SMap.get params (String.mk name)).getD "" = String.mk v <;>
      simp [hav]
  · intro cond params name v rest isEq ht hne hw hv
    unfold evaluateCondition
    have hqd : isJsSpace '"' = false := by decide
    simp only [ht, matchComparison_sq_on_dq hne hw isEq _,
      matchComparison_word hqd hne hw hv rest]
    cases isEq <;>
      by_cases hav : (SMap.get params (String.mk name)).getD "" = String.mk v <;>
      simp [hav]
  · intro cond params nm v rest isEq ht hne hnm hv
    unfold evaluateCondition
    simp only [ht, matchComparison_bracket (by decide) hne hnm hv rest]
    cases isEq <;>
      by_cases hav : (SMap.get params (String.mk nm)).getD "" = String.mk v <;>
      simp [hav]
  · intro cond params nm ht hne hnm
    unfold evaluateCondition
    have hfull : matchBracketFull
        ("_document[".data ++ sqChar :: (nm ++ sqChar :: ']' :: [])) = some nm := by
      unfold matchBracketFull
      rw [matchDocBracket_eval hne hnm []]
    simp only [ht, matchComparison_bracket_only_none sqChar hne hnm,
      matchComparison_bracket_only_none '"' hne hnm, hfull]
    by_cases hav : (SMap.get params (String.mk nm)).getD "" = "true" <;> simp [hav]
  · intro cond params name ht hne hw
    unfold evaluateCondition
    have hfull : matchBracketFull name = none := by
      unfold matchBracketFull
      rw [matchDocBracket_word_none_pure hw]
    simp only [ht, matchComparison_bare_none sqChar hne hw,
      matchComparison_bare_none '"' hne hw, hfull]
    rw [if_pos ⟨by simpa using hne, hw⟩]
    by_cases hav : (SMap.get params (String.mk name)).getD "" = "true" <;> simp [hav]
  · intro cond params h1 h2 h3 h4
    unfold evaluateCondition
    simp only [h1, h2, h3]
    rw [if_neg h4]

theorem c2_condition_evaluation_witness :
    evaluateCondition "Division=='direct'" [("Division", "direct")] = true ∧
    evaluateCondition "_document['Staff']" [("Staff", "true")] = true := by
  constructor
  · have := c2_condition_evaluation.1 "Division=='direct'" [("Division", "direct")]
      "Division".data "direct".data [] true (by decide) (by decide) (by decide)
      (by decide)
    rw [this]
    decide
  · have := c2_condition_evaluation.2.2.2.1 "_document['Staff']" [("Staff", "true")]
      "Staff".data (by decide) (by decide) (by decide)
    rw [this]
    decide

/-- C2 counterexample: `Division=='direct' && Staff=='true'` is not of any
form the claim lists (it has trailing text after the first comparison), so
the claim's fail-open default predicts `true`; the code matches the leading
comparison as a prefix and returns its (false) result. -/
theorem c2_condition_counterexample :
    evaluateCondition "Division=='direct' && Staff=='true'"
      [("Division", "other"), ("Staff", "true")] = false := by decide

-- ---------------------------------------------------------------------------
-- C1: range completeness of the protected complement
-- ---------------------------------------------------------------------------

theorem lastOf_mem (a : Range) : ∀ (rs : List Range), lastOf a rs ∈ a :: rs := by
  intro rs
  induction rs generalizing a with
  | nil => simp [lastOf]
  | cons b r ih =>
    simp only [lastOf]
    exact List.mem_cons_of_mem a (ih b)

theorem lastOf_stop_ge : ∀ {rs : List Range} {a : Range}, SeqDisjoint (a :: rs) →
    (∀ r ∈ a :: rs, r.start ≤ r.stop) → a.stop ≤ (lastOf a rs).stop := by
  intro rs
  induction rs with
  | nil => intro a _ _; exact le_refl _
  | cons b r ih =>
    intro a hchain hv
    have hab : a.stop ≤ b.start := (List.chain'_cons.mp hchain).1
    have hchain' : SeqDisjoint (b :: r) := (List.chain'_cons.mp hchain).2
    have hv' : ∀ x ∈ b :: r, x.start ≤ x.stop := fun x hx =>
      hv x (List.mem_cons_of_mem a hx)
    have hbs : b.start ≤ b.stop := hv' b (List.mem_cons_self _ _)
    have := ih hchain' hv'
    simp only [lastOf]
    omega

theorem containsB_mk (a b p : Nat) :
    (Range.mk a b).containsB p = (decide (a ≤ p) && decide (p < b)) := rfl

theorem count_mid (p : Nat) : ∀ (rs : List Range) (s0 : Range),
    SeqDisjoint (s0 :: rs) → (∀ r ∈ s0 :: rs, r.start ≤ r.stop) →
    ((gapsBetween (s0 :: rs)).countP (fun r => r.containsB p) +
      (s0 :: rs).countP (fun r => r.containsB p)) =
    (if s0.start ≤ p ∧ p < (lastOf s0 rs).stop then 1 else 0) := by
  intro rs
  induction rs with
  | nil =>
    intro s0 _ hv
    have hv0 := hv s0 (List.mem_cons_self _ _)
    simp only [gapsBetween, List.countP_nil, List.countP_cons, Range.containsB,
      Bool.and_eq_true, decide_eq_true_eq, lastOf, Nat.zero_add]
  | cons s1 rs' ih =>
    intro s0 hchain hv
    have hab : s0.stop ≤ s1.start := (List.chain'_cons.mp hchain).1
    have hchain' : SeqDisjoint (s1 :: rs') := (List.chain'_cons.mp hchain).2
    have hv' : ∀ r ∈ s1 :: rs', r.start ≤ r.stop := fun r hr =>
      hv r (List.mem_cons_of_mem _ hr)
    have hIH := ih s1 hchain' hv'
    have hL : s1.stop ≤ (lastOf s1 rs').stop := lastOf_stop_ge hchain' hv'
    have hv1 : s1.start ≤ s1.stop := hv' s1 (List.mem_cons_self _ _)
    have hv0 : s0.start ≤ s0.stop := hv s0 (List.mem_cons_self _ _)
    have hunf : gapsBetween (s0 :: s1 :: rs') =
        (if s0.stop < s1.start then [(⟨s0.stop, s1.start⟩ : Range)] else []) ++
          gapsBetween (s1 :: rs') := rfl
    have hcnt : (s0 :: s1 :: rs').countP (fun r => r.containsB p) =
        (if s0.start ≤ p ∧ p < s0.stop then 1 else 0) +
          (s1 :: rs').countP (fun r => r.containsB p) := by
      rw [List.countP_cons]
      simp only [Range.containsB, Bool.and_eq_true, decide_eq_true_eq]
      split_ifs <;> omega
    have hgap : (if s0.stop < s1.start then [(⟨s0.stop, s1.start⟩ : Range)]
        else []).countP (fun r => r.containsB p) =
        (if s0.stop < s1.start ∧ s0.stop ≤ p ∧ p < s1.start then 1 else 0) := by
      by_cases h1 : s0.stop < s1.start
      · rw [if_pos h1]
        simp only [List.countP_cons, List.countP_nil, containsB_mk,
          Bool.and_eq_true, decide_eq_true_eq]
        split_ifs <;> omega
      · rw [if_neg h1]
        simp only [List.countP_nil]
        split_ifs <;> omega
    rw [hunf, List.countP_append]
    have hlast : lastOf s0 (s1 :: rs') = lastOf s1 rs' := rfl
    rw [hlast]
    split_ifs at hIH hcnt hgap ⊢ <;> omega

theorem gapsBetween_bounds {len : Nat} : ∀ {l : List Range}, SeqDisjoint l →
    (∀ r ∈ l, r.start ≤ r.stop ∧ r.stop ≤ len) →
    ∀ g ∈ gapsBetween l, g.start ≤ g.stop ∧ g.stop ≤ len := by
  intro l
  induction l with
  | nil => intro _ _ g hg; simp [gapsBetween] at hg
  | cons a rest ih =>
    intro hchain hb g hg
    cases rest with
    | nil => simp [gapsBetween] at hg
    | cons b rest' =>
      have hunf : gapsBetween (a :: b :: rest') =
          (if a.stop < b.start then [(⟨a.stop, b.start⟩ : Range)] else []) ++
            gapsBetween (b :: rest') := rfl
      rw [hunf, List.mem_append] at hg
      rcases hg with hg | hg
      · have hbb := hb b (by simp)
        split_ifs at hg with hc
        · simp only [List.mem_singleton] at hg
          subst hg
          constructor
          · simp only []; omega
          · simp only []; omega
        · simp at hg
      · exact ih (List.chain'_cons.mp hchain).2
          (fun r hr => hb r (List.mem_cons_of_mem _ hr)) g hg

theorem tiles_protectedOfSorted {len : Nat} : ∀ {scs : List Range},
    ¬(scs = []) → SeqDisjoint scs →
    (∀ r ∈ scs, r.start ≤ r.stop ∧ r.stop ≤ len) →
    tiles (protectedOfSorted len scs ++ scs) len := by
  intro scs hne hchain hb
  cases scs with
  | nil => exact absurd rfl hne
  | cons s0 rs =>
    have hv : ∀ r ∈ s0 :: rs, r.start ≤ r.stop := fun r hr => (hb r hr).1
    have hL : s0.stop ≤ (lastOf s0 rs).stop := lastOf_stop_ge hchain hv
    have hLlen : (lastOf s0 rs).stop ≤ len := (hb _ (lastOf_mem s0 rs)).2
    have hv0 : s0.start ≤ s0.stop := hv s0 (List.mem_cons_self _ _)
    constructor
    · intro p hp
      have hcm := count_mid p rs s0 hchain hv
      have hg0 : (if 0 < s0.start then [(⟨0, s0.start⟩ : Range)]
          else []).countP (fun r => r.containsB p) =
          (if 0 < s0.start ∧ p < s0.start then 1 else 0) := by
        by_cases h1 : 0 < s0.start
        · rw [if_pos h1]
          simp only [List.countP_cons, List.countP_nil, containsB_mk,
            Bool.and_eq_true, decide_eq_true_eq]
          split_ifs <;> omega
        · rw [if_neg h1]
          simp only [List.countP_nil]
          split_ifs <;> omega
      have hgl : (if (lastOf s0 rs).stop < len
          then [(⟨(lastOf s0 rs).stop, len⟩ : Range)]
          else []).countP (fun r => r.containsB p) =
          (if (lastOf s0 rs).stop < len ∧ (lastOf s0 rs).stop ≤ p ∧ p < len
            then 1 else 0) := by
        by_cases h1 : (lastOf s0 rs).stop < len
        · rw [if_pos h1]
          simp only [List.countP_cons, List.countP_nil, containsB_mk,
            Bool.and_eq_true, decide_eq_true_eq]
          split_ifs <;> omega
        · rw [if_neg h1]
          simp only [List.countP_nil]
          split_ifs <;> omega
      simp only [protectedOfSorted, List.append_assoc, List.countP_append]
      split_ifs at hcm hg0 hgl ⊢ <;> omega
    · intro r hr
      simp only [protectedOfSorted, List.append_assoc, List.mem_append] at hr
      rcases hr with hr | hr | hr | hr
      · split_ifs at hr with h1
        · simp only [List.mem_singleton] at hr
          subst hr
          exact ⟨Nat.zero_le _, by show s0.start ≤ len ; omega⟩
        · simp at hr
      · exact gapsBetween_bounds hchain hb r hr
      · split_ifs at hr with h1
        · simp only [List.mem_singleton] at hr
          subst hr
          exact ⟨hLlen, le_refl _⟩
        · simp at hr
      · exact hb r hr

theorem scanAux_mem_bounds {α : Type} {m : List Char → Option (α × List Char)}
    (hm : Consumes m) : ∀ (fuel pos : Nat) (l : List Char) (mk : MarkerM α),
    mk ∈ scanAux m fuel pos l →
    pos ≤ mk.start ∧ mk.start ≤ mk.stop ∧ mk.stop ≤ pos + l.length := by
  intro fuel
  induction fuel with
  | zero => intro pos l mk h; simp [scanAux] at h
  | succ fuel ih =>
    intro pos l mk h
    cases l with
    | nil => simp [scanAux] at h
    | cons c cs =>
      simp only [scanAux] at h
      cases hm' : m (c :: cs) with
      | none =>
        simp only [hm'] at h
        have := ih (pos + 1) cs mk h
        simp only [List.length_cons]
        omega
      | some pr =>
        obtain ⟨a, rest⟩ := pr
        have hlt : rest.length < (c :: cs).length := hm _ _ _ hm'
        simp only [hm', List.mem_cons] at h
        rcases h with h | h
        · subst h
          simp only [List.length_cons] at hlt ⊢
          refine ⟨le_refl _, ?_, ?_⟩ <;> omega
        · have := ih (pos + ((c :: cs).length - rest.length)) rest mk h
          simp only [List.length_cons] at hlt this ⊢
          omega

theorem findMarkers_bounds {α : Type} {m : List Char → Option (α × List Char)}
    (hm : Consumes m) (text : List Char) (mk : MarkerM α)
    (h : mk ∈ findMarkers m text) : mk.start ≤ mk.stop ∧ mk.stop ≤ text.length := by
  have := scanAux_mem_bounds hm text.length 0 text mk h
  omega

theorem dropWhile_head_false {α : Type} (p : α → Bool) :
    ∀ (l : List α) {x : α} {xs : List α}, l.dropWhile p = x :: xs → p x = false := by
  intro l
  induction l with
  | nil => intro x xs h; simp [List.dropWhile] at h
  | cons a as ih =>
    intro x xs h
    rw [List.dropWhile_cons] at h
    by_cases ha : p a
    · rw [if_pos ha] at h; exact ih h
    · rw [if_neg ha] at h
      cases h
      simpa using ha

theorem dropWhile_cons_subset {α : Type} (p : α → Bool) (l : List α) {x : α}
    {xs : List α} (h : l.dropWhile p = x :: xs) : x ∈ l ∧ ∀ y ∈ xs, y ∈ l := by
  have hs : (l.dropWhile p).Sublist l := List.dropWhile_sublist p
  rw [h] at hs
  exact ⟨hs.subset (List.mem_cons_self _ _),
    fun y hy => hs.subset (List.mem_cons_of_mem _ hy)⟩

theorem pairMarkers_false_bounds {α : Type} {len : Nat} :
    ∀ (bs : List (MarkerM α)) (ends : List (MarkerM Unit)),
    (∀ e ∈ ends, e.start ≤ len) →
    ∀ r ∈ pairMarkers false bs ends, r.bStop ≤ r.eStart ∧ r.eStart ≤ len := by
  intro bs
  induction bs with
  | nil => intro ends _ r hr; simp [pairMarkers] at hr
  | cons b bs ih =>
    intro ends hends r hr
    simp only [pairMarkers, Bool.false_eq_true, if_false] at hr
    cases hd : ends.dropWhile (fun e => decide (e.start < b.stop)) with
    | nil => simp [hd] at hr
    | cons e es =>
      simp only [hd, List.mem_cons] at hr
      have hmem := dropWhile_cons_subset _ _ hd
      have hhead := dropWhile_head_false _ _ hd
      simp only [decide_eq_false_iff_not, Nat.not_lt] at hhead
      rcases hr with hr | hr
      · subst hr
        exact ⟨hhead, hends e hmem.1⟩
      · exact ih es (fun y hy => hends y (hmem.2 y hy)) r hr

theorem parseEditableRegions_content_bounds
    {beginM : List Char → Option (List Char × List Char)}
    {endM : List Char → Option (Unit × List Char)}
    (he : Consumes endM) (text : List Char) :
    ∀ cr ∈ contentRangesOf (parseEditableRegions beginM endM text),
      cr.start ≤ cr.stop ∧ cr.stop ≤ text.length := by
  intro cr hcr
  simp only [contentRangesOf, parseEditableRegions, List.map_map, List.mem_map,
    Function.comp] at hcr
  obtain ⟨r, hr, hcr⟩ := hcr
  subst hcr
  have hends : ∀ e ∈ findMarkers endM text, e.start ≤ text.length := by
    intro e hme
    have := findMarkers_bounds he text e hme
    omega
  exact pairMarkers_false_bounds _ _ hends r hr

theorem parseDocument_editable_eq (text : String) :
    (parseDocument text).editableRegions =
      if detectFileType text.data = DwtFileType.none then []
      else if detectFileType text.data = DwtFileType.template then
        parseEditableRegions TEMPLATE_BEGIN_EDITABLE TEMPLATE_END_EDITABLE text.data
      else parseEditableRegions INSTANCE_BEGIN_EDITABLE INSTANCE_END_EDITABLE text.data := by
  simp only [parseDocument]
  split_ifs <;> rfl

theorem parseDocument_fileType (text : String) :
    (parseDocument text).fileType = detectFileType text.data := by
  simp only [parseDocument]
  split_ifs with h
  · exact h.symm
  all_goals rfl

theorem parseDocument_library_eq (text : String)
    (hft : detectFileType text.data ≠ DwtFileType.none) :
    (parseDocument text).libraryItems = parseLibraryItems text.data := by
  simp only [parseDocument]
  split_ifs with h
  · exact absurd h hft
  all_goals rfl

theorem parseDocument_protected_eq (text : String)
    (hft : detectFileType text.data ≠ DwtFileType.none) :
    (parseDocument text).protectedRegions =
      computeProtectedRegions text.data.length
          (contentRangesOf (parseDocument text).editableRegions) ++
        (parseLibraryItems text.data).map (fun i => i.contentRange) := by
  rw [parseDocument_editable_eq]
  simp only [parseDocument]
  split_ifs with h
  · exact absurd h hft
  all_goals rfl

theorem parseDocument_content_bounds (text : String) :
    ∀ cr ∈ contentRangesOf (parseDocument text).editableRegions,
      cr.start ≤ cr.stop ∧ cr.stop ≤ text.data.length := by
  intro cr hcr
  rw [parseDocument_editable_eq] at hcr
  split_ifs at hcr with h1 h2
  · simp [contentRangesOf] at hcr
  · exact parseEditableRegions_content_bounds (consumes_bareMarker _) text.data cr hcr
  · exact parseEditableRegions_content_bounds (consumes_bareMarker _) text.data cr hcr

theorem perm_sortRanges (l : List Range) : (sortRanges l).Perm l :=
  List.perm_insertionSort leStart l

theorem tiles_perm_right {P l1 l2 : List Range} {len : Nat} (hperm : l1.Perm l2)
    (h : tiles (P ++ l1) len) : tiles (P ++ l2) len := by
  obtain ⟨hc, hbnd⟩ := h
  constructor
  · intro p hp
    have h1 := hc p hp
    rw [List.countP_append] at h1 ⊢
    rw [← hperm.countP_eq]
    exact h1
  · intro r hr
    rw [List.mem_append] at hr
    rcases hr with hr | hr
    · exact hbnd r (List.mem_append.mpr (Or.inl hr))
    · exact hbnd r (List.mem_append.mpr (Or.inr (hperm.mem_iff.mpr hr)))

theorem tiles_computeProtected {len : Nat} {contents : List Range}
    (hchain : SeqDisjoint (sortRanges contents))
    (hb : ∀ r ∈ contents, r.start ≤ r.stop ∧ r.stop ≤ len) :
    tiles (computeProtectedRegions len contents ++ contents) len := by
  cases contents with
  | nil =>
    simp only [computeProtectedRegions, List.isEmpty_nil, if_true, List.append_nil]
    constructor
    · intro p hp
      simp only [List.countP_cons, List.countP_nil, containsB_mk,
        Bool.and_eq_true, decide_eq_true_eq]
      split_ifs <;> omega
    · intro r hr
      simp only [List.mem_singleton] at hr
      subst hr
      exact ⟨Nat.zero_le _, le_refl _⟩
  | cons c0 cs =>
    have hperm := perm_sortRanges (c0 :: cs)
    have hne : sortRanges (c0 :: cs) ≠ [] := by
      intro h0
      have := hperm.length_eq
      rw [h0] at this
      simp at this
    have hbs : ∀ r ∈ sortRanges (c0 :: cs), r.start ≤ r.stop ∧ r.stop ≤ len :=
      fun r hr => hb r (hperm.mem_iff.mp hr)
    have htiles := tiles_protectedOfSorted hne hchain hbs
    have : computeProtectedRegions len (c0 :: cs) =
        protectedOfSorted len (sortRanges (c0 :: cs)) := by
      simp [computeProtectedRegions]
    rw [this]
    exact tiles_perm_right hperm htiles

/-- C1 (amended): for every parsed document whose editable content ranges
are sequentially disjoint once sorted by start offset, the protected
ranges computed from them together with the content ranges themselves
exactly tile `[0, len(text))` with no gap and no overlap, zero-length
protected ranges omitted; and the parse result's own protected set keeps
that tiling exactly when the document parses as a template or instance and
contains no library item.  The claim's further clause — that the tiling
still holds after the content range of every parsed library-item inclusion
is appended to the protected set — is dropped: an appended library content
range lies inside an existing protected or editable range and double-covers
it (see the counterexample). -/
theorem c1_range_completeness (text : String)
    (hchain : SeqDisjoint (sortRanges
      (contentRangesOf (parseDocument text).editableRegions))) :
    tiles (computeProtectedRegions text.data.length
          (contentRangesOf (parseDocument text).editableRegions) ++
        contentRangesOf (parseDocument text).editableRegions) text.data.length ∧
      (¬(parseDocument text).fileType = DwtFileType.none →
        (parseDocument text).libraryItems = [] →
        tiles ((parseDocument text).protectedRegions ++
            contentRangesOf (parseDocument text).editableRegions)
          text.data.length) := by
  have hb := parseDocument_content_bounds text
  have h1 := tiles_computeProtected hchain hb
  refine ⟨h1, fun hft hlib => ?_⟩
  rw [parseDocument_fileType] at hft
  rw [parseDocument_library_eq text hft] at hlib
  rw [parseDocument_protected_eq text hft, hlib]
  simpa using h1

/-- C1 counterexample: an instance page holding one library item.  The
parser appends the library item's content range to a protected set that
already covers the whole document, so offset 67 (the library body) is
covered twice and the appended set no longer tiles the document, against
the claim's "including after ... appended" clause. -/
theorem c1_library_append_counterexample :
    (parseDocument c1Text).fileType = DwtFileType.instancePage ∧
    ¬ tiles ((parseDocument c1Text).protectedRegions ++
        contentRangesOf (parseDocument c1Text).editableRegions)
      c1Text.data.length := by
  refine ⟨by decide, fun h => ?_⟩
  have h67 := h.1 67 (by decide)
  revert h67
  decide

/-- C1 witness: a template with one editable region satisfies the
disjointness hypothesis and both tiling conclusions. -/
theorem c1_range_completeness_witness :
    SeqDisjoint (sortRanges (contentRangesOf
      (parseDocument c1WitnessText).editableRegions)) ∧
    (tiles (computeProtectedRegions c1WitnessText.data.length
          (contentRangesOf (parseDocument c1WitnessText).editableRegions) ++
        contentRangesOf (parseDocument c1WitnessText).editableRegions)
      c1WitnessText.data.length ∧
      (¬(parseDocument c1WitnessText).fileType = DwtFileType.none →
        (parseDocument c1WitnessText).libraryItems = [] →
        tiles ((parseDocument c1WitnessText).protectedRegions ++
            contentRangesOf (parseDocument c1WitnessText).editableRegions)
          c1WitnessText.data.length)) :=
  ⟨by decide, c1_range_completeness c1WitnessText (by decide)⟩

theorem noChar_append {c0 : Char} {a b : List Char} (ha : NoChar c0 a = true)
    (hb : NoChar c0 b = true) : NoChar c0 (a ++ b) = true := by
  simp only [NoChar, List.all_append, Bool.and_eq_true]
  exact ⟨ha, hb⟩

theorem allFail_matchParamLine_of {l : List Char}
    (h : AllFail TEMPLATE_PARAM l) : AllFail matchParamLine l := by
  intro k
  simp only [matchParamLine]
  rw [List.drop_drop]
  rw [h (k + ((l.drop k).takeWhile isSpTab).length)]

theorem resolveConditionals_id {params : SMap} {text : List Char}
    (h : condPass params text = text) : resolveConditionals params text = text := by
  unfold resolveConditionals
  simp [resolveConditionalsFuel, h]

theorem allFail_c5T0 {α : Type} (m : List Char → Option α) (hm : HeadIs m '<')
    (h0B : ∀ b, m (c5B ++ b) = none) (h0E : ∀ b, m (c5E ++ b) = none)
    {pre d post : List Char} (hpre : NoChar '<' pre = true)
    (hd : NoChar '<' d = true) (hpost : NoChar '<' post = true) :
    AllFail m (pre ++ (c5B ++ (d ++ (c5E ++ post)))) := by
  have hE : AllFail m (('<' :: "!-- TemplateEndEditable -->".data) ++ post) :=
    allFail_marker hm (h0E post) (by decide) (allFail_of_trans hm hpost)
  have hdE : AllFail m (d ++ (c5E ++ post)) := allFail_append_trans hm hd hE
  have hB : AllFail m
      (('<' :: "!-- TemplateBeginEditable name=\x22main\x22 -->".data) ++
        (d ++ (c5E ++ post))) :=
    allFail_marker hm (h0B (d ++ (c5E ++ post))) (by decide) hdE
  exact allFail_append_trans hm hpre hB

theorem allFail_c5Out {α : Type} (m : List Char → Option α) (hm : HeadIs m '<')
    (hIB : ∀ b, m ("<!-- InstanceBeginEditable name=\x22main\x22 -->".data ++ b) = none)
    (hp : ∀ b, m ("<p>X".data ++ b) = none)
    (hsl : ∀ b, m ("</p>".data ++ b) = none)
    (hIE : ∀ b, m ("<!-- InstanceEndEditable -->".data ++ b) = none)
    {pre post : List Char} (hpre : NoChar '<' pre = true)
    (hpost : NoChar '<' post = true) :
    AllFail m (pre ++ (c5Wrapped ++ post)) := by
  have a1 : AllFail m post := allFail_of_trans hm hpost
  have a2 : AllFail m (('<' :: "!-- InstanceEndEditable -->".data) ++ post) :=
    allFail_marker hm (hIE post) (by decide) a1
  have a3 : AllFail m (('<' :: "/p>".data) ++
      (('<' :: "!-- InstanceEndEditable -->".data) ++ post)) :=
    allFail_marker hm (hsl _) (by decide) a2
  have a4 : AllFail m (('<' :: "p>X".data) ++ (('<' :: "/p>".data) ++
      (('<' :: "!-- InstanceEndEditable -->".data) ++ post))) :=
    allFail_marker hm (hp _) (by decide) a3
  have a5 : AllFail m
      (('<' :: "!-- InstanceBeginEditable name=\x22main\x22 -->".data) ++
        (('<' :: "p>X".data) ++ (('<' :: "/p>".data) ++
          (('<' :: "!-- InstanceEndEditable -->".data) ++ post)))) :=
    allFail_marker hm (hIB _) (by decide) a4
  exact allFail_append_trans hm hpre a5

/-- C5 (amended): on a template that decomposes as prefix, begin marker for
`main`, default body, end marker and suffix — the prefix, body and suffix
free of `<` and `@`, the prefix and suffix also free of `T` — resolving
with `editableContents` mapping `main` to `<p>X</p>` yields exactly the
prefix, then `<p>X</p>` wrapped in an `InstanceBeginEditable name="main"` /
`InstanceEndEditable` pair, then the suffix; hence the output contains the
wrapped content and never the substring `TemplateBeginEditable`.  The
claim's "for every template text" fails: a template whose begin marker has
no matching end marker is passed through unchanged (see the
counterexample). -/
theorem c5_round_trip (pre d post : List Char)
    (hpre1 : NoChar '<' pre = true) (hpre2 : NoChar '@' pre = true)
    (hpre3 : NoChar 'T' pre = true)
    (hd1 : NoChar '<' d = true) (hd2 : NoChar '@' d = true)
    (hpost1 : NoChar '<' post = true) (hpost2 : NoChar '@' post = true)
    (hpost3 : NoChar 'T' post = true) :
    resolveTemplate (c5Opts (String.mk (pre ++ (c5B ++ (d ++ (c5E ++ post)))))) =
        pre ++ (c5Wrapped ++ post) ∧
      hasSub (resolveTemplate
          (c5Opts (String.mk (pre ++ (c5B ++ (d ++ (c5E ++ post)))))))
        c5Wrapped = true ∧
      hasSub (resolveTemplate
          (c5Opts (String.mk (pre ++ (c5B ++ (d ++ (c5E ++ post)))))))
        "TemplateBeginEditable".data = false := by
  have h1 : existsMatch INSTANCE_BEGIN_TEST (pre ++ (c5B ++ (d ++ (c5E ++ post)))) = false :=
    existsMatch_eq_false (allFail_c5T0 INSTANCE_BEGIN_TEST headIs_INSTANCE_BEGIN_TEST
      (fun _ => rfl) (fun _ => rfl) hpre1 hd1 hpost1)
  have hafP : AllFail TEMPLATE_PARAM (pre ++ (c5B ++ (d ++ (c5E ++ post)))) :=
    allFail_c5T0 TEMPLATE_PARAM (headIs_paramMarker _)
      (fun _ => rfl) (fun _ => rfl) hpre1 hd1 hpost1
  have h2 : removeTemplateParamLines (pre ++ (c5B ++ (d ++ (c5E ++ post)))) =
      pre ++ (c5B ++ (d ++ (c5E ++ post))) :=
    replaceAll_allFail (allFail_matchParamLine_of hafP)
  have hafIf : AllFail (matchBlock TEMPLATE_BEGIN_IF TEMPLATE_END_IF)
      (pre ++ (c5B ++ (d ++ (c5E ++ post)))) :=
    allFail_c5T0 (matchBlock TEMPLATE_BEGIN_IF TEMPLATE_END_IF)
      (headIs_matchBlock (headIs_attrMarker _ _))
      (fun _ => rfl) (fun _ => rfl) hpre1 hd1 hpost1
  have h3 : ∀ P : SMap, resolveConditionals P (pre ++ (c5B ++ (d ++ (c5E ++ post)))) =
      pre ++ (c5B ++ (d ++ (c5E ++ post))) := fun P =>
    resolveConditionals_id (replaceAll_allFail hafIf)
  have hafOpt : AllFail (matchBlock TEMPLATE_BEGIN_OPTIONAL TEMPLATE_END_OPTIONAL)
      (pre ++ (c5B ++ (d ++ (c5E ++ post)))) :=
    allFail_c5T0 (matchBlock TEMPLATE_BEGIN_OPTIONAL TEMPLATE_END_OPTIONAL)
      (headIs_matchBlock (headIs_attrMarker _ _))
      (fun _ => rfl) (fun _ => rfl) hpre1 hd1 hpost1
  have h4 : ∀ P : SMap, resolveOptionalRegions P (pre ++ (c5B ++ (d ++ (c5E ++ post)))) =
      pre ++ (c5B ++ (d ++ (c5E ++ post))) := fun P =>
    replaceAll_allFail hafOpt
  have h5 : ∀ P : SMap, resolveVariables P (pre ++ (c5B ++ (d ++ (c5E ++ post)))) =
      pre ++ (c5B ++ (d ++ (c5E ++ post))) := fun P =>
    replaceAll_allFail (allFail_of_trans headIs_TEMPLATE_VARIABLE
      (noChar_append hpre2 (noChar_append (by decide)
        (noChar_append hd2 (noChar_append (by decide) hpost2)))))
  have hafRep : AllFail (matchBlock TEMPLATE_BEGIN_REPEAT TEMPLATE_END_REPEAT)
      (pre ++ (c5B ++ (d ++ (c5E ++ post)))) :=
    allFail_c5T0 (matchBlock TEMPLATE_BEGIN_REPEAT TEMPLATE_END_REPEAT)
      (headIs_matchBlock (headIs_attrMarker _ _))
      (fun _ => rfl) (fun _ => rfl) hpre1 hd1 hpost1
  have h7 : ∀ R : RMap, resolveRepeatRegions R (pre ++ (c5B ++ (d ++ (c5E ++ post)))) =
      pre ++ (c5B ++ (d ++ (c5E ++ post))) := fun R =>
    replaceAll_allFail hafRep
  have hfound : matchBlock TEMPLATE_BEGIN_EDITABLE TEMPLATE_END_EDITABLE
      ('<' :: ("!-- TemplateBeginEditable name=\x22main\x22 -->".data ++
        (d ++ (c5E ++ post)))) = some (("main".data, d), post) :=
    matchBlock_found (headIs_bareMarker _) rfl hd1 rfl
  have h8 : resolveEditableRegions [("main", "<p>X</p>")]
      (pre ++ (c5B ++ (d ++ (c5E ++ post)))) = pre ++ (c5Wrapped ++ post) := by
    unfold resolveEditableRegions
    rw [replaceAll_append_trans
      (headIs_matchBlock (headIs_attrMarker _ _) :
        HeadIs (matchBlock TEMPLATE_BEGIN_EDITABLE TEMPLATE_END_EDITABLE) '<') hpre1]
    show pre ++ replaceAll (matchBlock TEMPLATE_BEGIN_EDITABLE TEMPLATE_END_EDITABLE) _
        ('<' :: ("!-- TemplateBeginEditable name=\x22main\x22 -->".data ++
          (d ++ (c5E ++ post)))) = pre ++ (c5Wrapped ++ post)
    rw [replaceAll_cons_some
      (matchBlock_lt (consumes_attrMarker _ _) (consumes_bareMarker _) :
        Consumes (matchBlock TEMPLATE_BEGIN_EDITABLE TEMPLATE_END_EDITABLE)) hfound]
    rw [replaceAll_allFail (allFail_of_trans
      (headIs_matchBlock (headIs_attrMarker _ _) :
        HeadIs (matchBlock TEMPLATE_BEGIN_EDITABLE TEMPLATE_END_EDITABLE) '<') hpost1)]
    rfl
  have h9 : ∀ (p : String) (lk : Bool) (P Q : SMap),
      insertInstanceMarkers p lk P Q (pre ++ (c5Wrapped ++ post)) =
        pre ++ (c5Wrapped ++ post) := by
    intro p lk P Q
    simp only [insertInstanceMarkers]
    rw [replaceFirstCtx_allFail (allFail_c5Out matchHtmlOpen headIs_matchHtmlOpen
      (fun _ => rfl) (fun _ => rfl) (fun _ => rfl) (fun _ => rfl) hpre1 hpost1)]
    rw [replaceFirstCtx_allFail (allFail_c5Out matchHeadClose headIs_matchHeadClose
      (fun _ => rfl) (fun _ => rfl) (fun _ => rfl) (fun _ => rfl) hpre1 hpost1)]
    rw [replaceFirstCtx_allFail (allFail_c5Out matchHtmlEndWs headIs_matchHtmlEndWs
      (fun _ => rfl) (fun _ => rfl) (fun _ => rfl) (fun _ => rfl) hpre1 hpost1)]
  have hmain : resolveTemplate (c5Opts (String.mk (pre ++ (c5B ++ (d ++ (c5E ++ post)))))) =
      pre ++ (c5Wrapped ++ post) := by
    simp only [resolveTemplate, c5Opts, h1, Bool.false_eq_true, if_false]
    rw [h2, h3, h4, h5, h7, h8, h9]
  refine ⟨hmain, ?_, ?_⟩
  · rw [hmain]
    exact hasSub_of_append pre c5Wrapped post
  · rw [hmain]
    exact hasSub_false_of_noChar
      (rfl : "TemplateBeginEditable".data.head? = some 'T')
      (noChar_append hpre3 (noChar_append (by decide) hpost3))

/-- C5 counterexample: a template made of a lone unpaired begin marker is
returned unchanged by the resolver — the output still contains
`TemplateBeginEditable` and carries no instance-wrapped content — refuting
the claim's "for every template text". -/
theorem c5_round_trip_counterexample :
    hasSub (resolveTemplate (c5Opts c5CtrText)) "TemplateBeginEditable".data = true ∧
    hasSub (resolveTemplate (c5Opts c5CtrText)) "InstanceBeginEditable".data = false := by
  decide

/-- C5 witness: a concrete well-formed template satisfies every hypothesis
and all three conclusions. -/
theorem c5_round_trip_witness :
    (NoChar '<' "A ".data = true ∧ NoChar '@' "A ".data = true ∧
      NoChar 'T' "A ".data = true ∧ NoChar '<' "body".data = true ∧
      NoChar '@' "body".data = true ∧ NoChar '<' " z".data = true ∧
      NoChar '@' " z".data = true ∧ NoChar 'T' " z".data = true) ∧
    (resolveTemplate (c5Opts (String.mk
          ("A ".data ++ (c5B ++ ("body".data ++ (c5E ++ " z".data)))))) =
        "A ".data ++ (c5Wrapped ++ " z".data) ∧
      hasSub (resolveTemplate (c5Opts (String.mk
          ("A ".data ++ (c5B ++ ("body".data ++ (c5E ++ " z".data)))))))
        c5Wrapped = true ∧
      hasSub (resolveTemplate (c5Opts (String.mk
          ("A ".data ++ (c5B ++ ("body".data ++ (c5E ++ " z".data)))))))
        "TemplateBeginEditable".data = false) :=
  ⟨by decide, c5_round_trip "A ".data "body".data " z".data (by decide) (by decide)
    (by decide) (by decide) (by decide) (by decide) (by decide) (by decide)⟩

/-- C6 (amended): on a template that decomposes as prefix, repeat begin
marker for `r`, body, repeat end marker and suffix (prefix, body and
suffix free of `<`), the resolver emits one
`InstanceBeginRepeatEntry`/`InstanceEndRepeatEntry` pair per supplied
entry in the order supplied, each entry's body resolved by
`resolveEditableRegions` against that entry's own content map, wrapped in
an outer `InstanceBeginRepeat`/`InstanceEndRepeat` pair; when no entry
list is supplied for `r` a single default entry with no overrides is
emitted — but, against the claim, the same single default entry is also
emitted when an entry list is supplied and empty (the source's
`entries && entries.length > 0 ? entries : [new Map()]`), as the
`c6Expected` expansion's nonemptiness test records; a two-entry nested
example shows each entry holding its own content and not the other's. -/
theorem c6_repeat_entries (pre d post : List Char) (es : List SMap)
    (hpre : NoChar '<' pre = true) (hd : NoChar '<' d = true)
    (hpost : NoChar '<' post = true) :
    resolveRepeatRegions [("r", es)] (pre ++ (c6RB ++ (d ++ (c6RE ++ post)))) =
        c6Expected pre d post es ∧
      resolveRepeatRegions [] (pre ++ (c6RB ++ (d ++ (c6RE ++ post)))) =
        c6Expected pre d post [] ∧
      resolveRepeatRegions [("r", [[("n", "1")], [("n", "2")]])] c6NestText =
        c6NestOut := by
  have hfound : matchBlock TEMPLATE_BEGIN_REPEAT TEMPLATE_END_REPEAT
      ('<' :: ("!-- TemplateBeginRepeat name=\x22r\x22 -->".data ++
        (d ++ (c6RE ++ post)))) = some (("r".data, d), post) :=
    matchBlock_found (headIs_bareMarker _) rfl hd rfl
  refine ⟨?_, ?_, ?_⟩
  · unfold resolveRepeatRegions
    rw [replaceAll_append_trans
      (headIs_matchBlock (headIs_attrMarker _ _) :
        HeadIs (matchBlock TEMPLATE_BEGIN_REPEAT TEMPLATE_END_REPEAT) '<') hpre]
    show pre ++ replaceAll (matchBlock TEMPLATE_BEGIN_REPEAT TEMPLATE_END_REPEAT) _
        ('<' :: ("!-- TemplateBeginRepeat name=\x22r\x22 -->".data ++
          (d ++ (c6RE ++ post)))) = _
    rw [replaceAll_cons_some
      (matchBlock_lt (consumes_attrMarker _ _) (consumes_bareMarker _) :
        Consumes (matchBlock TEMPLATE_BEGIN_REPEAT TEMPLATE_END_REPEAT)) hfound]
    rw [replaceAll_allFail (allFail_of_trans
      (headIs_matchBlock (headIs_attrMarker _ _) :
        HeadIs (matchBlock TEMPLATE_BEGIN_REPEAT TEMPLATE_END_REPEAT) '<') hpost)]
    rfl
  · unfold resolveRepeatRegions
    rw [replaceAll_append_trans
      (headIs_matchBlock (headIs_attrMarker _ _) :
        HeadIs (matchBlock TEMPLATE_BEGIN_REPEAT TEMPLATE_END_REPEAT) '<') hpre]
    show pre ++ replaceAll (matchBlock TEMPLATE_BEGIN_REPEAT TEMPLATE_END_REPEAT) _
        ('<' :: ("!-- TemplateBeginRepeat name=\x22r\x22 -->".data ++
          (d ++ (c6RE ++ post)))) = _
    rw [replaceAll_cons_some
      (matchBlock_lt (consumes_attrMarker _ _) (consumes_bareMarker _) :
        Consumes (matchBlock TEMPLATE_BEGIN_REPEAT TEMPLATE_END_REPEAT)) hfound]
    rw [replaceAll_allFail (allFail_of_trans
      (headIs_matchBlock (headIs_attrMarker _ _) :
        HeadIs (matchBlock TEMPLATE_BEGIN_REPEAT TEMPLATE_END_REPEAT) '<') hpost)]
    rfl
  · decide

/-- C6 counterexample: when the caller supplies an entry list for `r` that
is empty, the claim predicts zero repeat-entry pairs, but the resolver
emits one default entry pair. -/
theorem c6_repeat_entries_counterexample :
    hasSub (resolveRepeatRegions [("r", [])] c6CtrText)
      "InstanceBeginRepeatEntry".data = true := by
  decide

/-- C6 witness: a concrete one-entry repeat region satisfies the
hypotheses and all three conclusions. -/
theorem c6_repeat_entries_witness :
    (NoChar '<' "x ".data = true ∧ NoChar '<' "B".data = true ∧
      NoChar '<' "y".data = true) ∧
    (resolveRepeatRegions [("r", [[("n", "1")]])]
          ("x ".data ++ (c6RB ++ ("B".data ++ (c6RE ++ "y".data)))) =
        c6Expected "x ".data "B".data "y".data [[("n", "1")]] ∧
      resolveRepeatRegions []
          ("x ".data ++ (c6RB ++ ("B".data ++ (c6RE ++ "y".data)))) =
        c6Expected "x ".data "B".data "y".data [] ∧
      resolveRepeatRegions [("r", [[("n", "1")], [("n", "2")]])] c6NestText =
        c6NestOut) :=
  ⟨by decide, c6_repeat_entries "x ".data "B".data "y".data [[("n", "1")]]
    (by decide) (by decide) (by decide)⟩

theorem takeWhile_not_eq_take_findIdx {α : Type} (p : α → Bool) :
    ∀ l : List α, l.takeWhile (fun c => !(p c)) = l.take (l.findIdx p) := by
  intro l
  induction l with
  | nil => rfl
  | cons a t ih =>
    rw [List.takeWhile_cons, List.findIdx_cons]
    by_cases hp : p a = true
    · simp [hp]
    · simp only [Bool.not_eq_true] at hp
      simp [hp, ih]

theorem takeWhile_not_length_findIdx {α : Type} (p : α → Bool) (l : List α) :
    (l.takeWhile fun c => !(p c)).length = l.findIdx p := by
  rw [takeWhile_not_eq_take_findIdx, List.length_take]
  exact Nat.min_eq_left (List.findIdx_le_length p)

theorem rewriteUrlValue_eq_spec (tDir iDir : String) (url : List Char) :
    rewriteUrlValue tDir iDir url = specRewriteUrl tDir iDir url := by
  by_cases hg : url = [] ∨ isSchemeUrl url = true ∨ url.head? = some '/' ∨
      url.head? = some '#' ∨ url.head? = some '?' ∨
      hasSub url "@@(".data = true
  · have hrhs : specRewriteUrl tDir iDir url = Option.none := by
      rw [specRewriteUrl, if_pos hg]
    rw [hrhs]
    rcases hg with h | h | h | h | h | h
    · subst h; rfl
    · simp [rewriteUrlValue, h]
    · simp [rewriteUrlValue, h]
    · simp [rewriteUrlValue, h]
    · simp [rewriteUrlValue, h]
    · simp [rewriteUrlValue, h]
  · push_neg at hg
    obtain ⟨h1, h2, h3, h4, h5, h6⟩ := hg
    have h2f : isSchemeUrl url = false := Bool.eq_false_iff.mpr h2
    have h6f : hasSub url "@@(".data = false := Bool.eq_false_iff.mpr h6
    rw [specRewriteUrl, if_neg (by
      push_neg
      exact ⟨h1, by simp [h2f], h3, h4, h5, by simp [h6f]⟩)]
    rw [rewriteUrlValue, if_neg (by
      simp only [Bool.or_eq_true, decide_eq_true_eq, List.isEmpty_eq_true]
      push_neg
      exact ⟨⟨⟨⟨⟨h1, h4⟩, h5⟩, h3⟩, by simp [h2f]⟩, by simp [h6f]⟩)]
    have hfun : (fun c : Char => !(c = '?') && !(c = '#')) =
        (fun c : Char => !((fun c : Char => c = '?' || c = '#') c)) := by
      funext c
      simp [Bool.not_or]
    have hne : (url.takeWhile fun c => !(c = '?') && !(c = '#')).isEmpty = false := by
      cases url with
      | nil => exact absurd rfl h1
      | cons c rest =>
        have hc4 : ¬(c = '#') := fun he => h4 (by simp [he])
        have hc5 : ¬(c = '?') := fun he => h5 (by simp [he])
        rw [List.takeWhile_cons]
        simp [hc4, hc5]
    simp only []
    rw [hne]
    simp only [Bool.false_eq_true, if_false]
    rw [hfun, takeWhile_not_eq_take_findIdx]
    rw [List.length_take, Nat.min_eq_left (List.findIdx_le_length _)]

/-- C7 (amended): relative-path rewriting is the identity whenever the
template path and the instance path share a directory; and the per-value
rewriter agrees everywhere with the spec's rule — resolve the path portion
of the attribute value against the template's directory, re-express it
relative to the instance document's directory and reattach the trailing
query/fragment suffix — once that rule is restricted to nonempty values:
the code returns every empty value byte-identical, while the claim's
listed exclusions (scheme-qualified, root-relative, fragment- or
query-only, placeholder-bearing) do not cover it (see the
counterexample). -/
theorem c7_path_rewriting :
    (∀ (tp ip : String) (text : List Char),
      posixDirname tp = posixDirname ip → rewriteRelativePaths tp ip text = text) ∧
    ∀ (tDir iDir : String) (url : List Char),
      rewriteUrlValue tDir iDir url = specRewriteUrl tDir iDir url := by
  constructor
  · intro tp ip text h
    simp [rewriteRelativePaths, h]
  · exact rewriteUrlValue_eq_spec

/-- C7 counterexample: the template and instance directories differ and the
empty href value meets every condition the claim lists for rewriting — it
has no scheme, no leading slash, is not fragment- or query-only and holds
no placeholder — and the claim's prescribed rewrite of it is the nonempty
path `../Templates`, yet the code leaves the text byte-identical. -/
theorem c7_empty_url_counterexample :
    ¬(posixDirname "/Templates/t.dwt" = posixDirname "/sub/p.html") ∧
    rewriteRelativePaths "/Templates/t.dwt" "/sub/p.html" c7CtrText = c7CtrText ∧
    ¬((posixRelative (posixDirname "/sub/p.html")
        (posixResolve (posixDirname "/Templates/t.dwt") "")).data = []) := by
  refine ⟨by decide, by decide, by decide⟩

/-- C7 witness: shared directory keeps a relative href byte-identical, and
the per-value rewriter matches the spec rule on a concrete value. -/
theorem c7_path_rewriting_witness :
    posixDirname "/T/a.dwt" = posixDirname "/T/b.html" ∧
    rewriteRelativePaths "/T/a.dwt" "/T/b.html" "<a href=\x22x.png\x22>".data =
      "<a href=\x22x.png\x22>".data ∧
    rewriteUrlValue "/Templates" "/sub" "img/x.png?q#f".data =
      specRewriteUrl "/Templates" "/sub" "img/x.png?q#f".data :=
  ⟨by decide,
    c7_path_rewriting.1 "/T/a.dwt" "/T/b.html" "<a href=\x22x.png\x22>".data (by decide),
    c7_path_rewriting.2 "/Templates" "/sub" "img/x.png?q#f".data⟩

theorem lit_eq_append : ∀ {p l r : List Char}, lit p l = some r → l = p ++ r := by
  intro p
  induction p with
  | nil =>
    intro l r h
    simp only [lit] at h
    cases h
    rfl
  | cons c cs ih =>
    intro l r h
    cases l with
    | nil => simp [lit] at h
    | cons d ds =>
      simp only [lit] at h
      by_cases hd : d = c
      · rw [if_pos hd] at h
        have := ih h
        subst hd
        rw [List.cons_append, ← this]
      · rw [if_neg hd] at h
        cases h

theorem matchHtmlEndWs_none_of_gt {l : List Char} (hlen : 7 < l.length)
    (hlast : l.getLast? = some '>') : matchHtmlEndWs l = none := by
  unfold matchHtmlEndWs
  cases hm : lit "</html>".data l with
  | none => rfl
  | some r =>
    have hl : l = "</html>".data ++ r := lit_eq_append hm
    have hrne : r ≠ [] := by
      intro h0
      rw [h0, List.append_nil] at hl
      rw [hl] at hlen
      simp at hlen
    have hlast2 : r.getLast? = some '>' := by
      rw [hl, List.getLast?_append_of_ne_nil _ hrne] at hlast
      exact hlast
    have hmem : '>' ∈ r := by
      rw [List.getLast?_eq_getLast_of_ne_nil hrne] at hlast2
      have hml := List.getLast_mem hrne
      simp only [Option.some_inj] at hlast2
      rw [hlast2] at hml
      exact hml
    have hall : r.all isJsSpace = false := by
      rw [Bool.eq_false_iff]
      intro hal
      have := List.all_eq_true.mp hal '>' hmem
      simp [isJsSpace] at this
    show (if r.all isJsSpace = true then some ((), ([] : List Char)) else none) = none
    rw [hall]
    simp

theorem expandRepl_cons_ne {m b a : List Char} {g : List (List Char)} {c : Char}
    (hc : ¬(c = '$')) (L : List Char) :
    expandRepl m b a g (c :: L) = c :: expandRepl m b a g L := by
  cases L with
  | nil => simp [expandRepl, hc]
  | cons d L2 =>
    cases L2 with
    | nil => simp [expandRepl, hc]
    | cons e L3 => simp [expandRepl, hc]

theorem expandRepl_append_noDollar {m b a : List Char} {g : List (List Char)} :
    ∀ {x : List Char}, NoChar '$' x = true → ∀ (y : List Char),
      expandRepl m b a g (x ++ y) = x ++ expandRepl m b a g y := by
  intro x
  induction x with
  | nil => intro _ y; rfl
  | cons c cs ih =>
    intro hx y
    have hc : ¬(c = '$') := by
      simp only [NoChar, List.all_cons, Bool.and_eq_true, Bool.not_eq_true',
        decide_eq_false_iff_not] at hx
      exact hx.1
    have hcs : NoChar '$' cs = true := by
      simp only [NoChar, List.all_cons, Bool.and_eq_true] at hx
      exact hx.2
    rw [List.cons_append, expandRepl_cons_ne hc, ih hcs, List.cons_append]

theorem expandRepl_noDollar {t : List Char} (ht : NoChar '$' t = true)
    (m b a : List Char) (g : List (List Char)) :
    expandRepl m b a g t = t := by
  have h : expandRepl m b a g (t ++ []) = t ++ expandRepl m b a g [] :=
    expandRepl_append_noDollar ht []
  simpa only [List.append_nil, expandRepl] using h

theorem expandRepl_g1 (m b a g : List Char) (z : List Char) :
    expandRepl m b a [g] ('$' :: '1' :: '<' :: z) =
      g ++ expandRepl m b a [g] ('<' :: z) := rfl

theorem noChar_intercalate_go {c0 : Char} {sep : String}
    (hsep : NoChar c0 sep.data = true) :
    ∀ (as : List String) (acc : String), NoChar c0 acc.data = true →
      (∀ x ∈ as, NoChar c0 x.data = true) →
      NoChar c0 (String.intercalate.go acc sep as).data = true := by
  intro as
  induction as with
  | nil => intro acc hacc _; exact hacc
  | cons a as ih =>
    intro acc hacc hall
    show NoChar c0 (String.intercalate.go (acc ++ sep ++ a) sep as).data = true
    apply ih
    · rw [String.data_append, String.data_append]
      exact noChar_append (noChar_append hacc hsep) (hall a (List.mem_cons_self _ _))
    · intro x hx
      exact hall x (List.mem_cons_of_mem _ hx)

theorem noChar_intercalate {c0 : Char} {sep : String}
    (hsep : NoChar c0 sep.data = true) {l : List String}
    (hl : ∀ x ∈ l, NoChar c0 x.data = true) :
    NoChar c0 (String.intercalate sep l).data = true := by
  cases l with
  | nil => rfl
  | cons a as =>
    show NoChar c0 (String.intercalate.go a sep as).data = true
    exact noChar_intercalate_go hsep as a (hl a (List.mem_cons_self _ _))
      (fun x hx => hl x (List.mem_cons_of_mem _ hx))

theorem replaceFirstFrom_htmlEnd
    (f : List Char → List Char → Unit → List Char → List Char) {V : List Char}
    (hf : ∀ B, f B "</html>".data () [] = V) :
    ∀ (W B : List Char),
      replaceFirstFrom matchHtmlEndWs f B (W ++ "</html>".data) = W ++ V := by
  intro W
  induction W with
  | nil =>
    intro B
    show replaceFirstFrom matchHtmlEndWs f B ('<' :: "/html>".data) = [] ++ V
    rw [replaceFirstFrom_cons_match "</html>".data () []
      (rfl : matchHtmlEndWs ('<' :: "/html>".data) = some ((), [])) rfl]
    rw [hf]
    simp
  | cons c W ih =>
    intro B
    have hnone : matchHtmlEndWs (c :: (W ++ "</html>".data)) = none := by
      apply matchHtmlEndWs_none_of_gt
      · simp only [List.length_cons, List.length_append]
        have h7 : ("</html>".data).length = 7 := rfl
        omega
      · rw [← List.cons_append,
          List.getLast?_append_of_ne_nil _ (by decide : "</html>".data ≠ [])]
        rfl
    rw [List.cons_append, replaceFirstFrom_cons_none hnone, ih, List.cons_append]

/-- C8 (amended): on a document that decomposes as prefix, `<html>` tag,
head section, `</head>` tag, body and a final `</html>` tag — the prefix
and head section free of `<`, the template path free of `<` and `$`, and
every merged parameter name, type and value free of `$` (so that
`String.replace`'s `$`-substitution leaves the spliced strings literal) —
the marker-insertion stage places the page-instance declaration (template
path plus `codeOutsideHTMLIsLocked` flag) immediately after the opening
root tag, exactly one parameter-value marker per merged parameter
immediately before the closing head tag in map iteration order, and the
instance-end marker immediately before the final closing root tag; a
complete pipeline run on a minimal page shows the same placements, and a
run with the parameter value `$&` shows the `$`-substitution expanding it
to the matched `</head>` text rather than splicing it literally.  The
claim's "in every resolved output" is false: a template with no html
skeleton resolves to itself with no markers at all (see the
counterexample). -/
theorem c8_marker_insertion (path : String) (lk : Bool) (P Q : SMap)
    (p1 p2 p3 : List Char) (hpath : NoChar '<' path.data = true)
    (hpathD : NoChar '$' path.data = true)
    (h1 : NoChar '<' p1 = true) (h2 : NoChar '<' p2 = true)
    (hP : ∀ kv ∈ P, NoChar '$' kv.1.data = true ∧
      NoChar '$' (SMap.getOr Q kv.1 "text").data = true ∧
      NoChar '$' kv.2.data = true) :
    insertInstanceMarkers path lk P Q
        (p1 ++ ("<html>".data ++ (p2 ++ ("</head>".data ++ (p3 ++ "</html>".data))))) =
      p1 ++ (("<html>".data ++
        ("<!-- InstanceBegin template=\x22" ++ path ++
          "\x22 codeOutsideHTMLIsLocked=\x22" ++
          (if lk then "true" else "false") ++ "\x22 -->").data) ++
        (p2 ++ ((String.intercalate "\n" (P.map fun kv =>
            "\t<!-- InstanceParam name=\x22" ++ kv.1 ++ "\x22 type=\x22" ++
              SMap.getOr Q kv.1 "text" ++ "\x22 value=\x22" ++ kv.2 ++
              "\x22 -->") ++ "\n</head>").data ++
          (p3 ++ "<!-- InstanceEnd --></html>\n".data)))) ∧
    resolveTemplate c8Opts = c8Out ∧
    insertInstanceMarkers "/T/p.dwt" true [("a", "$&")] []
        "<html></head></html>".data =
      ("<html><!-- InstanceBegin template=\x22/T/p.dwt\x22 codeOutsideHTMLIsLocked=\x22true\x22 -->" ++
        "\t<!-- InstanceParam name=\x22a\x22 type=\x22text\x22 value=\x22</head>\x22 -->\n</head>" ++
        "<!-- InstanceEnd --></html>\n").data := by
  have hL : NoChar '<' (if lk then "true" else "false").data = true := by
    cases lk <;> decide
  have hLD : NoChar '$' (if lk then "true" else "false").data = true := by
    cases lk <;> decide
  have hMdata : ("<!-- InstanceBegin template=\x22" ++ path ++
      "\x22 codeOutsideHTMLIsLocked=\x22" ++ (if lk then "true" else "false") ++
      "\x22 -->").data =
      "<!-- InstanceBegin template=\x22".data ++ (path.data ++
        ("\x22 codeOutsideHTMLIsLocked=\x22".data ++
          ((if lk then "true" else "false").data ++ "\x22 -->".data))) := by
    simp [String.data_append, List.append_assoc]
  have hT1data : ("$1<!-- InstanceBegin template=\x22" ++ path ++
      "\x22 codeOutsideHTMLIsLocked=\x22" ++ (if lk then "true" else "false") ++
      "\x22 -->").data =
      '$' :: '1' :: '<' :: ("!-- InstanceBegin template=\x22".data ++ (path.data ++
        ("\x22 codeOutsideHTMLIsLocked=\x22".data ++
          ((if lk then "true" else "false").data ++ "\x22 -->".data)))) := by
    simp only [String.data_append, List.append_assoc]
    rfl
  have hexp1 : ∀ (b a : List Char),
      expandRepl "<html>".data b a ["<html>".data]
        ("$1<!-- InstanceBegin template=\x22" ++ path ++
          "\x22 codeOutsideHTMLIsLocked=\x22" ++
          (if lk then "true" else "false") ++ "\x22 -->").data =
      "<html>".data ++ ("<!-- InstanceBegin template=\x22" ++ path ++
        "\x22 codeOutsideHTMLIsLocked=\x22" ++
        (if lk then "true" else "false") ++ "\x22 -->").data := by
    intro b a
    rw [hT1data, hMdata]
    rw [expandRepl_g1]
    rw [show ('<' :: ("!-- InstanceBegin template=\x22".data ++ (path.data ++
        ("\x22 codeOutsideHTMLIsLocked=\x22".data ++
          ((if lk then "true" else "false").data ++ "\x22 -->".data))))) =
      "<!-- InstanceBegin template=\x22".data ++ (path.data ++
        ("\x22 codeOutsideHTMLIsLocked=\x22".data ++
          ((if lk then "true" else "false").data ++ "\x22 -->".data))) from rfl]
    rw [expandRepl_append_noDollar
      (by decide : NoChar '$' "<!-- InstanceBegin template=\x22".data = true)]
    rw [expandRepl_append_noDollar hpathD]
    rw [expandRepl_append_noDollar
      (by decide : NoChar '$' "\x22 codeOutsideHTMLIsLocked=\x22".data = true)]
    rw [expandRepl_append_noDollar hLD]
    rw [expandRepl_noDollar (by decide : NoChar '$' "\x22 -->".data = true)]
  have hT2pieces : ∀ x ∈ P.map (fun kv =>
      "\t<!-- InstanceParam name=\x22" ++ kv.1 ++ "\x22 type=\x22" ++
        SMap.getOr Q kv.1 "text" ++ "\x22 value=\x22" ++ kv.2 ++ "\x22 -->"),
      NoChar '$' x.data = true := by
    intro x hx
    rcases List.mem_map.mp hx with ⟨kv, hkv, rfl⟩
    rcases hP kv hkv with ⟨hk1, hk2, hk3⟩
    simp only [String.data_append]
    exact noChar_append (noChar_append (noChar_append (noChar_append (noChar_append
      (noChar_append (by decide) hk1) (by decide)) hk2) (by decide)) hk3) (by decide)
  have hT2D : NoChar '$' ((String.intercalate "\n" (P.map fun kv =>
      "\t<!-- InstanceParam name=\x22" ++ kv.1 ++ "\x22 type=\x22" ++
        SMap.getOr Q kv.1 "text" ++ "\x22 value=\x22" ++ kv.2 ++ "\x22 -->")) ++
      "\n</head>").data = true := by
    rw [String.data_append]
    exact noChar_append (noChar_intercalate (by decide) hT2pieces) (by decide)
  have ctxPass1 : ∀ (f : List Char → List Char → List Char → List Char → List Char)
      (V : List Char),
      (∀ B, f B "<html>".data "<html>".data
        (p2 ++ ("</head>".data ++ (p3 ++ "</html>".data))) = V) →
      ∀ B0, replaceFirstFrom matchHtmlOpen f B0
        (p1 ++ ("<html>".data ++ (p2 ++ ("</head>".data ++ (p3 ++ "</html>".data))))) =
      p1 ++ (V ++ (p2 ++ ("</head>".data ++ (p3 ++ "</html>".data)))) := by
    intro f V hf B0
    rw [replaceFirstFrom_append_trans headIs_matchHtmlOpen h1]
    show p1 ++ replaceFirstFrom matchHtmlOpen f (B0 ++ p1)
      ('<' :: ("html>".data ++ (p2 ++ ("</head>".data ++ (p3 ++ "</html>".data))))) = _
    rw [replaceFirstFrom_cons_match "<html>".data "<html>".data
      (p2 ++ ("</head>".data ++ (p3 ++ "</html>".data)))
      (rfl : matchHtmlOpen ('<' :: ("html>".data ++
          (p2 ++ ("</head>".data ++ (p3 ++ "</html>".data))))) =
        some ("<html>".data, p2 ++ ("</head>".data ++ (p3 ++ "</html>".data)))) rfl]
    rw [hf]
  have ctxPass2 : ∀ (f : List Char → List Char → Unit → List Char → List Char)
      (V : List Char),
      (∀ B, f B "</head>".data () (p3 ++ "</html>".data) = V) →
      ∀ B0, replaceFirstFrom matchHeadClose f B0
        (p1 ++ (("<html>".data ++
          ("<!-- InstanceBegin template=\x22" ++ path ++
            "\x22 codeOutsideHTMLIsLocked=\x22" ++
            (if lk then "true" else "false") ++ "\x22 -->").data) ++
          (p2 ++ ("</head>".data ++ (p3 ++ "</html>".data))))) =
      p1 ++ (("<html>".data ++
        ("<!-- InstanceBegin template=\x22" ++ path ++
          "\x22 codeOutsideHTMLIsLocked=\x22" ++
          (if lk then "true" else "false") ++ "\x22 -->").data) ++
        (p2 ++ (V ++ (p3 ++ "</html>".data)))) := by
    intro f V hf B0
    rw [hMdata]
    simp only [List.append_assoc]
    rw [replaceFirstFrom_append_trans headIs_matchHeadClose h1]
    show p1 ++ replaceFirstFrom matchHeadClose f (B0 ++ p1)
        ('<' :: ("html>".data ++ ("<!-- InstanceBegin template=\x22".data ++
          (path.data ++ ("\x22 codeOutsideHTMLIsLocked=\x22".data ++
            ((if lk then "true" else "false").data ++ ("\x22 -->".data ++
              (p2 ++ ("</head>".data ++ (p3 ++ "</html>".data)))))))))) = _
    have h0 : matchHeadClose
        ('<' :: ("html>".data ++ ("<!-- InstanceBegin template=\x22".data ++
          (path.data ++ ("\x22 codeOutsideHTMLIsLocked=\x22".data ++
            ((if lk then "true" else "false").data ++ ("\x22 -->".data ++
              (p2 ++ ("</head>".data ++ (p3 ++ "</html>".data)))))))))) = none := rfl
    rw [replaceFirstFrom_cons_none h0]
    rw [replaceFirstFrom_append_trans headIs_matchHeadClose
      (by decide : NoChar '<' "html>".data = true)]
    rw [show ("<!-- InstanceBegin template=\x22".data ++
        (path.data ++ ("\x22 codeOutsideHTMLIsLocked=\x22".data ++
          ((if lk then "true" else "false").data ++ ("\x22 -->".data ++
            (p2 ++ ("</head>".data ++ (p3 ++ "</html>".data)))))) : List Char)) =
      '<' :: ("!-- InstanceBegin template=\x22".data ++
        (path.data ++ ("\x22 codeOutsideHTMLIsLocked=\x22".data ++
          ((if lk then "true" else "false").data ++ ("\x22 -->".data ++
            (p2 ++ ("</head>".data ++ (p3 ++ "</html>".data)))))))) from rfl]
    have h0b : matchHeadClose
        ('<' :: ("!-- InstanceBegin template=\x22".data ++
          (path.data ++ ("\x22 codeOutsideHTMLIsLocked=\x22".data ++
            ((if lk then "true" else "false").data ++ ("\x22 -->".data ++
              (p2 ++ ("</head>".data ++ (p3 ++ "</html>".data))))))))) = none := rfl
    rw [replaceFirstFrom_cons_none h0b]
    rw [replaceFirstFrom_append_trans headIs_matchHeadClose
      (by decide : NoChar '<' "!-- InstanceBegin template=\x22".data = true)]
    rw [replaceFirstFrom_append_trans headIs_matchHeadClose hpath]
    rw [replaceFirstFrom_append_trans headIs_matchHeadClose
      (by decide : NoChar '<' "\x22 codeOutsideHTMLIsLocked=\x22".data = true)]
    rw [replaceFirstFrom_append_trans headIs_matchHeadClose hL]
    rw [replaceFirstFrom_append_trans headIs_matchHeadClose
      (by decide : NoChar '<' "\x22 -->".data = true)]
    rw [replaceFirstFrom_append_trans headIs_matchHeadClose h2]
    rw [show ("</head>".data ++ (p3 ++ "</html>".data) : List Char) =
      '<' :: ("/head>".data ++ (p3 ++ "</html>".data)) from rfl]
    rw [replaceFirstFrom_cons_match "</head>".data () (p3 ++ "</html>".data)
      (rfl : matchHeadClose ('<' :: ("/head>".data ++ (p3 ++ "</html>".data))) =
        some ((), p3 ++ "</html>".data)) rfl]
    rw [hf]
    simp only [List.append_assoc]
    rfl
  refine ⟨?_, by decide, by decide⟩
  simp only [insertInstanceMarkers, replaceFirstCtx]
  rw [ctxPass1 (fun before matched tag rest => expandRepl matched before rest [tag]
      ("$1<!-- InstanceBegin template=\x22" ++ path ++
        "\x22 codeOutsideHTMLIsLocked=\x22" ++
        (if lk then "true" else "false") ++ "\x22 -->").data)
    ("<html>".data ++ ("<!-- InstanceBegin template=\x22" ++ path ++
      "\x22 codeOutsideHTMLIsLocked=\x22" ++
      (if lk then "true" else "false") ++ "\x22 -->").data)
    (fun B => hexp1 B (p2 ++ ("</head>".data ++ (p3 ++ "</html>".data))))]
  rw [ctxPass2 (fun before matched x rest => expandRepl matched before rest []
      ((String.intercalate "\n" (P.map fun kv =>
        "\t<!-- InstanceParam name=\x22" ++ kv.1 ++ "\x22 type=\x22" ++
          SMap.getOr Q kv.1 "text" ++ "\x22 value=\x22" ++ kv.2 ++ "\x22 -->")) ++
        "\n</head>").data)
    ((String.intercalate "\n" (P.map fun kv =>
        "\t<!-- InstanceParam name=\x22" ++ kv.1 ++ "\x22 type=\x22" ++
          SMap.getOr Q kv.1 "text" ++ "\x22 value=\x22" ++ kv.2 ++ "\x22 -->")) ++
        "\n</head>").data
    (fun B => expandRepl_noDollar hT2D "</head>".data B (p3 ++ "</html>".data) [])]
  simp only [← List.append_assoc]
  rw [replaceFirstFrom_htmlEnd
    (fun before matched x rest => expandRepl matched before rest []
      "<!-- InstanceEnd --></html>\n".data)
    (fun B => expandRepl_noDollar
      (by decide : NoChar '$' "<!-- InstanceEnd --></html>\n".data = true)
      "</html>".data B [] [])]

/-- C8 counterexample: resolving a template with no html skeleton returns
the text unchanged — the output carries no instance declaration at all —
refuting the claim's "in every resolved output". -/
theorem c8_marker_insertion_counterexample :
    resolveTemplate c8CtrOpts = "hello".data ∧
    hasSub (resolveTemplate c8CtrOpts) "InstanceBegin".data = false := by
  refine ⟨by decide, by decide⟩

/-- C8 witness: a concrete skeleton satisfies the hypotheses and all three
conclusions. -/
theorem c8_marker_insertion_witness :
    (NoChar '<' "/T/p.dwt".data = true ∧ NoChar '$' "/T/p.dwt".data = true ∧
      NoChar '<' "A".data = true ∧ NoChar '<' "B".data = true ∧
      (∀ kv ∈ ([("a", "1")] : SMap), NoChar '$' kv.1.data = true ∧
        NoChar '$' (SMap.getOr [] kv.1 "text").data = true ∧
        NoChar '$' kv.2.data = true)) ∧
    (insertInstanceMarkers "/T/p.dwt" true [("a", "1")] []
        ("A".data ++ ("<html>".data ++ ("B".data ++ ("</head>".data ++
          ("C".data ++ "</html>".data))))) =
      "A".data ++ (("<html>".data ++
        ("<!-- InstanceBegin template=\x22" ++ "/T/p.dwt" ++
          "\x22 codeOutsideHTMLIsLocked=\x22" ++
          (if true then "true" else "false") ++ "\x22 -->").data) ++
        ("B".data ++ ((String.intercalate "\n"
            (([("a", "1")] : SMap).map fun kv =>
            "\t<!-- InstanceParam name=\x22" ++ kv.1 ++ "\x22 type=\x22" ++
              SMap.getOr [] kv.1 "text" ++ "\x22 value=\x22" ++ kv.2 ++
              "\x22 -->") ++ "\n</head>").data ++
          ("C".data ++ "<!-- InstanceEnd --></html>\n".data)))) ∧
      resolveTemplate c8Opts = c8Out ∧
      insertInstanceMarkers "/T/p.dwt" true [("a", "$&")] []
          "<html></head></html>".data =
        ("<html><!-- InstanceBegin template=\x22/T/p.dwt\x22 codeOutsideHTMLIsLocked=\x22true\x22 -->" ++
          "\t<!-- InstanceParam name=\x22a\x22 type=\x22text\x22 value=\x22</head>\x22 -->\n</head>" ++
          "<!-- InstanceEnd --></html>\n").data) :=
  ⟨by decide, c8_marker_insertion "/T/p.dwt" true [("a", "1")] []
    "A".data "B".data "C".data (by decide) (by decide) (by decide) (by decide)
    (by decide)⟩

end DwtGuard
